import Mathlib

/-!
# doris-sinker: batcher, schema and mapper

A shallow embedding of the Go sources
`internal/batcher/batcher.go`, `internal/schema/schema.go` and
`internal/schema/mapper.go`, with the properties of the specification
stated and proved over it.

Conventions of the embedding.

* A Go `interface{}` cell is a `Value`, one constructor per dynamic type that
  the sources distinguish in their type switches.
* A Go `error` is an `Error`; `Error.nil` is the nil interface.
* Wall-clock reads (`time.Now`, `time.Since`) become an explicit argument
  `now`, the monotonic clock reading in nanoseconds.
* `time.Duration` is an `int64` count of nanoseconds: arithmetic on it wraps
  (`wrapInt64`) and `Time.Sub` saturates (`Since`).
* A call that can panic returns `Option`; `none` is the panic.
* The mutex of the batcher makes every method body atomic, so a method is a
  function from the state before to the state after.
-/

namespace DorisSinker

/-! ## Values, rows and errors -/

/-- Dynamic Go value held in an `interface{}` cell of a row. `float64` carries
the IEEE-754 bit pattern, `jsonNumber` is `encoding/json.Number` (a named
string type), `other` is any further dynamic type. -/
inductive Value where
  | nil
  | str (s : String)
  | int (n : Int)
  | int64 (n : Int)
  | float64 (bits : Nat)
  | bool (b : Bool)
  | jsonNumber (s : String)
  | other (typeName : String)
  deriving DecidableEq, Repr

/-- Row of the batcher: `[]interface{}`. -/
abbrev Row := List Value

/-- Go `error` interface value. `sinker` is `*errors.SinkerError` with its
fields `Code`, `Message`, `Err`; `foreign` is an error made by a library. -/
inductive Error where
  | nil
  | foreign (msg : String)
  | sinker (Code : Int) (Message : String) (Err : Error)
  deriving DecidableEq, Repr

/-! ## Time -/

def minDuration : Int := -(2 ^ 63)

def maxDuration : Int := 2 ^ 63 - 1

/-- Two's complement wrap of an integer into the `int64` range. -/
def wrapInt64 (x : Int) : Int := (x + 2 ^ 63) % 2 ^ 64 - 2 ^ 63

/-- Go `time.Since(t)` at clock reading `now`: the difference of the monotonic
readings, saturated to the `Duration` range. -/
def Since (now t : Int) : Int :=
  if now - t > maxDuration then maxDuration
  else if now - t < minDuration then minDuration
  else now - t

/-- Go `time.Duration(n) * time.Second`. -/
def Seconds (n : Int) : Int := wrapInt64 (n * 1000000000)

/-! ## Channel of capacity `capacity` carrying `struct{}` tokens -/

structure Chan where
  buffered : Nat
  capacity : Nat
  closed : Bool
  deriving DecidableEq, Repr

/-- Go `make(chan struct{}, n)`. -/
def Chan.make (n : Nat) : Chan := { buffered := 0, capacity := n, closed := false }

/-- Go `select { case ch <- struct{}{}: default: }`. A send on a closed channel
panics (`none`); on a full channel the `default` branch runs. -/
def Chan.trySend (c : Chan) : Option Chan :=
  if c.closed then none
  else if c.buffered < c.capacity then some { c with buffered := c.buffered + 1 }
  else some c

/-- Go `<-ch`: `none` when the receive blocks (open and empty). A closed
empty channel yields the zero value at once. -/
def Chan.recv (c : Chan) : Option Chan :=
  if 0 < c.buffered then some { c with buffered := c.buffered - 1 }
  else if c.closed then some c
  else none

/-- Go `close(ch)`: closing a closed channel panics. -/
def Chan.close (c : Chan) : Option Chan :=
  if c.closed then none else some { c with closed := true }

/-! ## internal/batcher/batcher.go -/

/-- Go `config.BatchConfig`. -/
structure BatchConfig where
  MaxBatchRows : Int
  MaxBatchSize : Int
  MaxBatchInterval : Int
  FlushWorkerCount : Int
  deriving DecidableEq, Repr

/-- Go `MemoryBatcher` without its mutex. -/
structure MemoryBatcher where
  cfg : BatchConfig
  rows : List Row
  currentSize : Int
  flushChan : Chan
  lastFlushTime : Int
  closed : Bool
  deriving DecidableEq, Repr

/-- Go `NewMemoryBatcher(cfg)` called at clock reading `now`. -/
def NewMemoryBatcher (cfg : BatchConfig) (now : Int) : MemoryBatcher :=
  { cfg := cfg
    rows := []
    currentSize := 0
    flushChan := Chan.make 1
    lastFlushTime := now
    closed := false }

/-- Contribution of one cell to `estimateRowSize`: the byte length of a
`string`, 8 for `int`, `int64`, `float64`, `bool` and for everything else. -/
def valueSize : Value → Int
  | Value.str s => s.utf8ByteSize
  | Value.int _ => 8
  | Value.int64 _ => 8
  | Value.float64 _ => 8
  | Value.bool _ => 8
  | _ => 8

/-- Go `estimateRowSize(row)`. -/
def estimateRowSize (row : Row) : Int :=
  row.foldl (fun size v => size + valueSize v) 0

/-- Go `(*MemoryBatcher).shouldFlushLocked` evaluated at clock reading `now`. -/
def shouldFlushLocked (b : MemoryBatcher) (now : Int) : Bool :=
  if (b.rows.length : Int) ≥ b.cfg.MaxBatchRows then true
  else if b.currentSize ≥ b.cfg.MaxBatchSize then true
  else if Since now b.lastFlushTime ≥ Seconds b.cfg.MaxBatchInterval then
    decide (b.rows.length > 0)
  else false

/-- Go `(*MemoryBatcher).ShouldFlush`. -/
def ShouldFlush (b : MemoryBatcher) (now : Int) : Bool :=
  shouldFlushLocked b now

/-- Go `(*MemoryBatcher).Add(row)` at clock reading `now`: the state after and
the returned error; `none` when the send panics. -/
def Add (b : MemoryBatcher) (row : Row) (now : Int) : Option (MemoryBatcher × Error) :=
  if b.closed then some (b, Error.nil)
  else
    let rowSize := estimateRowSize row
    let b1 := { b with rows := b.rows ++ [row], currentSize := b.currentSize + rowSize }
    if shouldFlushLocked b1 now then
      match b1.flushChan.trySend with
      | none => none
      | some c => some ({ b1 with flushChan := c }, Error.nil)
    else some (b1, Error.nil)

/-- Go `(*MemoryBatcher).Flush()` at clock reading `now`: the state after, the
returned batch (the nil slice is the empty list) and the returned error. The
batch is a copy, so later appends to `rows` do not reach it. -/
def Flush (b : MemoryBatcher) (now : Int) : MemoryBatcher × List Row × Error :=
  if b.rows.length = 0 then (b, [], Error.nil)
  else
    let batch := b.rows
    ({ b with rows := [], currentSize := 0, lastFlushTime := now }, batch, Error.nil)

/-- Go `(*MemoryBatcher).Size`. -/
def Size (b : MemoryBatcher) : Nat := b.rows.length

/-- Go `(*MemoryBatcher).Close()`: `none` when `close` panics. -/
def Close (b : MemoryBatcher) : Option (MemoryBatcher × Error) :=
  match b.flushChan.close with
  | none => none
  | some c => some ({ b with closed := true, flushChan := c }, Error.nil)

/-- Caller of the batcher methods issues `Add` and `Flush` calls. -/
inductive Call where
  | add (row : Row) (now : Int)
  | flush (now : Int)
  deriving DecidableEq, Repr

/-- Runs a sequence of `Add` and `Flush` calls; yields the final state and the
batches returned by the `Flush` calls, in call order. `none` when a call
panics. -/
def runCalls : MemoryBatcher → List Call → Option (MemoryBatcher × List (List Row))
  | b, [] => some (b, [])
  | b, Call.add row now :: rest =>
    match Add b row now with
    | none => none
    | some (b1, _) => runCalls b1 rest
  | b, Call.flush now :: rest =>
    match Flush b now with
    | (b1, batch, _) =>
      match runCalls b1 rest with
      | none => none
      | some (b2, batches) => some (b2, batch :: batches)

/-- Rows passed to `Add` in a call sequence, in call order. -/
def addedRows : List Call → List Row
  | [] => []
  | Call.add row _ :: rest => row :: addedRows rest
  | Call.flush _ :: rest => addedRows rest

/-- Reference reading of the call sequence: `held` are the rows added since
the previous `Flush`; every `Flush` hands out exactly those and starts anew.
Yields the batches and the rows still held at the end. -/
def segments (held : List Row) : List Call → List (List Row) × List Row
  | [] => ([], held)
  | Call.add row _ :: rest => segments (held ++ [row]) rest
  | Call.flush _ :: rest => ((segments [] rest).1.cons held, (segments [] rest).2)

/-- Batcher as left by `NewMemoryBatcher` and kept by every method short of
`Close`: not closed, signal channel open and of capacity 1. -/
def IsOpen (b : MemoryBatcher) : Prop :=
  b.closed = false ∧ b.flushChan.closed = false ∧ b.flushChan.capacity = 1

instance (b : MemoryBatcher) : Decidable (IsOpen b) := by
  unfold IsOpen; infer_instance

/-! ### The batcher with its timer goroutine and the dispatcher -/

/-- Batcher together with the control point of the `Start` goroutine:
`timerSend` holds between a tick on which `ShouldFlush()` was true and the
`select` that follows it. -/
structure System where
  batcher : MemoryBatcher
  timerSend : Bool
  deriving DecidableEq, Repr

/-- Atomic steps of the goroutines that touch the batcher. -/
inductive Event where
  | add (row : Row) (now : Int)
  | flush (now : Int)
  | tick (now : Int)
  | tickSend
  | receive
  | close
  deriving DecidableEq, Repr

inductive StepResult where
  | next (s : System)
  | disabled
  | panic
  deriving DecidableEq, Repr

/-- One atomic step. `tick` is the body of `case <-ticker.C` up to the result
of `b.ShouldFlush()`, `tickSend` the non-blocking send of `Start`, `receive`
the dispatcher reading `FlushChan()`. -/
def step (s : System) : Event → StepResult
  | Event.add row now =>
    match Add s.batcher row now with
    | none => StepResult.panic
    | some (b, _) => StepResult.next { s with batcher := b }
  | Event.flush now => StepResult.next { s with batcher := (Flush s.batcher now).1 }
  | Event.tick now =>
    if s.timerSend then StepResult.disabled
    else StepResult.next { s with timerSend := ShouldFlush s.batcher now }
  | Event.tickSend =>
    if s.timerSend then
      match s.batcher.flushChan.trySend with
      | none => StepResult.panic
      | some c => StepResult.next { batcher := { s.batcher with flushChan := c }, timerSend := false }
    else StepResult.disabled
  | Event.receive =>
    match s.batcher.flushChan.recv with
    | none => StepResult.disabled
    | some c => StepResult.next { s with batcher := { s.batcher with flushChan := c } }
  | Event.close =>
    match Close s.batcher with
    | none => StepResult.panic
    | some (b, _) => StepResult.next { s with batcher := b }

/-- State reached by a sequence of steps, each of which is enabled and does
not panic. -/
def runEvents : System → List Event → Option System
  | s, [] => some s
  | s, e :: rest =>
    match step s e with
    | StepResult.next s1 => runEvents s1 rest
    | _ => none

/-- System right after `NewMemoryBatcher(cfg)` at clock reading `now`. -/
def initSystem (cfg : BatchConfig) (now : Int) : System :=
  { batcher := NewMemoryBatcher cfg now, timerSend := false }

/-! ## internal/schema/schema.go -/

/-- Go `schema.Column`; the field `Type` is `Type_` here. -/
structure Column where
  Name : String
  Type_ : String
  deriving DecidableEq, Repr

/-- Go `schema.Schema`; the map `fieldIndex` is an association list in which
the first pair for a name is the binding. -/
structure Schema where
  Columns : List Column
  fieldIndex : List (String × Nat)
  deriving DecidableEq, Repr

/-- Loop of `NewSchema`: `fieldIndex[col.Name] = i` for `i` counting from `i`. -/
def indexColumns : List Column → Nat → List (String × Nat) → List (String × Nat)
  | [], _, m => m
  | col :: rest, i, m => indexColumns rest (i + 1) ((col.Name, i) :: m)

/-- Go `NewSchema(columns)`. -/
def NewSchema (columns : List Column) : Schema :=
  { Columns := columns, fieldIndex := indexColumns columns 0 [] }

/-- Go `(*Schema).ColumnCount`. -/
def Schema.ColumnCount (s : Schema) : Nat := s.Columns.length

/-- Pieces of a character list between occurrences of `sep`. -/
def splitChars (sep : Char) : List Char → List (List Char)
  | [] => [[]]
  | c :: cs =>
    if c = sep then [] :: splitChars sep cs
    else
      match splitChars sep cs with
      | [] => [[c]]
      | piece :: pieces => (c :: piece) :: pieces

/-- Go `strings.Split(s, sep)` for a separator of one ASCII character. -/
def Split (s : String) (sep : Char) : List String :=
  (splitChars sep s.data).map String.mk

/-- Go `unicode.ToUpper` on one rune: the ASCII letters are mapped here, the
runes above ASCII by `upperTable`, the case tables of the Go library. -/
def runeToUpper (upperTable : Char → Char) (c : Char) : Char :=
  if c.toNat < 128 then
    (if 97 ≤ c.toNat ∧ c.toNat ≤ 122 then Char.ofNat (c.toNat - 32) else c)
  else upperTable c

/-- Go `strings.ToUpper(s)`. -/
def ToUpper (upperTable : Char → Char) (s : String) : String :=
  String.mk (s.data.map (runeToUpper upperTable))

/-- Go `unicode.IsSpace`: the code points with the White_Space property. -/
def isSpace (c : Char) : Bool :=
  let n := c.toNat
  (9 ≤ n && n ≤ 13) || n == 32 || n == 133 || n == 160 || n == 5760 ||
  (8192 ≤ n && n ≤ 8202) || n == 8232 || n == 8233 || n == 8239 || n == 8287 ||
  n == 12288

/-- Go `strings.TrimSpace(s)`. -/
def TrimSpace (s : String) : String :=
  String.mk ((s.data.dropWhile isSpace).reverse.dropWhile isSpace).reverse

/-- Go `MapDorisType(dorisType)`. -/
def MapDorisType (upperTable : Char → Char) (dorisType : String) : String :=
  let baseType := ToUpper upperTable ((Split dorisType '(').headD "")
  let baseType := TrimSpace baseType
  if baseType ∈ ["TINYINT", "SMALLINT", "INT", "INTEGER"] then "INT"
  else if baseType ∈ ["BIGINT"] then "BIGINT"
  else if baseType ∈ ["BOOLEAN", "BOOL"] then "BOOLEAN"
  else if baseType ∈ ["FLOAT", "DOUBLE", "DECIMAL"] then "FLOAT"
  else if baseType ∈ ["CHAR", "VARCHAR"] then "VARCHAR"
  else if baseType ∈ ["STRING", "TEXT", "MEDIUMTEXT", "LONGTEXT"] then "STRING"
  else if baseType ∈ ["DATE"] then "DATE"
  else if baseType ∈ ["DATETIME", "TIMESTAMP"] then "DATETIME"
  else "STRING"

/-- Go `GetZeroValue(dataType)`. -/
def GetZeroValue (dataType : String) : Value :=
  if dataType ∈ ["BIGINT", "INT"] then Value.int64 0
  else if dataType ∈ ["BOOLEAN"] then Value.bool false
  else if dataType ∈ ["FLOAT"] then Value.float64 0
  else if dataType ∈ ["VARCHAR", "STRING", "DATE", "DATETIME"] then Value.str ""
  else Value.nil

/-! ## internal/schema/mapper.go

The JSON library `github.com/bytedance/sonic` is outside the repository. It
enters as a parameter: `Sonic.Get` is `sonic.Get(jsonBytes, name)`, and an
`ast.Node` is the record of what its methods return. The result types are
those of the library signatures: `Int64() (int64, error)`,
`Bool() (bool, error)`, `Number() (json.Number, error)`,
`String() (string, error)`. -/

/-- What the mapper can observe of a sonic `ast.Node`. -/
structure Node where
  exist : Bool
  int64 : Except Error Int
  bool : Except Error Bool
  number : Except Error String
  string : Except Error String

/-- The library: `Get jsonBytes name` is `sonic.Get(jsonBytes, name)`. -/
structure Sonic where
  Get : List UInt8 → String → Except Error Node

def ErrCodeTypeConvert : Int := 2004

/-- Go `errors.Wrap(code, message, err)`. -/
def Wrap (code : Int) (message : String) (err : Error) : Error :=
  Error.sinker code message err

/-- Go `(*Mapper).extractValue(node, dataType, fieldName)`. -/
def extractValue (node : Node) (dataType : String) (_fieldName : String) : Value × Error :=
  if dataType ∈ ["INT", "BIGINT"] then
    match node.int64 with
    | Except.error err => (Value.nil, Wrap ErrCodeTypeConvert "failed to convert to int" err)
    | Except.ok val => (Value.int64 val, Error.nil)
  else if dataType ∈ ["BOOLEAN"] then
    match node.bool with
    | Except.error err => (Value.nil, Wrap ErrCodeTypeConvert "failed to convert to boolean" err)
    | Except.ok val => (Value.bool val, Error.nil)
  else if dataType ∈ ["FLOAT"] then
    match node.number with
    | Except.error err => (Value.nil, Wrap ErrCodeTypeConvert "failed to convert to float" err)
    | Except.ok val => (Value.jsonNumber val, Error.nil)
  else if dataType ∈ ["VARCHAR", "STRING", "DATE", "DATETIME"] then
    match node.string with
    | Except.error err => (Value.nil, Wrap ErrCodeTypeConvert "failed to convert to string" err)
    | Except.ok val => (Value.str val, Error.nil)
  else
    match node.string with
    | Except.error err =>
      (Value.nil, Wrap ErrCodeTypeConvert "failed to convert unknown type" err)
    | Except.ok val => (Value.str val, Error.nil)

/-- Body of the loop of `MapJSONToRow` for one column: the value stored in
`row[i]`. -/
def columnValue (lib : Sonic) (jsonBytes : List UInt8) (col : Column) : Value :=
  match lib.Get jsonBytes col.Name with
  | Except.error _ => GetZeroValue col.Type_
  | Except.ok node =>
    if !node.exist then GetZeroValue col.Type_
    else
      match extractValue node col.Type_ col.Name with
      | (value, err) => if err ≠ Error.nil then GetZeroValue col.Type_ else value

/-- Loop `for i, col := range m.schema.Columns` of `MapJSONToRow`, from index
`i` on, writing `row[i]`. -/
def mapColumns (lib : Sonic) (jsonBytes : List UInt8) : List Column → Nat → Row → Row
  | [], _, row => row
  | col :: rest, i, row =>
    mapColumns lib jsonBytes rest (i + 1) (row.set i (columnValue lib jsonBytes col))

/-- Go `(*Mapper).MapJSONToRow(jsonBytes)` for the mapper of `schema`. -/
def MapJSONToRow (lib : Sonic) (schema : Schema) (jsonBytes : List UInt8) : Row × Error :=
  let row := List.replicate schema.ColumnCount Value.nil
  (mapColumns lib jsonBytes schema.Columns 0 row, Error.nil)

/-- Dynamic type of a Go value. -/
inductive GoType where
  | nil
  | string
  | int
  | int64
  | float64
  | bool
  | jsonNumber
  | other (typeName : String)
  deriving DecidableEq, Repr

def Value.typeOf : Value → GoType
  | Value.nil => GoType.nil
  | Value.str _ => GoType.string
  | Value.int _ => GoType.int
  | Value.int64 _ => GoType.int64
  | Value.float64 _ => GoType.float64
  | Value.bool _ => GoType.bool
  | Value.jsonNumber _ => GoType.jsonNumber
  | Value.other t => GoType.other t

/-- The eight internal type tags. -/
def typeTags : List String :=
  ["INT", "BIGINT", "BOOLEAN", "FLOAT", "VARCHAR", "STRING", "DATE", "DATETIME"]

/-- Runtime type that the specification assigns to a column type: a 64-bit
integer for INT and BIGINT, a bool for BOOLEAN, a 64-bit float for FLOAT, a
string for VARCHAR, STRING, DATE and DATETIME. -/
def specType (tag : String) : Option GoType :=
  if tag ∈ ["INT", "BIGINT"] then some GoType.int64
  else if tag ∈ ["BOOLEAN"] then some GoType.bool
  else if tag ∈ ["FLOAT"] then some GoType.float64
  else if tag ∈ ["VARCHAR", "STRING", "DATE", "DATETIME"] then some GoType.string
  else none

/-! ### Example documents

Library instances for the worked examples: a document is given by its
top-level fields, and `Get` on a name outside them fails, as `sonic.Get` does
with `ErrNotExist`. -/

/-- Node of a JSON number with text `raw` and integer value `i`. -/
def numberNode (raw : String) (i : Int) : Node :=
  { exist := true
    int64 := Except.ok i
    bool := Except.ok (decide (i ≠ 0))
    number := Except.ok raw
    string := Except.ok raw }

/-- Node of a JSON string `s` that is not the text of a number or a bool. -/
def textNode (s : String) : Node :=
  { exist := true
    int64 := Except.error (Error.foreign "unsupported type")
    bool := Except.error (Error.foreign "invalid syntax")
    number := Except.error (Error.foreign "unsupported type")
    string := Except.ok s }

/-- Library restricted to one document with the given top-level fields. -/
def documentLib (fields : List (String × Node)) : Sonic :=
  { Get := fun _ name =>
      match fields.lookup name with
      | some node => Except.ok node
      | none => Except.error (Error.foreign "value not exists") }

/-! ## pkg/errors/errors.go -/

def ErrCodeKafkaConnect : Int := 1001

def ErrCodeKafkaConsume : Int := 1002

def ErrCodeKafkaCommit : Int := 1003

def ErrCodeSchemaFetch : Int := 2001

def ErrCodeJSONParse : Int := 2002

def ErrCodeFieldMapping : Int := 2003

def ErrCodeBatchFull : Int := 3001

def ErrCodeBatchFlush : Int := 3002

def ErrCodeDorisConnect : Int := 4001

def ErrCodeDorisStreamLoad : Int := 4002

def ErrCodeDorisQuery : Int := 4003

def ErrCodeConfigLoad : Int := 5001

def ErrCodeConfigValidate : Int := 5002

/-- Go `errors.New(code, message)`: the field `Err` stays nil. -/
def New (code : Int) (message : String) : Error :=
  Error.sinker code message Error.nil

/-- Go `IsRetryable(err)`. The type assertion `err.(*SinkerError)` looks at the
error itself, not at what it wraps. -/
def IsRetryable (err : Error) : Bool :=
  match err with
  | Error.nil => false
  | Error.sinker code _ _ =>
    if code ∈ [ErrCodeKafkaConnect, ErrCodeDorisConnect, ErrCodeDorisStreamLoad] then true
    else false
  | Error.foreign _ => false

/-- The fourteen error codes that `errors.go` declares. -/
def errorCodes : List Int :=
  [ErrCodeKafkaConnect, ErrCodeKafkaConsume, ErrCodeKafkaCommit, ErrCodeSchemaFetch,
   ErrCodeJSONParse, ErrCodeFieldMapping, ErrCodeTypeConvert, ErrCodeBatchFull,
   ErrCodeBatchFlush, ErrCodeDorisConnect, ErrCodeDorisStreamLoad, ErrCodeDorisQuery,
   ErrCodeConfigLoad, ErrCodeConfigValidate]

/-! ## internal/writer/json_builder.go

The buffer `*bytes.Buffer` is the string written so far. `strconv.FormatFloat`
and `sonic.Marshal` are outside the repository and enter through `Encoder`. -/

/-- Library functions used by `writeValue`: `FormatFloat bits` is
`strconv.FormatFloat(v, 'f', -1, 64)` for the float with these bits, `Marshal v`
is `sonic.Marshal(v)`. -/
structure Encoder where
  FormatFloat : Nat → String
  Marshal : Value → Except Error String

/-- Go `strconv.FormatInt(v, 10)` and `strconv.Itoa(v)`: the decimal digits,
after a minus sign when `v` is negative. -/
def FormatInt (v : Int) : String :=
  if v < 0 then "-" ++ Nat.repr v.natAbs else Nat.repr v.toNat

/-- Go `writeValue(buf, val)`. -/
def writeValue (enc : Encoder) (buf : String) (val : Value) : String :=
  match val with
  | Value.str v => buf ++ "\"" ++ v ++ "\""
  | Value.int v => buf ++ FormatInt v
  | Value.int64 v => buf ++ FormatInt v
  | Value.float64 v => buf ++ enc.FormatFloat v
  | Value.bool v => if v then buf ++ "true" else buf ++ "false"
  | Value.nil => buf ++ "null"
  | v =>
    match enc.Marshal v with
    | Except.error _ => buf ++ "null"
    | Except.ok jsonBytes => buf ++ jsonBytes

/-- Loop `for j, col := range columns` of `BuildJSONLines` for one row, from
index `j` on. -/
def writeColumns (enc : Encoder) (row : Row) : List String → Nat → String → String
  | [], _, buf => buf
  | col :: rest, j, buf =>
    if j < row.length then
      let buf1 := if j > 0 then buf ++ "," else buf
      let buf2 := buf1 ++ "\"" ++ col ++ "\"" ++ ":"
      writeColumns enc row rest (j + 1) (writeValue enc buf2 (row.getD j Value.nil))
    else writeColumns enc row rest (j + 1) buf

/-- Loop `for i, row := range batch` of `BuildJSONLines`, from index `i` on;
`n` is `len(batch)`. -/
def writeRows (enc : Encoder) (columns : List String) (n : Nat) :
    List Row → Nat → String → String
  | [], _, buf => buf
  | row :: rest, i, buf =>
    let buf1 := buf ++ "\x7b"
    let buf2 := writeColumns enc row columns 0 buf1
    let buf3 := buf2 ++ "\x7d"
    let buf4 := if (i : Int) < (n : Int) - 1 then buf3 ++ "\n" else buf3
    writeRows enc columns n rest (i + 1) buf4

/-- Go `BuildJSONLines(batch, columns)`: the contents of the returned buffer. -/
def BuildJSONLines (enc : Encoder) (batch : List Row) (columns : List String) : String :=
  if batch.length = 0 then ""
  else writeRows enc columns batch.length batch 0 ""

/-- Strings joined by a separator. -/
def joinWith (sep : String) : List String → String
  | [] => ""
  | [x] => x
  | x :: y :: rest => x ++ sep ++ joinWith sep (y :: rest)

/-- Text of one value as the specification renders it: the decimal digits of
an integer, `true` or `false`, `null` for nil, the bytes of a string between
double quotes. Floats and other types go through the library. -/
def valueText (enc : Encoder) : Value → String
  | Value.nil => "null"
  | Value.bool true => "true"
  | Value.bool false => "false"
  | Value.int n => FormatInt n
  | Value.int64 n => FormatInt n
  | Value.str s => "\"" ++ s ++ "\""
  | Value.float64 bits => enc.FormatFloat bits
  | Value.jsonNumber s =>
    match enc.Marshal (Value.jsonNumber s) with
    | Except.error _ => "null"
    | Except.ok text => text
  | Value.other t =>
    match enc.Marshal (Value.other t) with
    | Except.error _ => "null"
    | Except.ok text => text

/-- One `"name":value` pair of a row object. -/
def pairText (enc : Encoder) (name : String) (v : Value) : String :=
  "\"" ++ name ++ "\"" ++ ":" ++ valueText enc v

/-- Object of one row as the specification describes it: `{`, the pairs of the
columns with the values at the same positions, separated by commas, `}`. -/
def rowObject (enc : Encoder) (columns : List String) (row : Row) : String :=
  "\x7b" ++ joinWith "," (List.zipWith (pairText enc) columns row) ++ "\x7d"

/-- Encoder for the examples: floats and library-marshalled values are not
used in them. -/
def exampleEncoder : Encoder :=
  { FormatFloat := fun _ => "0"
    Marshal := fun _ => Except.error (Error.foreign "unsupported") }

/-! ## internal/writer/stream_load.go

`net/http` and `encoding/json` are outside the repository. `HTTPWorld` is what
they do during one call of `doStreamLoad`. -/

/-- Go `config.DorisConfig`. -/
structure DorisConfig where
  FEHosts : List String
  QueryPort : Int
  Database : String
  Table : String
  User : String
  Password : String
  Timeout : Int
  MaxRetries : Int
  deriving DecidableEq, Repr

/-- Go `StreamLoadWriter` without its HTTP client. -/
structure StreamLoadWriter where
  cfg : DorisConfig
  authHeader : String
  columns : List String
  deriving DecidableEq, Repr

/-- Go `StreamLoadResult`: the fields that the code reads. -/
structure StreamLoadResult where
  Status : String
  Message : String
  NumberLoadedRows : Int
  NumberFilteredRows : Int
  LoadTimeMs : Int
  deriving DecidableEq, Repr

/-- Request built by `doStreamLoad`. -/
structure Request where
  Method : String
  URL : String
  Header : List (String × String)
  Body : String
  deriving DecidableEq, Repr

/-- Response as `doStreamLoad` sees it: the status code and the result of
`io.ReadAll(resp.Body)`. -/
structure Response where
  StatusCode : Int
  Body : Except Error String

/-- The libraries during one attempt: `NewRequest method url` is the error of
`http.NewRequestWithContext`, `Do` is `httpClient.Do`, `Unmarshal` is
`json.Unmarshal(body, &result)` on a zero `StreamLoadResult`. -/
structure HTTPWorld where
  NewRequest : String → String → Error
  Do : Request → Except Error Response
  Unmarshal : String → Except Error StreamLoadResult

/-- Request of `doStreamLoad` for the host `feHost`. -/
def streamLoadRequest (w : StreamLoadWriter) (feHost : String) (data : String) : Request :=
  { Method := "PUT"
    URL := "http://" ++ feHost ++ "/api/" ++ w.cfg.Database ++ "/" ++ w.cfg.Table
      ++ "/_stream_load"
    Header :=
      [("Authorization", w.authHeader), ("Expect", "100-continue"),
       ("Content-Type", "application/json"), ("format", "json"),
       ("read_json_by_line", "true"), ("max_filter_ratio", "0.1")]
    Body := data }

/-- Go `(*StreamLoadWriter).doStreamLoad(ctx, data, rowCount)`: the returned
error; `none` when `w.cfg.FEHosts[0]` panics. -/
def doStreamLoad (world : HTTPWorld) (w : StreamLoadWriter) (data : String)
    (_rowCount : Nat) : Option Error :=
  match w.cfg.FEHosts with
  | [] => none
  | feHost :: _ =>
    let req := streamLoadRequest w feHost data
    if world.NewRequest req.Method req.URL ≠ Error.nil then
      some (Wrap ErrCodeDorisStreamLoad "failed to create request"
        (world.NewRequest req.Method req.URL))
    else
      match world.Do req with
      | Except.error err => some (Wrap ErrCodeDorisStreamLoad "failed to send request" err)
      | Except.ok resp =>
        match resp.Body with
        | Except.error err =>
          some (Wrap ErrCodeDorisStreamLoad "failed to read response" err)
        | Except.ok body =>
          match world.Unmarshal body with
          | Except.error err =>
            some (Wrap ErrCodeDorisStreamLoad "failed to parse response" err)
          | Except.ok result =>
            if result.Status ≠ "Success" then
              some (New ErrCodeDorisStreamLoad
                ("stream load failed: " ++ result.Status ++ ", message: " ++ result.Message))
            else some Error.nil

/-- Surroundings of one call of `Write`: `world i` is the network during the
call number `i` of `doStreamLoad`; `ctxDone i` is `some (ctx.Err())` when
`ctx.Done()` wins the `select` after the failed attempt `i`, `none` when the
timer does. -/
structure WriteEnv where
  world : Nat → HTTPWorld
  ctxDone : Nat → Option Error

/-- What `Write` does towards the outside: a call of `doStreamLoad` with the
attempt index and the payload, or a wait of `backoff` nanoseconds. -/
inductive WriteEvent where
  | attempt (i : Nat) (data : String)
  | wait (backoff : Int)
  deriving DecidableEq, Repr

/-- Loop `for i := 0; i <= w.cfg.MaxRetries; i++` of `Write` from index `i` on,
with the value of `lastErr` and the events so far; `none` when `fuel` runs out
or an attempt panics. -/
def retryLoop (env : WriteEnv) (w : StreamLoadWriter) (data : String) (rowCount : Nat) :
    Nat → Nat → Error → List WriteEvent → Option (Error × List WriteEvent)
  | 0, _, _, _ => none
  | fuel + 1, i, lastErr, events =>
    if (i : Int) ≤ w.cfg.MaxRetries then
      match doStreamLoad (env.world i) w data rowCount with
      | none => none
      | some err =>
        if err = Error.nil then some (Error.nil, events ++ [WriteEvent.attempt i data])
        else if (i : Int) = w.cfg.MaxRetries then
          some (Wrap ErrCodeDorisStreamLoad "stream load failed after retries" err,
            events ++ [WriteEvent.attempt i data])
        else
          match env.ctxDone i with
          | some ctxErr => some (ctxErr, events ++ [WriteEvent.attempt i data])
          | none =>
            retryLoop env w data rowCount fuel (i + 1) err
              (events ++ [WriteEvent.attempt i data, WriteEvent.wait (Seconds ((i : Int) + 1))])
    else
      some (Wrap ErrCodeDorisStreamLoad "stream load failed after retries" lastErr, events)

/-- Go `(*StreamLoadWriter).Write(ctx, batch)`: the returned error and the
attempts and waits made, in order. The loop runs at most `MaxRetries + 1`
times, which bounds the fuel. -/
def Write (env : WriteEnv) (enc : Encoder) (w : StreamLoadWriter) (batch : List Row) :
    Option (Error × List WriteEvent) :=
  if batch.length = 0 then some (Error.nil, [])
  else
    retryLoop env w (BuildJSONLines enc batch w.columns) batch.length
      ((w.cfg.MaxRetries + 1).toNat + 1) 0 Error.nil []

/-- Error of the attempt number `i` of a `Write` of `batch`, `Error.nil` for a
success. -/
def attemptError (env : WriteEnv) (enc : Encoder) (w : StreamLoadWriter) (batch : List Row)
    (i : Nat) : Error :=
  (doStreamLoad (env.world i) w (BuildJSONLines enc batch w.columns) batch.length).getD
    Error.nil

/-- Schedule of the specification from attempt `i` on, with `more` further
attempts: every attempt but the last is followed by a wait of `i + 1` seconds
(as a `time.Duration`). -/
def backoffSchedule (data : String) : Nat → Nat → List WriteEvent
  | i, 0 => [WriteEvent.attempt i data]
  | i, more + 1 =>
    WriteEvent.attempt i data :: WriteEvent.wait (Seconds ((i : Int) + 1)) ::
      backoffSchedule data (i + 1) more

/-- Network in which the request cannot be sent. -/
def worldDown : HTTPWorld :=
  { NewRequest := fun _ _ => Error.nil
    Do := fun _ => Except.error (Error.foreign "connection refused")
    Unmarshal := fun _ => Except.error (Error.foreign "unexpected end of JSON input") }

/-- Network that answers with the given status code and a body that
`json.Unmarshal` decodes to a result with the given `Status`. -/
def worldReply (statusCode : Int) (body : String) (status : String) : HTTPWorld :=
  { NewRequest := fun _ _ => Error.nil
    Do := fun _ => Except.ok { StatusCode := statusCode, Body := Except.ok body }
    Unmarshal := fun _ =>
      Except.ok { Status := status, Message := "", NumberLoadedRows := 0,
                  NumberFilteredRows := 0, LoadTimeMs := 0 } }

/-! ## internal/consumer and internal/pipeline

Of the Kafka client only the calls of `doCommit` are kept: `committed` lists
the offsets handed to it. -/

/-- Go `consumer.Message`. -/
structure Message where
  Topic : String
  Partition : Int
  Offset : Int
  Key : List UInt8
  Value : List UInt8
  Timestamp : Int
  deriving DecidableEq, Repr

/-- Go `FranzConsumer` with its commit loop: `commitChan` holds the buffered
offsets, oldest first (capacity 100); `lastOffset` is the local variable of
`commitLoop`, the offset it will commit next, `-1` for none; `committed` are
the offsets passed to `doCommit` so far. -/
structure FranzConsumer where
  commitChan : List Int
  closed : Bool
  lastOffset : Int
  committed : List Int
  deriving DecidableEq, Repr

/-- Consumer after `NewFranzConsumer` and `Start`: `commitLoop` has just set
`lastOffset = -1`. -/
def startedConsumer : FranzConsumer :=
  { commitChan := [], closed := false, lastOffset := -1, committed := [] }

/-- Go `(*FranzConsumer).Commit(ctx, offset)` with a context that is not
done: the offset is queued; `none` when the send blocks on a full channel or
panics on a closed one. -/
def Commit (c : FranzConsumer) (offset : Int) : Option (FranzConsumer × Error) :=
  if c.closed then none
  else if c.commitChan.length < 100 then
    some ({ c with commitChan := c.commitChan ++ [offset] }, Error.nil)
  else none

/-- Branches of the `select` in `commitLoop`. -/
inductive CommitEvent where
  | receive
  | tick
  | done
  deriving DecidableEq, Repr

/-- One pass of the `select` in `commitLoop`; `none` when the branch is not
ready. A closed and drained `commitChan` yields the zero offset. -/
def commitLoopStep (c : FranzConsumer) : CommitEvent → Option FranzConsumer
  | CommitEvent.receive =>
    match c.commitChan with
    | offset :: rest => some { c with commitChan := rest, lastOffset := offset }
    | [] => if c.closed then some { c with lastOffset := 0 } else none
  | CommitEvent.tick =>
    if c.lastOffset ≥ 0 then
      some { c with committed := c.committed ++ [c.lastOffset], lastOffset := -1 }
    else some c
  | CommitEvent.done =>
    if c.lastOffset ≥ 0 then some { c with committed := c.committed ++ [c.lastOffset] }
    else some c

/-- Update of a Prometheus metric: the metric name, its label values and the
amount. -/
inductive MetricUpdate where
  | inc (name : String) (labels : List String)
  | add (name : String) (labels : List String) (amount : Int)
  | set (name : String) (value : Int)
  | observe (name : String) (value : Int)
  deriving DecidableEq, Repr

/-- Go `FlushWorker`: the number of workers and the task queue `flushChan`
(the batches queued, oldest first; capacity `workerCount * 2`) with its closed
flag. -/
structure FlushWorker where
  workerCount : Int
  flushChan : List (List Row)
  chanClosed : Bool
  deriving DecidableEq, Repr

/-- Go `Pipeline`: the consumer and the batcher it drives, the metric updates
made so far, and the worker pool (`none` for a nil `flushWorker`). The mapper
is given by the schema and the JSON library, the writer by its configuration
and the network. -/
structure Pipeline where
  consumer : FranzConsumer
  batcher : MemoryBatcher
  metrics : List MetricUpdate
  flushWorker : Option FlushWorker
  deriving DecidableEq, Repr

/-- Go `(*Pipeline).processMessage(ctx, msg)` at clock reading `now`: the
pipeline after and the returned error; `none` when `Add` panics. -/
def processMessage (lib : Sonic) (schema : Schema) (p : Pipeline) (msg : Message)
    (now : Int) : Option (Pipeline × Error) :=
  match MapJSONToRow lib schema msg.Value with
  | (row, err) =>
    if err ≠ Error.nil then
      some (p, Wrap ErrCodeFieldMapping "failed to map json to row" err)
    else
      match Add p.batcher row now with
      | none => none
      | some (b, addErr) =>
        if addErr ≠ Error.nil then
          some ({ p with batcher := b }, Wrap ErrCodeBatchFull "failed to add to batch" addErr)
        else
          some ({ p with batcher := b,
                         metrics := p.metrics ++ [MetricUpdate.set "batch_current_rows" (Size b)] },
            Error.nil)

/-! ## JSON documents (RFC 8259)

A recogniser for JSON texts, used to state what a valid line is. It reads the
text one character at a time and keeps the open containers on a stack; for a
text whose value is an object it also collects the member names of that
object. -/

/-- Parser position. `str`, `esc` and `hex` are inside a string (`isKey` for
a member name); `lit` holds the rest of `true`, `false` or `null`; the `num`
positions follow the grammar `-? int frac? exp?`. -/
inductive JMode where
  | value
  | objFirst
  | key
  | colon
  | arrFirst
  | after
  | str (isKey : Bool)
  | esc (isKey : Bool)
  | hex (isKey : Bool) (left : Nat) (acc : Nat)
  | lit (rest : List Char)
  | numMinus
  | numZero
  | numInt
  | numDot
  | numFrac
  | numE
  | numESign
  | numExp
  deriving DecidableEq, Repr

/-- Kind of an open container. -/
inductive JFrame where
  | obj
  | arr
  deriving DecidableEq, Repr

/-- Recogniser state: the position, the open containers (innermost first),
the member names of the outermost object read so far, the characters of the
string being read, and whether the text's value is an object. -/
structure JState where
  mode : JMode
  stack : List JFrame
  keys : List String
  cur : List Char
  isObject : Bool
  deriving DecidableEq, Repr

def jsonStart : JState :=
  { mode := JMode.value, stack := [], keys := [], cur := [], isObject := false }

/-- JSON white space: space, tab, line feed, carriage return. -/
def isJsonWs (c : Char) : Bool :=
  c.toNat == 32 || c.toNat == 9 || c.toNat == 10 || c.toNat == 13

def isDigit (c : Char) : Bool := 48 ≤ c.toNat && c.toNat ≤ 57

def isDigit19 (c : Char) : Bool := 49 ≤ c.toNat && c.toNat ≤ 57

/-- Value of a hexadecimal digit. -/
def hexValue (c : Char) : Option Nat :=
  if 48 ≤ c.toNat ∧ c.toNat ≤ 57 then some (c.toNat - 48)
  else if 65 ≤ c.toNat ∧ c.toNat ≤ 70 then some (c.toNat - 55)
  else if 97 ≤ c.toNat ∧ c.toNat ≤ 102 then some (c.toNat - 87)
  else none

/-- Character after a complete value: white space, a comma or the bracket
that closes the innermost container. -/
def jsonStepAfter (s : JState) (c : Char) : Option JState :=
  if isJsonWs c then some { s with mode := JMode.after }
  else
    match s.stack with
    | JFrame.obj :: rest =>
      if c = ',' then some { s with mode := JMode.key }
      else if c = '}' then some { s with mode := JMode.after, stack := rest }
      else none
    | JFrame.arr :: rest =>
      if c = ',' then some { s with mode := JMode.value }
      else if c = ']' then some { s with mode := JMode.after, stack := rest }
      else none
    | [] => none

/-- First character of a value. -/
def jsonStepValue (s : JState) (c : Char) : Option JState :=
  if c = '0' then some { s with mode := JMode.numZero }
  else if isDigit19 c then some { s with mode := JMode.numInt }
  else if c = '-' then some { s with mode := JMode.numMinus }
  else if c = '"' then some { s with mode := JMode.str false, cur := [] }
  else if c = 't' then some { s with mode := JMode.lit ['r', 'u', 'e'] }
  else if c = 'f' then some { s with mode := JMode.lit ['a', 'l', 's', 'e'] }
  else if c = 'n' then some { s with mode := JMode.lit ['u', 'l', 'l'] }
  else if c = '{' then
    some { s with mode := JMode.objFirst, stack := JFrame.obj :: s.stack,
                  isObject := if s.stack = [] then true else s.isObject }
  else if c = '[' then some { s with mode := JMode.arrFirst, stack := JFrame.arr :: s.stack }
  else if isJsonWs c then some s
  else none

/-- Closing quote of a string: a member name of the outermost object is
recorded. -/
def jsonEndString (s : JState) (isKey : Bool) : JState :=
  if isKey then
    { s with mode := JMode.colon,
             keys := if s.stack.length = 1 then s.keys ++ [String.mk s.cur] else s.keys }
  else { s with mode := JMode.after }

/-- Character denoted by a one-letter escape. -/
def escapeChar (c : Char) : Option Char :=
  if c = '"' then some '"'
  else if c = '\\' then some '\\'
  else if c = '/' then some '/'
  else if c = 'b' then some (Char.ofNat 8)
  else if c = 'f' then some (Char.ofNat 12)
  else if c = 'n' then some (Char.ofNat 10)
  else if c = 'r' then some (Char.ofNat 13)
  else if c = 't' then some (Char.ofNat 9)
  else none

/-- One character of a JSON text; `none` when the text is not JSON. A `\u`
escape of a surrogate is read as U+0000. -/
def jsonStep (s : JState) (c : Char) : Option JState :=
  match s.mode with
  | JMode.value => jsonStepValue s c
  | JMode.arrFirst =>
    if c = ']' then
      match s.stack with
      | _ :: rest => some { s with mode := JMode.after, stack := rest }
      | [] => none
    else if isJsonWs c then some s
    else jsonStepValue { s with mode := JMode.value } c
  | JMode.objFirst =>
    if c = '"' then some { s with mode := JMode.str true, cur := [] }
    else if c = '}' then
      match s.stack with
      | _ :: rest => some { s with mode := JMode.after, stack := rest }
      | [] => none
    else if isJsonWs c then some s
    else none
  | JMode.key =>
    if c = '"' then some { s with mode := JMode.str true, cur := [] }
    else if isJsonWs c then some s
    else none
  | JMode.colon =>
    if c = ':' then some { s with mode := JMode.value }
    else if isJsonWs c then some s
    else none
  | JMode.after => jsonStepAfter s c
  | JMode.str isKey =>
    if c = '"' then some (jsonEndString s isKey)
    else if c = '\\' then some { s with mode := JMode.esc isKey }
    else if c.toNat < 32 then none
    else some { s with cur := s.cur ++ [c] }
  | JMode.esc isKey =>
    if c = 'u' then some { s with mode := JMode.hex isKey 4 0 }
    else
      match escapeChar c with
      | some d => some { s with mode := JMode.str isKey, cur := s.cur ++ [d] }
      | none => none
  | JMode.hex isKey left acc =>
    match hexValue c with
    | none => none
    | some d =>
      if left ≤ 1 then
        some { s with mode := JMode.str isKey, cur := s.cur ++ [Char.ofNat (acc * 16 + d)] }
      else some { s with mode := JMode.hex isKey (left - 1) (acc * 16 + d) }
  | JMode.lit rest =>
    match rest with
    | [] => none
    | [d] => if c = d then some { s with mode := JMode.after } else none
    | d :: more => if c = d then some { s with mode := JMode.lit more } else none
  | JMode.numMinus =>
    if c = '0' then some { s with mode := JMode.numZero }
    else if isDigit19 c then some { s with mode := JMode.numInt }
    else none
  | JMode.numZero =>
    if c = '.' then some { s with mode := JMode.numDot }
    else if c = 'e' ∨ c = 'E' then some { s with mode := JMode.numE }
    else jsonStepAfter s c
  | JMode.numInt =>
    if isDigit c then some s
    else if c = '.' then some { s with mode := JMode.numDot }
    else if c = 'e' ∨ c = 'E' then some { s with mode := JMode.numE }
    else jsonStepAfter s c
  | JMode.numDot => if isDigit c then some { s with mode := JMode.numFrac } else none
  | JMode.numFrac =>
    if isDigit c then some s
    else if c = 'e' ∨ c = 'E' then some { s with mode := JMode.numE }
    else jsonStepAfter s c
  | JMode.numE =>
    if isDigit c then some { s with mode := JMode.numExp }
    else if c = '+' ∨ c = '-' then some { s with mode := JMode.numESign }
    else none
  | JMode.numESign => if isDigit c then some { s with mode := JMode.numExp } else none
  | JMode.numExp => if isDigit c then some s else jsonStepAfter s c

/-- Reads a text from a state. -/
def jsonRun : JState → List Char → Option JState
  | s, [] => some s
  | s, c :: cs =>
    match jsonStep s c with
    | none => none
    | some s1 => jsonRun s1 cs

/-- The text may end here: a value is complete and no container is open. -/
def jsonAccepts (s : JState) : Bool :=
  s.stack.isEmpty &&
    (s.mode == JMode.after || s.mode == JMode.numZero || s.mode == JMode.numInt ||
     s.mode == JMode.numFrac || s.mode == JMode.numExp)

/-- A valid JSON document. -/
def validJSON (text : String) : Bool :=
  match jsonRun jsonStart text.data with
  | some s => jsonAccepts s
  | none => false

/-- Member names of a valid JSON document whose value is an object, in the
order of the text; `none` for any other text. -/
def parseObjectKeys (text : String) : Option (List String) :=
  match jsonRun jsonStart text.data with
  | some s => if jsonAccepts s && s.isObject then some s.keys else none
  | none => none

/-- Lines of the output of `BuildJSONLines`: the pieces between newlines; an
empty output has no line. -/
def outputLines (out : String) : List String :=
  if out = "" then [] else Split out '\n'

/-- A string that is written correctly between double quotes as it stands: no
double quote, no backslash, no control character. -/
def plainText (s : String) : Bool :=
  s.data.all (fun c => c ≠ '"' && c ≠ '\\' && decide (32 ≤ c.toNat))

/-- A cell that `writeValue` renders without the libraries: nil, a boolean, an
integer, or a string that needs no escaping. -/
def plainCell : Value → Bool
  | Value.nil => true
  | Value.bool _ => true
  | Value.int _ => true
  | Value.int64 _ => true
  | Value.str s => plainText s
  | _ => false

/-! ## internal/config -/

/-- Go `config.KafkaConfig`. -/
structure KafkaConfig where
  Brokers : List String
  Topic : String
  GroupID : String
  FromEarliest : Bool
  MaxFetchRecords : Int
  MaxFetchBytes : Int
  SessionTimeout : Int
  HeartbeatInterval : Int
  deriving DecidableEq, Repr

/-- Go `config.ColumnConfig`; the field `Type` is `Type_` here. -/
structure ColumnConfig where
  Name : String
  Type_ : String
  deriving DecidableEq, Repr

/-- Go `config.AutoSchemaConfig`. -/
structure AutoSchemaConfig where
  RefreshInterval : Int
  ValidateOnStart : Bool
  deriving DecidableEq, Repr

/-- Go `config.ManualSchemaConfig`. -/
structure ManualSchemaConfig where
  Columns : List ColumnConfig
  deriving DecidableEq, Repr

/-- Go `config.SchemaConfig`. -/
structure SchemaConfig where
  Mode : String
  Auto : AutoSchemaConfig
  Manual : ManualSchemaConfig
  deriving DecidableEq, Repr

/-- Go `logger.Config`. -/
structure LoggerConfig where
  Level : String
  Output : String
  FilePath : String
  Format : String
  EnableSampling : Bool
  MaxSize : Int
  MaxAge : Int
  MaxBackups : Int
  deriving DecidableEq, Repr

/-- Go `config.MetricsConfig`. -/
structure MetricsConfig where
  Enabled : Bool
  Port : Int
  Path : String
  deriving DecidableEq, Repr

/-- Go `config.PprofConfig`. -/
structure PprofConfig where
  Enabled : Bool
  Port : Int
  deriving DecidableEq, Repr

/-- Go `config.Config`. -/
structure Config where
  Kafka : KafkaConfig
  Doris : DorisConfig
  Batch : BatchConfig
  Schema : SchemaConfig
  Log : LoggerConfig
  Metrics : MetricsConfig
  Pprof : PprofConfig
  deriving DecidableEq, Repr

/-- Go `DefaultConfig()`. -/
def DefaultConfig : Config :=
  { Kafka :=
      { Brokers := ["localhost:9092"], Topic := "event_topic", GroupID := "doris-sinker-group",
        FromEarliest := true, MaxFetchRecords := 1000, MaxFetchBytes := 1048576,
        SessionTimeout := 30, HeartbeatInterval := 3 }
    Doris :=
      { FEHosts := ["127.0.0.1:8030"], QueryPort := 9030, Database := "test_db",
        Table := "tb_event", User := "root", Password := "", Timeout := 600, MaxRetries := 3 }
    Batch :=
      { MaxBatchRows := 10000, MaxBatchSize := 10485760, MaxBatchInterval := 30,
        FlushWorkerCount := 4 }
    Schema :=
      { Mode := "auto", Auto := { RefreshInterval := 0, ValidateOnStart := true },
        Manual := { Columns := [] } }
    Log :=
      { Level := "info", Output := "stdout", FilePath := "", Format := "json",
        EnableSampling := true, MaxSize := 100, MaxAge := 7, MaxBackups := 10 }
    Metrics := { Enabled := true, Port := 9090, Path := "/metrics" }
    Pprof := { Enabled := true, Port := 6060 } }

/-- Second half of `Validate`, from the batch checks on. -/
def validateBatchAndRest (cfg : Config) : Error :=
  if cfg.Batch.MaxBatchRows ≤ 0 then
    New ErrCodeConfigValidate "batch.max_batch_rows must be positive"
  else if cfg.Batch.MaxBatchSize ≤ 0 then
    New ErrCodeConfigValidate "batch.max_batch_size must be positive"
  else if cfg.Batch.MaxBatchInterval ≤ 0 then
    New ErrCodeConfigValidate "batch.max_batch_interval must be positive"
  else if cfg.Schema.Mode ≠ "auto" ∧ cfg.Schema.Mode ≠ "manual" then
    New ErrCodeConfigValidate "schema.mode must be 'auto' or 'manual'"
  else if cfg.Schema.Mode = "manual" ∧ cfg.Schema.Manual.Columns.length = 0 then
    New ErrCodeConfigValidate "schema.manual.columns is required when mode is 'manual'"
  else if cfg.Metrics.Enabled = true ∧ cfg.Metrics.Port ≤ 0 then
    New ErrCodeConfigValidate "metrics.port must be positive when enabled"
  else if cfg.Pprof.Enabled = true ∧ cfg.Pprof.Port ≤ 0 then
    New ErrCodeConfigValidate "pprof.port must be positive when enabled"
  else if cfg.Metrics.Enabled = true ∧ cfg.Pprof.Enabled = true ∧
      cfg.Metrics.Port = cfg.Pprof.Port then
    New ErrCodeConfigValidate "metrics.port and pprof.port cannot be the same"
  else Error.nil

/-- Go `Validate(cfg)`: the configuration after the call (the query port gets
its default once the Doris checks have passed) and the returned error. -/
def Validate (cfg : Config) : Config × Error :=
  if cfg.Kafka.Brokers.length = 0 then
    (cfg, New ErrCodeConfigValidate "kafka.brokers is required")
  else if cfg.Kafka.Topic = "" then
    (cfg, New ErrCodeConfigValidate "kafka.topic is required")
  else if cfg.Kafka.GroupID = "" then
    (cfg, New ErrCodeConfigValidate "kafka.group_id is required")
  else if cfg.Kafka.MaxFetchRecords ≤ 0 then
    (cfg, New ErrCodeConfigValidate "kafka.max_fetch_records must be positive")
  else if cfg.Kafka.MaxFetchBytes ≤ 0 then
    (cfg, New ErrCodeConfigValidate "kafka.max_fetch_bytes must be positive")
  else if cfg.Doris.FEHosts.length = 0 then
    (cfg, New ErrCodeConfigValidate "doris.fe_hosts is required")
  else if cfg.Doris.Database = "" then
    (cfg, New ErrCodeConfigValidate "doris.database is required")
  else if cfg.Doris.Table = "" then
    (cfg, New ErrCodeConfigValidate "doris.table is required")
  else if cfg.Doris.User = "" then
    (cfg, New ErrCodeConfigValidate "doris.user is required")
  else if cfg.Doris.QueryPort ≤ 0 then
    ({ cfg with Doris := { cfg.Doris with QueryPort := 9030 } },
      validateBatchAndRest { cfg with Doris := { cfg.Doris with QueryPort := 9030 } })
  else (cfg, validateBatchAndRest cfg)

/-! ## Side effects of the mapper -/

/-- Observable side effect of a call: a log entry or a metric update. -/
inductive Effect where
  | log (level : String) (message : String)
  | metric (update : MetricUpdate)
  deriving DecidableEq, Repr

/-- What the body of the loop of `MapJSONToRow` does for one column besides
writing `row[i]`: nothing for a missing field, one warning for a failed
conversion. -/
def columnEffects (lib : Sonic) (jsonBytes : List UInt8) (col : Column) : List Effect :=
  match lib.Get jsonBytes col.Name with
  | Except.error _ => []
  | Except.ok node =>
    if !node.exist then []
    else
      match extractValue node col.Type_ col.Name with
      | (_, err) =>
        if err ≠ Error.nil then
          [Effect.log "warn" "field type conversion failed, using zero value"]
        else []

/-- Side effects of `MapJSONToRow(jsonBytes)`, in the order of the columns. -/
def MapJSONToRowEffects (lib : Sonic) (schema : Schema) (jsonBytes : List UInt8) :
    List Effect :=
  (schema.Columns.map (columnEffects lib jsonBytes)).foldr (fun a b => a ++ b) []

/-! ## Size estimate of the batcher, as the specification words it -/

/-- Size of one value: the length of a string, 8 for any other value. -/
def cellSize : Value → Int
  | Value.str s => s.utf8ByteSize
  | _ => 8

/-- Sum of the sizes of all values of all rows. -/
def rowsSize (rows : List Row) : Int :=
  (rows.map (fun row => (row.map cellSize).sum)).sum

/-! ## internal/pipeline: dispatch of batches

Calls of `Writer.Write` are recorded as the list of batches handed to it.
Histograms of durations receive `duration.Seconds()`; the updates here carry
the duration in nanoseconds. -/

/-- Go `NewFlushWorker(pipeline, workerCount)`. -/
def NewFlushWorker (workerCount : Int) : FlushWorker :=
  { workerCount := workerCount, flushChan := [], chanClosed := false }

/-- Go `NewPipeline(consumer, mapper, batcher, writer, flushWorkerCount)`. -/
def NewPipeline (consumer : FranzConsumer) (batcher : MemoryBatcher)
    (flushWorkerCount : Int) : Pipeline :=
  { consumer := consumer
    batcher := batcher
    metrics := []
    flushWorker := if flushWorkerCount > 1 then some (NewFlushWorker flushWorkerCount) else none }

/-- Go `(*FlushWorker).Submit(batch)`: `none` when the send blocks on a full
queue or panics on a closed one. -/
def Submit (fw : FlushWorker) (batch : List Row) : Option FlushWorker :=
  if fw.chanClosed then none
  else if (fw.flushChan.length : Int) < fw.workerCount * 2 then
    some { fw with flushChan := fw.flushChan ++ [batch] }
  else none

/-- Size computed by `Pipeline.doFlush` for its log and histogram. -/
def batchSizeOf (batch : List Row) : Int :=
  batch.foldl
    (fun size row =>
      row.foldl
        (fun size1 val =>
          match val with
          | Value.str str => size1 + str.utf8ByteSize
          | _ => size1 + 8)
        size)
    0

/-- Metric updates of the inline path after a failed write. -/
def failureMetrics : List MetricUpdate :=
  [MetricUpdate.inc "batch_flush_total" ["failed"],
   MetricUpdate.inc "doris_stream_load_total" ["failed"],
   MetricUpdate.inc "doris_stream_load_errors_total" ["write_error"]]

/-- Metric updates of the inline path after a successful write of `batch`
that took `duration` nanoseconds. -/
def successMetrics (batch : List Row) (duration : Int) : List MetricUpdate :=
  [MetricUpdate.inc "batch_flush_total" ["success"],
   MetricUpdate.observe "batch_size_rows" batch.length,
   MetricUpdate.observe "batch_size_bytes" (batchSizeOf batch),
   MetricUpdate.observe "batch_flush_duration_seconds" duration,
   MetricUpdate.inc "doris_stream_load_total" ["success"],
   MetricUpdate.add "doris_rows_loaded_total" [] batch.length,
   MetricUpdate.observe "doris_stream_load_duration_seconds" duration,
   MetricUpdate.set "batch_current_rows" 0,
   MetricUpdate.set "batch_current_bytes" 0]

/-- Go `(*Pipeline).doFlush(ctx)`: `start` is the reading of `startTime`,
`flushAt` the clock inside `Flush`, `finish` the clock at `time.Since`. Yields
the pipeline after and the batches handed to `Writer.Write` during the call;
`none` when `Submit` blocks or a call panics. -/
def doFlush (env : WriteEnv) (enc : Encoder) (w : StreamLoadWriter) (p : Pipeline)
    (start flushAt finish : Int) : Option (Pipeline × List (List Row)) :=
  match Flush p.batcher flushAt with
  | (b, batch, err) =>
    if err ≠ Error.nil then
      some ({ p with batcher := b,
                     metrics := p.metrics ++ [MetricUpdate.inc "batch_flush_total" ["error"]] },
        [])
    else if batch.length = 0 then some ({ p with batcher := b }, [])
    else
      match p.flushWorker with
      | some fw =>
        match Submit fw batch with
        | none => none
        | some fw1 =>
          some ({ p with batcher := b, flushWorker := some fw1,
                         metrics :=
                           p.metrics ++ [MetricUpdate.inc "batch_flush_total" ["submitted"]] },
            [])
      | none =>
        match Write env enc w batch with
        | none => none
        | some (writeErr, _) =>
          if writeErr ≠ Error.nil then
            some ({ p with batcher := b, metrics := p.metrics ++ failureMetrics }, [batch])
          else
            some ({ p with batcher := b,
                           metrics := p.metrics ++ successMetrics batch (Since finish start) },
              [batch])

/-- Go `(*FlushWorker).doFlush(batch, workerID)`: it calls `Writer.Write` for
a non-empty batch and updates no metric. Yields the pipeline after and the
batches handed to `Writer.Write`. -/
def workerDoFlush (env : WriteEnv) (enc : Encoder) (w : StreamLoadWriter) (p : Pipeline)
    (batch : List Row) : Option (Pipeline × List (List Row)) :=
  if batch.length = 0 then some (p, [])
  else
    match Write env enc w batch with
    | none => none
    | some _ => some (p, [batch])

/-- Branches of the `select` in `(*FlushWorker).worker`. -/
inductive WorkerEvent where
  | ctxDone
  | receive
  deriving DecidableEq, Repr

/-- One pass of the loop of `(*FlushWorker).worker` for a worker that is
running: the pipeline after, whether the worker is still running, and the
batches handed to `Writer.Write`; `none` when the branch is not ready. A
receive from the closed and drained queue yields the zero task, whose batch
is nil. -/
def workerStep (env : WriteEnv) (enc : Encoder) (w : StreamLoadWriter) (ctxCancelled : Bool)
    (p : Pipeline) : WorkerEvent → Option (Pipeline × Bool × List (List Row))
  | WorkerEvent.ctxDone => if ctxCancelled then some (p, false, []) else none
  | WorkerEvent.receive =>
    match p.flushWorker with
    | none => none
    | some fw =>
      match fw.flushChan with
      | task :: rest =>
        match workerDoFlush env enc w { p with flushWorker := some { fw with flushChan := rest } }
            task with
        | none => none
        | some (p1, written) => some (p1, true, written)
      | [] =>
        if fw.chanClosed then
          match workerDoFlush env enc w p [] with
          | none => none
          | some (p1, written) => some (p1, true, written)
        else none

/-- Passes of the worker loop along a sequence of ready branches; after the
worker has returned there is no further pass. -/
def runWorker (env : WriteEnv) (enc : Encoder) (w : StreamLoadWriter) (ctxCancelled : Bool) :
    Pipeline → List WorkerEvent → Option (Pipeline × Bool × List (List Row))
  | p, [] => some (p, true, [])
  | p, ev :: rest =>
    match workerStep env enc w ctxCancelled p ev with
    | none => none
    | some (p1, false, written) =>
      match rest with
      | [] => some (p1, false, written)
      | _ :: _ => none
    | some (p1, true, written) =>
      match runWorker env enc w ctxCancelled p1 rest with
      | none => none
      | some (p2, running, more) => some (p2, running, written ++ more)

/-- Go `(*FlushWorker).Stop()` up to `wg.Wait()`: the queue is closed; `none`
when `close` panics. -/
def StopFlushWorker (fw : FlushWorker) : Option FlushWorker :=
  if fw.chanClosed then none else some { fw with chanClosed := true }

/-- Body of `case msg, ok := <-msgChan` in `processMessages` for a received
message: `processMessage` and the counters of its two outcomes. -/
def handleMessage (lib : Sonic) (schema : Schema) (p : Pipeline) (msg : Message)
    (now : Int) : Option Pipeline :=
  match processMessage lib schema p msg now with
  | none => none
  | some (p1, err) =>
    if err ≠ Error.nil then
      some { p1 with
        metrics := p1.metrics ++
          [MetricUpdate.inc "kafka_consume_errors_total" [msg.Topic, "process_error"]] }
    else
      some { p1 with
        metrics := p1.metrics ++
          [MetricUpdate.inc "kafka_messages_consumed_total" [msg.Topic],
           MetricUpdate.add "kafka_bytes_consumed_total" [msg.Topic] msg.Value.length] }

end DorisSinker

namespace DorisSinker

/-! ## Batcher: shared lemmas -/

theorem IsOpen_New (cfg : BatchConfig) (now : Int) : IsOpen (NewMemoryBatcher cfg now) := by
  simp [IsOpen, NewMemoryBatcher, Chan.make]

/-- The non-blocking send on an open channel of capacity 1 leaves a token. -/
theorem Chan.trySend_open (c : Chan) (hch : c.closed = false) (hcap : c.capacity = 1) :
    ∃ c1, c.trySend = some c1 ∧ c1.closed = false ∧ c1.capacity = 1 ∧
      1 ≤ c1.buffered := by
  unfold Chan.trySend
  rw [if_neg (by simp [hch])]
  by_cases hb : c.buffered < c.capacity
  · rw [if_pos hb]
    exact ⟨_, rfl, hch, hcap, by simp⟩
  · rw [if_neg hb]
    exact ⟨_, rfl, hch, hcap, by omega⟩

/-- On an open batcher `Add` does not panic: it appends the row, adds its
size, and leaves a token in the channel when a trigger holds. -/
theorem Add_of_open (b : MemoryBatcher) (row : Row) (now : Int) (h : IsOpen b) :
    ∃ b1, Add b row now = some (b1, Error.nil) ∧ IsOpen b1 ∧
      b1.rows = b.rows ++ [row] ∧
      b1.currentSize = b.currentSize + estimateRowSize row ∧
      b1.cfg = b.cfg ∧ b1.lastFlushTime = b.lastFlushTime ∧
      (shouldFlushLocked b1 now = true → 1 ≤ b1.flushChan.buffered) := by
  obtain ⟨hc, hch, hcap⟩ := h
  unfold Add
  rw [if_neg (by simp [hc])]
  dsimp only
  split
  · obtain ⟨c1, hsend, hc1, hcap1, hbuf⟩ := Chan.trySend_open b.flushChan hch hcap
    rw [hsend]
    exact ⟨_, rfl, ⟨hc, hc1, hcap1⟩, rfl, rfl, rfl, rfl, fun _ => hbuf⟩
  · next hs =>
    exact ⟨_, rfl, ⟨hc, hch, hcap⟩, rfl, rfl, rfl, rfl, fun h1 => absurd h1 hs⟩

theorem Flush_batch (b : MemoryBatcher) (now : Int) : (Flush b now).2.1 = b.rows := by
  unfold Flush
  cases hr : b.rows with
  | nil => simp
  | cons r rs => simp

theorem Flush_rows (b : MemoryBatcher) (now : Int) : (Flush b now).1.rows = [] := by
  unfold Flush
  cases hr : b.rows with
  | nil => simp [hr]
  | cons r rs => simp

theorem Flush_open (b : MemoryBatcher) (now : Int) (h : IsOpen b) :
    IsOpen (Flush b now).1 := by
  unfold Flush
  split
  · exact h
  · exact h

/-- Running calls on an open batcher never panics and agrees with the
reference reading `segments`. -/
theorem runCalls_segments (calls : List Call) :
    ∀ b : MemoryBatcher, IsOpen b →
      ∃ b1 batches, runCalls b calls = some (b1, batches) ∧ IsOpen b1 ∧
        (batches, b1.rows) = segments b.rows calls := by
  induction calls with
  | nil =>
    intro b h
    exact ⟨b, [], rfl, h, rfl⟩
  | cons c rest ih =>
    intro b h
    cases c with
    | add row now =>
      obtain ⟨b1, hadd, hopen, hrows, _⟩ := Add_of_open b row now h
      obtain ⟨b2, batches, hrun, hopen2, hseg⟩ := ih b1 hopen
      refine ⟨b2, batches, ?_, hopen2, ?_⟩
      · simp [runCalls, hadd, hrun]
      · rw [hseg, hrows]; rfl
    | flush now =>
      obtain ⟨b2, batches, hrun, hopen2, hseg⟩ := ih (Flush b now).1 (Flush_open b now h)
      refine ⟨b2, (Flush b now).2.1 :: batches, ?_, hopen2, ?_⟩
      · simp [runCalls, hrun]
      · rw [Flush_rows] at hseg
        have h1 : batches = (segments [] rest).1 := congrArg Prod.fst hseg
        have h2 : b2.rows = (segments [] rest).2 := congrArg Prod.snd hseg
        simp [segments, Flush_batch, h1, h2]

/-- The reference reading hands out every row once and in order. -/
theorem segments_join (calls : List Call) :
    ∀ held : List Row,
      (segments held calls).1.flatten ++ (segments held calls).2 = held ++ addedRows calls := by
  induction calls with
  | nil => intro held; simp [segments, addedRows]
  | cons c rest ih =>
    intro held
    cases c with
    | add row now =>
      simp [segments, addedRows, ih (held ++ [row])]
    | flush now =>
      simp [segments, addedRows, ih [], List.append_assoc]

/-! ## Batcher: claims -/

/-- C1. For every open batcher and every sequence of `Add` and `Flush` calls,
the run does not panic, the batches returned by the `Flush` calls followed by
the rows still held are the rows the batcher held at the start followed by the
rows passed to `Add`, in order, and each `Flush` returns exactly the rows added
since the previous `Flush` (the reference reading `segments`). -/
theorem batcher_conserves_rows (b : MemoryBatcher) (calls : List Call) (h : IsOpen b) :
    ∃ b1 batches, runCalls b calls = some (b1, batches) ∧
      batches.flatten ++ b1.rows = b.rows ++ addedRows calls ∧
      (batches, b1.rows) = segments b.rows calls := by
  obtain ⟨b1, batches, hrun, _, hseg⟩ := runCalls_segments calls b h
  refine ⟨b1, batches, hrun, ?_, hseg⟩
  have h1 : batches = (segments b.rows calls).1 := congrArg Prod.fst hseg
  have h2 : b1.rows = (segments b.rows calls).2 := congrArg Prod.snd hseg
  rw [h1, h2]
  exact segments_join calls b.rows

/-- Witness for C1: three rows and two flushes on a fresh batcher. -/
theorem batcher_conserves_rows_witness :
    IsOpen (NewMemoryBatcher ⟨2, 100, 5, 1⟩ 0) ∧
    ∃ b1 batches,
      runCalls (NewMemoryBatcher ⟨2, 100, 5, 1⟩ 0)
        [Call.add [Value.int64 1] 1, Call.add [Value.int64 2] 2, Call.flush 3,
         Call.add [Value.int64 3] 4, Call.flush 5, Call.flush 6] = some (b1, batches) ∧
      batches.flatten ++ b1.rows = (NewMemoryBatcher ⟨2, 100, 5, 1⟩ 0).rows ++
        addedRows [Call.add [Value.int64 1] 1, Call.add [Value.int64 2] 2, Call.flush 3,
         Call.add [Value.int64 3] 4, Call.flush 5, Call.flush 6] ∧
      (batches, b1.rows) = segments (NewMemoryBatcher ⟨2, 100, 5, 1⟩ 0).rows
        [Call.add [Value.int64 1] 1, Call.add [Value.int64 2] 2, Call.flush 3,
         Call.add [Value.int64 3] 4, Call.flush 5, Call.flush 6] :=
  ⟨by decide, batcher_conserves_rows _ _ (by decide)⟩

/-- Within the `Duration` range the product `n * time.Second` does not wrap. -/
theorem Seconds_in_range (n : Int) (hlo : -9223372036 ≤ n) (hhi : n ≤ 9223372036) :
    Seconds n = n * 1000000000 := by
  unfold Seconds wrapInt64
  have h1 : (0 : Int) ≤ n * 1000000000 + 2 ^ 63 := by norm_num; omega
  have h2 : n * 1000000000 + 2 ^ 63 < 2 ^ 64 := by norm_num; omega
  rw [Int.emod_eq_of_lt h1 h2]
  ring

/-- Saturation of `time.Since` does not change a comparison with a bound that
lies strictly inside the `Duration` range. -/
theorem Since_ge_iff (now t bound : Int) (hlo : minDuration < bound)
    (hhi : bound ≤ maxDuration) : Since now t ≥ bound ↔ now - t ≥ bound := by
  unfold Since
  split
  · constructor
    · intro _; omega
    · intro _; exact hhi
  · split
    · constructor
      · intro h; omega
      · intro h; omega
    · exact Iff.rfl

/-- C2 at `MaxBatchInterval = 9223372037`, a value that `Validate` accepts. The
product `time.Duration(MaxBatchInterval) * time.Second` wraps to a negative
duration, so a batcher that has just been given its first row reports
`ShouldFlush() = true` at the very instant of construction, although neither
the row bound nor the size bound is reached and no time has passed, let alone
9223372037 seconds. -/
theorem ShouldFlush_interval_wraps :
    ∃ b, Add (NewMemoryBatcher ⟨100, 1000, 9223372037, 1⟩ 0) [Value.int64 1] 0
        = some (b, Error.nil) ∧
      ShouldFlush b 0 = true ∧
      ¬ ((b.rows.length : Int) ≥ b.cfg.MaxBatchRows ∨
         b.currentSize ≥ b.cfg.MaxBatchSize ∨
         ((0 : Int) - b.lastFlushTime ≥ b.cfg.MaxBatchInterval * 1000000000 ∧
           b.rows.length > 0)) := by
  refine ⟨_, rfl, by decide, by decide⟩

/-- Inside the `Duration` range the time trigger is the one of the
specification: for every batcher state whose `MaxBatchInterval` lies between
-9223372036 and 9223372036 seconds and every time `now`, `ShouldFlush` returns
true if and only if `len(rows) ≥ MaxBatchRows`, or `currentSize ≥
MaxBatchSize`, or (`now - lastFlushTime ≥ MaxBatchInterval` seconds and
`len(rows) > 0`). -/
theorem ShouldFlush_iff (b : MemoryBatcher) (now : Int)
    (hlo : -9223372036 ≤ b.cfg.MaxBatchInterval)
    (hhi : b.cfg.MaxBatchInterval ≤ 9223372036) :
    ShouldFlush b now = true ↔
      ((b.rows.length : Int) ≥ b.cfg.MaxBatchRows ∨
       b.currentSize ≥ b.cfg.MaxBatchSize ∨
       (now - b.lastFlushTime ≥ b.cfg.MaxBatchInterval * 1000000000 ∧
         b.rows.length > 0)) := by
  have hsec := Seconds_in_range b.cfg.MaxBatchInterval hlo hhi
  have hcmp : Since now b.lastFlushTime ≥ Seconds b.cfg.MaxBatchInterval ↔
      now - b.lastFlushTime ≥ b.cfg.MaxBatchInterval * 1000000000 := by
    rw [hsec]
    apply Since_ge_iff
    · unfold minDuration; norm_num; omega
    · unfold maxDuration; norm_num; omega
  unfold ShouldFlush shouldFlushLocked
  by_cases h1 : (b.rows.length : Int) ≥ b.cfg.MaxBatchRows
  · simp [h1]
  · by_cases h2 : b.currentSize ≥ b.cfg.MaxBatchSize
    · simp [h2]
    · by_cases h3 : Since now b.lastFlushTime ≥ Seconds b.cfg.MaxBatchInterval
      · have h3b := hcmp.mp h3
        rw [if_neg h1, if_neg h2, if_pos h3]
        constructor
        · intro h
          exact Or.inr (Or.inr ⟨h3b, by simpa using h⟩)
        · intro h
          rcases h with h | h | h
          · exact absurd h h1
          · exact absurd h h2
          · simpa using h.2
      · have h3b : ¬ (now - b.lastFlushTime ≥ b.cfg.MaxBatchInterval * 1000000000) :=
          fun h => h3 (hcmp.mpr h)
        rw [if_neg h1, if_neg h2, if_neg h3]
        constructor
        · intro h
          exact absurd h (by simp)
        · intro h
          rcases h with h | h | h
          · exact absurd h h1
          · exact absurd h h2
          · exact absurd h.1 h3b

/-- Instance of `ShouldFlush_iff`: one row held, interval of 5 s, asked 7 s after
the last flush. -/
theorem ShouldFlush_iff_witness :
    (-9223372036 : Int) ≤ (5 : Int) ∧ (5 : Int) ≤ 9223372036 ∧
    (ShouldFlush
        { cfg := ⟨100, 1000, 5, 1⟩, rows := [[Value.int64 1]], currentSize := 8,
          flushChan := Chan.make 1, lastFlushTime := 0, closed := false } 7000000000 = true ↔
      (((1 : Nat) : Int) ≥ 100 ∨ (8 : Int) ≥ 1000 ∨
        ((7000000000 : Int) - 0 ≥ 5 * 1000000000 ∧ 1 > 0))) :=
  ⟨by decide, by decide,
    ShouldFlush_iff
      { cfg := ⟨100, 1000, 5, 1⟩, rows := [[Value.int64 1]], currentSize := 8,
        flushChan := Chan.make 1, lastFlushTime := 0, closed := false } 7000000000
      (by decide) (by decide)⟩

/-- C3 (as stated) fails on an empty accumulator: `Flush` returns at its
first check and `lastFlushTime` keeps its old value. -/
theorem Flush_empty_keeps_lastFlushTime :
    (Flush (NewMemoryBatcher ⟨100, 1000, 5, 1⟩ 0) 7).1.lastFlushTime = 0 ∧
    (Flush (NewMemoryBatcher ⟨100, 1000, 5, 1⟩ 0) 7).1.lastFlushTime ≠ 7 := by
  decide

/-- C3 (amended). For every call of `Flush` on a non-empty accumulator, the
state right after the call has `rows = []`, `currentSize = 0` and
`lastFlushTime` equal to the time of the call, the other fields are unchanged,
and the call returns the rows held before with a nil error. A `Flush` on an
empty accumulator returns the empty (nil) batch and leaves the whole state
unchanged, `lastFlushTime` included. -/
theorem Flush_resets (b : MemoryBatcher) (now : Int) :
    (b.rows ≠ [] →
      (Flush b now).1.rows = [] ∧ (Flush b now).1.currentSize = 0 ∧
      (Flush b now).1.lastFlushTime = now ∧
      (Flush b now).1.cfg = b.cfg ∧ (Flush b now).1.flushChan = b.flushChan ∧
      (Flush b now).1.closed = b.closed ∧
      (Flush b now).2 = (b.rows, Error.nil)) ∧
    (b.rows = [] → Flush b now = (b, [], Error.nil)) := by
  constructor
  · intro h
    have hlen : ¬ b.rows.length = 0 := by
      intro h0
      exact h (List.length_eq_zero.mp h0)
    unfold Flush
    rw [if_neg hlen]
    exact ⟨rfl, rfl, rfl, rfl, rfl, rfl, rfl⟩
  · intro h
    unfold Flush
    rw [if_pos (by simp [h])]

/-- Witness for C3 (amended): a flush of one held row at time 7, and a flush
of a fresh batcher. -/
theorem Flush_resets_witness :
    ((Flush { cfg := ⟨100, 1000, 5, 1⟩, rows := [[Value.int64 1]], currentSize := 8,
              flushChan := Chan.make 1, lastFlushTime := 0, closed := false } 7).1.lastFlushTime
        = 7) ∧
    Flush (NewMemoryBatcher ⟨100, 1000, 5, 1⟩ 0) 7
      = (NewMemoryBatcher ⟨100, 1000, 5, 1⟩ 0, [], Error.nil) :=
  ⟨((Flush_resets
      { cfg := ⟨100, 1000, 5, 1⟩, rows := [[Value.int64 1]], currentSize := 8,
        flushChan := Chan.make 1, lastFlushTime := 0, closed := false } 7).1
      (by decide)).2.2.1,
   (Flush_resets (NewMemoryBatcher ⟨100, 1000, 5, 1⟩ 0) 7).2 rfl⟩

/-- The three triggers as `shouldFlushLocked` computes them. -/
theorem shouldFlushLocked_iff (b : MemoryBatcher) (now : Int) :
    shouldFlushLocked b now = true ↔
      ((b.rows.length : Int) ≥ b.cfg.MaxBatchRows ∨
       b.currentSize ≥ b.cfg.MaxBatchSize ∨
       (Since now b.lastFlushTime ≥ Seconds b.cfg.MaxBatchInterval ∧ b.rows.length > 0)) := by
  unfold shouldFlushLocked
  by_cases h1 : (b.rows.length : Int) ≥ b.cfg.MaxBatchRows
  · simp [h1]
  · by_cases h2 : b.currentSize ≥ b.cfg.MaxBatchSize
    · simp [h2]
    · by_cases h3 : Since now b.lastFlushTime ≥ Seconds b.cfg.MaxBatchInterval
      · rw [if_neg h1, if_neg h2, if_pos h3]
        constructor
        · intro h
          exact Or.inr (Or.inr ⟨h3, by simpa using h⟩)
        · intro h
          rcases h with h | h | h
          · exact absurd h h1
          · exact absurd h h2
          · simpa using h.2
      · rw [if_neg h1, if_neg h2, if_neg h3]
        constructor
        · intro h
          exact absurd h (by simp)
        · intro h
          rcases h with h | h | h
          · exact absurd h h1
          · exact absurd h h2
          · exact absurd h.1 h3

/-- A run of `Add` calls only returns no batch and keeps every row held. -/
theorem segments_adds (more : List (Row × Int)) :
    ∀ held : List Row,
      segments held (more.map (fun p => Call.add p.1 p.2))
        = ([], held ++ more.map (fun p => p.1)) := by
  induction more with
  | nil => intro held; simp [segments]
  | cons p rest ih =>
    intro held
    simp [segments, ih (held ++ [p.1])]

/-- C4. For every open batcher and every row, `Add(row)` returns nil and
leaves the row as the last element of the accumulated rows; a flush signal is
pending in the channel whenever one of the three triggers (row count, size,
elapsed time with a row held) holds after the append. With `MaxBatchRows = 1`
every `Add` leaves a signal pending, and a row that brings `currentSize` to
`MaxBatchSize` or more leaves a signal pending and is in the batch returned by
the next `Flush`, whatever `Add` calls come before that `Flush`. -/
theorem Add_appends_and_signals (b : MemoryBatcher) (row : Row) (now : Int) (h : IsOpen b) :
    ∃ b1, Add b row now = some (b1, Error.nil) ∧
      b1.rows = b.rows ++ [row] ∧ b1.rows.getLast? = some row ∧
      (((b1.rows.length : Int) ≥ b1.cfg.MaxBatchRows ∨
        b1.currentSize ≥ b1.cfg.MaxBatchSize ∨
        (Since now b1.lastFlushTime ≥ Seconds b1.cfg.MaxBatchInterval ∧ b1.rows.length > 0)) →
          1 ≤ b1.flushChan.buffered) ∧
      (b.cfg.MaxBatchRows = 1 → 1 ≤ b1.flushChan.buffered) ∧
      (b1.currentSize ≥ b.cfg.MaxBatchSize →
        1 ≤ b1.flushChan.buffered ∧
        ∀ (more : List (Row × Int)) (later : Int),
          ∃ b2, runCalls b1 (more.map (fun p => Call.add p.1 p.2)) = some (b2, []) ∧
            row ∈ (Flush b2 later).2.1) := by
  obtain ⟨b1, hadd, hopen, hrows, _, hcfg, _, hsig⟩ := Add_of_open b row now h
  have htrig := shouldFlushLocked_iff b1 now
  refine ⟨b1, hadd, hrows, ?_, ?_, ?_, ?_⟩
  · rw [hrows]; simp
  · intro ht
    exact hsig (htrig.mpr ht)
  · intro hone
    apply hsig
    apply htrig.mpr
    left
    rw [hcfg, hone, hrows]
    simp
  · intro hsize
    constructor
    · apply hsig
      apply htrig.mpr
      right; left
      rw [hcfg]
      exact hsize
    · intro more later
      obtain ⟨b2, batches, hrun, _, hseg⟩ :=
        runCalls_segments (more.map (fun p => Call.add p.1 p.2)) b1 hopen
      rw [segments_adds] at hseg
      have h1 : batches = [] := congrArg Prod.fst hseg
      have h2 : b2.rows = b1.rows ++ more.map (fun p => p.1) := congrArg Prod.snd hseg
      refine ⟨b2, ?_, ?_⟩
      · rw [hrun, h1]
      · rw [Flush_batch, h2, hrows]
        simp

/-- Witness for C4: a fresh batcher with `MaxBatchRows = 1`. -/
theorem Add_appends_and_signals_witness :
    IsOpen (NewMemoryBatcher ⟨1, 16, 5, 1⟩ 0) ∧
    ∃ b1, Add (NewMemoryBatcher ⟨1, 16, 5, 1⟩ 0) [Value.str "0123456789abcdef"] 1
        = some (b1, Error.nil) ∧
      b1.rows = (NewMemoryBatcher ⟨1, 16, 5, 1⟩ 0).rows ++ [[Value.str "0123456789abcdef"]] ∧
      b1.rows.getLast? = some [Value.str "0123456789abcdef"] ∧
      (((b1.rows.length : Int) ≥ b1.cfg.MaxBatchRows ∨
        b1.currentSize ≥ b1.cfg.MaxBatchSize ∨
        (Since 1 b1.lastFlushTime ≥ Seconds b1.cfg.MaxBatchInterval ∧ b1.rows.length > 0)) →
          1 ≤ b1.flushChan.buffered) ∧
      ((NewMemoryBatcher ⟨1, 16, 5, 1⟩ 0).cfg.MaxBatchRows = 1 → 1 ≤ b1.flushChan.buffered) ∧
      (b1.currentSize ≥ (NewMemoryBatcher ⟨1, 16, 5, 1⟩ 0).cfg.MaxBatchSize →
        1 ≤ b1.flushChan.buffered ∧
        ∀ (more : List (Row × Int)) (later : Int),
          ∃ b2, runCalls b1 (more.map (fun p => Call.add p.1 p.2)) = some (b2, []) ∧
            [Value.str "0123456789abcdef"] ∈ (Flush b2 later).2.1) :=
  ⟨by decide, Add_appends_and_signals _ _ _ (by decide)⟩

/-! ### Steps of the system -/

theorem Chan.trySend_keeps (c c1 : Chan) (h : c.trySend = some c1) :
    c1.capacity = c.capacity ∧ c1.closed = c.closed ∧
      (c.buffered ≤ c.capacity → c1.buffered ≤ c1.capacity) := by
  unfold Chan.trySend at h
  split at h
  · exact absurd h (by simp)
  · split at h
    · next hlt =>
      injection h with h
      subst h
      exact ⟨rfl, rfl, fun _ => hlt⟩
    · injection h with h
      subst h
      exact ⟨rfl, rfl, fun hle => hle⟩

theorem Chan.recv_keeps (c c1 : Chan) (h : c.recv = some c1) :
    c1.capacity = c.capacity ∧ c1.closed = c.closed ∧
      (c.buffered ≤ c.capacity → c1.buffered ≤ c1.capacity) := by
  unfold Chan.recv at h
  split at h
  · injection h with h
    subst h
    refine ⟨rfl, rfl, fun hle => ?_⟩
    show c.buffered - 1 ≤ c.capacity
    omega
  · split at h
    · injection h with h
      subst h
      exact ⟨rfl, rfl, fun hle => hle⟩
    · exact absurd h (by simp)

/-- What `Add` keeps on any batcher, open or closed, when it does not panic. -/
theorem Add_keeps (b b1 : MemoryBatcher) (row : Row) (now : Int) (e : Error)
    (h : Add b row now = some (b1, e)) :
    b1.closed = b.closed ∧ b1.flushChan.capacity = b.flushChan.capacity ∧
      (b.flushChan.buffered ≤ b.flushChan.capacity →
        b1.flushChan.buffered ≤ b1.flushChan.capacity) := by
  unfold Add at h
  split at h
  · injection h with h
    injection h with h _
    subst h
    exact ⟨rfl, rfl, fun hle => hle⟩
  · dsimp only at h
    split at h
    · split at h
      · exact absurd h (by simp)
      · next c hsend =>
        injection h with h
        injection h with h _
        subst h
        obtain ⟨k1, _, k3⟩ := Chan.trySend_keeps _ _ hsend
        exact ⟨rfl, k1, k3⟩
    · injection h with h
      injection h with h _
      subst h
      exact ⟨rfl, rfl, fun hle => hle⟩

theorem Flush_keeps (b : MemoryBatcher) (now : Int) :
    (Flush b now).1.closed = b.closed ∧ (Flush b now).1.flushChan = b.flushChan := by
  unfold Flush
  split
  · exact ⟨rfl, rfl⟩
  · exact ⟨rfl, rfl⟩

/-- Once set by `Close`, the flag `closed` stays set through every step. -/
theorem step_keeps_closed (s s1 : System) (e : Event) (h : step s e = StepResult.next s1)
    (hc : s.batcher.closed = true) : s1.batcher.closed = true := by
  cases e with
  | add row now =>
    simp only [step] at h
    split at h
    · exact absurd h (by simp)
    · next b1 e1 hadd =>
      injection h with h
      subst h
      rw [(Add_keeps _ _ _ _ _ hadd).1]
      exact hc
  | flush now =>
    simp only [step] at h
    injection h with h
    subst h
    rw [(Flush_keeps _ _).1]
    exact hc
  | tick now =>
    simp only [step] at h
    split at h
    · exact absurd h (by simp)
    · injection h with h
      subst h
      exact hc
  | tickSend =>
    simp only [step] at h
    split at h
    · split at h
      · exact absurd h (by simp)
      · injection h with h
        subst h
        exact hc
    · exact absurd h (by simp)
  | receive =>
    simp only [step] at h
    split at h
    · exact absurd h (by simp)
    · injection h with h
      subst h
      exact hc
  | close =>
    simp only [step, Close] at h
    split at h
    · exact absurd h (by simp)
    · next b1 e1 hclose =>
      injection h with h
      subst h
      split at hclose
      · exact absurd hclose (by simp)
      · injection hclose with hclose
        injection hclose with hclose _
        subst hclose
        rfl

theorem runEvents_keeps_closed (evs : List Event) :
    ∀ s s1 : System, runEvents s evs = some s1 → s.batcher.closed = true →
      s1.batcher.closed = true := by
  induction evs with
  | nil =>
    intro s s1 h hc
    simp only [runEvents] at h
    injection h with h
    subst h
    exact hc
  | cons e rest ih =>
    intro s s1 h hc
    simp only [runEvents] at h
    split at h
    · next s2 hstep => exact ih s2 s1 h (step_keeps_closed s s2 e hstep hc)
    · exact absurd h (by simp)

theorem step_close_sets_closed (s s1 : System) (h : step s Event.close = StepResult.next s1) :
    s1.batcher.closed = true := by
  simp only [step, Close] at h
  split at h
  · exact absurd h (by simp)
  · next b1 e1 hclose =>
    injection h with h
    subst h
    split at hclose
    · exact absurd hclose (by simp)
    · injection hclose with hclose
      injection hclose with hclose _
      subst hclose
      rfl

/-- C5. In every state reached after `Close`, through any further steps of
the batcher, its timer and the dispatcher, `Add(row)` returns nil and leaves
the whole state unchanged: `rows`, `currentSize`, `lastFlushTime`, the flag
`closed` and the signal channel. -/
theorem Add_after_Close (s0 s1 s : System) (evs : List Event) (row : Row) (now : Int)
    (hclose : step s0 Event.close = StepResult.next s1)
    (hrun : runEvents s1 evs = some s) :
    Add s.batcher row now = some (s.batcher, Error.nil) := by
  have hc : s.batcher.closed = true :=
    runEvents_keeps_closed evs s1 s hrun (step_close_sets_closed s0 s1 hclose)
  unfold Add
  rw [if_pos hc]

/-- Witness for C5: a batcher holding one row is closed, then flushed at
time 2 and read by the dispatcher; a later `Add` changes nothing. -/
theorem Add_after_Close_witness :
    step ⟨⟨⟨100, 1000, 5, 1⟩, [[Value.int64 1]], 8, ⟨0, 1, false⟩, 0, false⟩, false⟩ Event.close
      = StepResult.next
          ⟨⟨⟨100, 1000, 5, 1⟩, [[Value.int64 1]], 8, ⟨0, 1, true⟩, 0, true⟩, false⟩ ∧
    runEvents ⟨⟨⟨100, 1000, 5, 1⟩, [[Value.int64 1]], 8, ⟨0, 1, true⟩, 0, true⟩, false⟩
        [Event.flush 2, Event.receive]
      = some ⟨⟨⟨100, 1000, 5, 1⟩, [], 0, ⟨0, 1, true⟩, 2, true⟩, false⟩ ∧
    Add (System.batcher ⟨⟨⟨100, 1000, 5, 1⟩, [], 0, ⟨0, 1, true⟩, 2, true⟩, false⟩)
        [Value.int64 2] 3
      = some (System.batcher ⟨⟨⟨100, 1000, 5, 1⟩, [], 0, ⟨0, 1, true⟩, 2, true⟩, false⟩,
          Error.nil) :=
  ⟨by decide, by decide,
    Add_after_Close
      ⟨⟨⟨100, 1000, 5, 1⟩, [[Value.int64 1]], 8, ⟨0, 1, false⟩, 0, false⟩, false⟩
      ⟨⟨⟨100, 1000, 5, 1⟩, [[Value.int64 1]], 8, ⟨0, 1, true⟩, 0, true⟩, false⟩
      ⟨⟨⟨100, 1000, 5, 1⟩, [], 0, ⟨0, 1, true⟩, 2, true⟩, false⟩
      [Event.flush 2, Event.receive] [Value.int64 2] 3 (by decide) (by decide)⟩

/-- Channel invariant of the system: capacity 1 and no more tokens than that. -/
theorem step_keeps_channel_bound (s s1 : System) (e : Event)
    (h : step s e = StepResult.next s1)
    (hinv : s.batcher.flushChan.capacity = 1 ∧
      s.batcher.flushChan.buffered ≤ s.batcher.flushChan.capacity) :
    s1.batcher.flushChan.capacity = 1 ∧
      s1.batcher.flushChan.buffered ≤ s1.batcher.flushChan.capacity := by
  obtain ⟨hcap, hbuf⟩ := hinv
  cases e with
  | add row now =>
    simp only [step] at h
    split at h
    · exact absurd h (by simp)
    · next b1 e1 hadd =>
      injection h with h
      subst h
      obtain ⟨_, k2, k3⟩ := Add_keeps _ _ _ _ _ hadd
      exact ⟨k2.trans hcap, k3 hbuf⟩
  | flush now =>
    simp only [step] at h
    injection h with h
    subst h
    show (Flush s.batcher now).1.flushChan.capacity = 1 ∧ _
    rw [(Flush_keeps _ _).2]
    exact ⟨hcap, hbuf⟩
  | tick now =>
    simp only [step] at h
    split at h
    · exact absurd h (by simp)
    · injection h with h
      subst h
      exact ⟨hcap, hbuf⟩
  | tickSend =>
    simp only [step] at h
    split at h
    · split at h
      · exact absurd h (by simp)
      · next c hsend =>
        injection h with h
        subst h
        obtain ⟨k1, _, k3⟩ := Chan.trySend_keeps _ _ hsend
        exact ⟨k1.trans hcap, k3 hbuf⟩
    · exact absurd h (by simp)
  | receive =>
    simp only [step] at h
    split at h
    · exact absurd h (by simp)
    · next c hrecv =>
      injection h with h
      subst h
      obtain ⟨k1, _, k3⟩ := Chan.recv_keeps _ _ hrecv
      exact ⟨k1.trans hcap, k3 hbuf⟩
  | close =>
    simp only [step, Close] at h
    split at h
    · exact absurd h (by simp)
    · next b1 e1 hclose =>
      injection h with h
      subst h
      split at hclose
      · exact absurd hclose (by simp)
      · next c hcl =>
        injection hclose with hclose
        injection hclose with hclose _
        subst hclose
        unfold Chan.close at hcl
        split at hcl
        · exact absurd hcl (by simp)
        · injection hcl with hcl
          subst hcl
          exact ⟨hcap, hbuf⟩

theorem runEvents_keeps_channel_bound (evs : List Event) :
    ∀ s s1 : System, runEvents s evs = some s1 →
      (s.batcher.flushChan.capacity = 1 ∧
        s.batcher.flushChan.buffered ≤ s.batcher.flushChan.capacity) →
      (s1.batcher.flushChan.capacity = 1 ∧
        s1.batcher.flushChan.buffered ≤ s1.batcher.flushChan.capacity) := by
  induction evs with
  | nil =>
    intro s s1 h hinv
    simp only [runEvents] at h
    injection h with h
    subst h
    exact hinv
  | cons e rest ih =>
    intro s s1 h hinv
    simp only [runEvents] at h
    split at h
    · next s2 hstep => exact ih s2 s1 h (step_keeps_channel_bound s s2 e hstep hinv)
    · exact absurd h (by simp)

/-- C6. In every state reachable from `NewMemoryBatcher` by any interleaving
of `Add`, `Flush`, timer ticks of `Start` (the check and the send taken as
separate steps), receives by the dispatcher and `Close`, the flush-signal
channel buffers at most one token. -/
theorem flushChan_at_most_one (cfg : BatchConfig) (t0 : Int) (evs : List Event) (s : System)
    (h : runEvents (initSystem cfg t0) evs = some s) :
    s.batcher.flushChan.buffered ≤ 1 := by
  have hinit : (initSystem cfg t0).batcher.flushChan.capacity = 1 ∧
      (initSystem cfg t0).batcher.flushChan.buffered
        ≤ (initSystem cfg t0).batcher.flushChan.capacity := by
    simp [initSystem, NewMemoryBatcher, Chan.make]
  obtain ⟨hcap, hbuf⟩ := runEvents_keeps_channel_bound evs _ s h hinit
  omega

/-- Witness for C6: two adds that both trigger, a tick that triggers, a
receive, the send of the tick and a third add; one token is buffered. -/
theorem flushChan_at_most_one_witness :
    runEvents (initSystem ⟨1, 1000, 5, 1⟩ 0)
        [Event.add [Value.int64 1] 1, Event.add [Value.int64 2] 2, Event.tick 3,
         Event.receive, Event.tickSend, Event.add [Value.int64 3] 4]
      = some ⟨⟨⟨1, 1000, 5, 1⟩, [[Value.int64 1], [Value.int64 2], [Value.int64 3]], 24,
          ⟨1, 1, false⟩, 0, false⟩, false⟩ ∧
    (1 : Nat) ≤ 1 :=
  ⟨by decide,
    flushChan_at_most_one ⟨1, 1000, 5, 1⟩ 0
      [Event.add [Value.int64 1] 1, Event.add [Value.int64 2] 2, Event.tick 3,
       Event.receive, Event.tickSend, Event.add [Value.int64 3] 4]
      ⟨⟨⟨1, 1000, 5, 1⟩, [[Value.int64 1], [Value.int64 2], [Value.int64 3]], 24,
        ⟨1, 1, false⟩, 0, false⟩, false⟩ (by decide)⟩

/-! ## Mapper -/

/-- The loop of `MapJSONToRow` overwrites the cells `i .. i + len(cols) - 1`
with the values of the columns and leaves the rest of the row alone. -/
theorem mapColumns_fills (lib : Sonic) (jsonBytes : List UInt8) (cols : List Column) :
    ∀ (pre mid post : List Value), mid.length = cols.length →
      mapColumns lib jsonBytes cols pre.length (pre ++ mid ++ post)
        = pre ++ cols.map (columnValue lib jsonBytes) ++ post := by
  induction cols with
  | nil =>
    intro pre mid post hlen
    have hmid : mid = [] := List.length_eq_zero.mp hlen
    subst hmid
    simp [mapColumns]
  | cons col rest ih =>
    intro pre mid post hlen
    cases mid with
    | nil => simp at hlen
    | cons m mid1 =>
      have hlen1 : mid1.length = rest.length := by simpa using hlen
      have hset : (pre ++ (m :: mid1) ++ post).set pre.length (columnValue lib jsonBytes col)
          = (pre ++ [columnValue lib jsonBytes col]) ++ mid1 ++ post := by
        simp [List.append_assoc]
      have hnext := ih (pre ++ [columnValue lib jsonBytes col]) mid1 post hlen1
      simp only [List.length_append, List.length_singleton] at hnext
      simp only [mapColumns, hset, hnext]
      simp [List.append_assoc]

theorem MapJSONToRow_eq_map (lib : Sonic) (schema : Schema) (jsonBytes : List UInt8) :
    MapJSONToRow lib schema jsonBytes
      = (schema.Columns.map (columnValue lib jsonBytes), Error.nil) := by
  have h := mapColumns_fills lib jsonBytes schema.Columns []
    (List.replicate schema.Columns.length Value.nil) [] (by simp)
  simp only [List.nil_append, List.append_nil, List.length_nil] at h
  simp only [MapJSONToRow, Schema.ColumnCount, h]

/-- C7. For every schema and every byte string passed as the message value,
whatever the JSON library makes of it, `MapJSONToRow` returns a nil error and
a row whose length is `Schema.ColumnCount()`. -/
theorem MapJSONToRow_total (lib : Sonic) (schema : Schema) (jsonBytes : List UInt8) :
    (MapJSONToRow lib schema jsonBytes).2 = Error.nil ∧
      (MapJSONToRow lib schema jsonBytes).1.length = schema.ColumnCount := by
  rw [MapJSONToRow_eq_map]
  simp [Schema.ColumnCount]

/-- C8 at a field that is present. For a `FLOAT` column whose field is in the
document and converts, `extractValue` stores the result of `node.Number()`,
a `json.Number`; the specification asks for a 64-bit float, the type that
`GetZeroValue` gives to the same column when the field is missing. -/
theorem MapJSONToRow_float_is_jsonNumber (lib : Sonic) (jsonBytes : List UInt8)
    (name : String) (node : Node) (n : String)
    (hget : lib.Get jsonBytes name = Except.ok node) (hex : node.exist = true)
    (hnum : node.number = Except.ok n) :
    MapJSONToRow lib (NewSchema [⟨name, "FLOAT"⟩]) jsonBytes
        = ([Value.jsonNumber n], Error.nil) ∧
      (Value.jsonNumber n).typeOf ≠ GoType.float64 ∧
      specType "FLOAT" = some GoType.float64 ∧
      (GetZeroValue "FLOAT").typeOf = GoType.float64 := by
  refine ⟨?_, by simp [Value.typeOf], by decide, by decide⟩
  rw [MapJSONToRow_eq_map]
  simp [NewSchema, columnValue, hget, hex, extractValue, hnum]

/-- Witness for C8: the document `{"price":1.5}` and the schema
`[price:FLOAT]`. -/
theorem MapJSONToRow_float_is_jsonNumber_witness :
    MapJSONToRow (documentLib [("price", numberNode "1.5" 1)])
        (NewSchema [⟨"price", "FLOAT"⟩])
        [123, 34, 112, 114, 105, 99, 101, 34, 58, 49, 46, 53, 125]
        = ([Value.jsonNumber "1.5"], Error.nil) ∧
      (Value.jsonNumber "1.5").typeOf ≠ GoType.float64 ∧
      specType "FLOAT" = some GoType.float64 ∧
      (GetZeroValue "FLOAT").typeOf = GoType.float64 :=
  MapJSONToRow_float_is_jsonNumber (documentLib [("price", numberNode "1.5" 1)])
    [123, 34, 112, 114, 105, 99, 101, 34, 58, 49, 46, 53, 125] "price"
    (numberNode "1.5" 1) "1.5" rfl rfl rfl

/-- C9. For every column `i`: if the field is absent from the document (the
lookup fails or the node does not exist) or its extraction fails, `row[i]` is
`GetZeroValue(Columns[i].Type)`; otherwise `row[i]` is the extracted value; so
each column is filled on its own account. The schema `[id:BIGINT,
flag:BOOLEAN]` with the document `{"id":42}` gives the row `[42, false]`, and
the string `"not a number"` in an `INT` column gives 0. -/
theorem MapJSONToRow_cells (lib : Sonic) (schema : Schema) (jsonBytes : List UInt8)
    (i : Nat) (col : Column) (hcol : schema.Columns[i]? = some col) :
    (((∃ err, lib.Get jsonBytes col.Name = Except.error err) ∨
      (∃ node, lib.Get jsonBytes col.Name = Except.ok node ∧ node.exist = false)) →
        (MapJSONToRow lib schema jsonBytes).1[i]? = some (GetZeroValue col.Type_)) ∧
    (∀ node, lib.Get jsonBytes col.Name = Except.ok node → node.exist = true →
      (extractValue node col.Type_ col.Name).2 ≠ Error.nil →
        (MapJSONToRow lib schema jsonBytes).1[i]? = some (GetZeroValue col.Type_)) ∧
    (∀ node v, lib.Get jsonBytes col.Name = Except.ok node → node.exist = true →
      extractValue node col.Type_ col.Name = (v, Error.nil) →
        (MapJSONToRow lib schema jsonBytes).1[i]? = some v) ∧
    MapJSONToRow (documentLib [("id", numberNode "42" 42)])
        (NewSchema [⟨"id", "BIGINT"⟩, ⟨"flag", "BOOLEAN"⟩])
        [123, 34, 105, 100, 34, 58, 52, 50, 125]
      = ([Value.int64 42, Value.bool false], Error.nil) ∧
    MapJSONToRow (documentLib [("age", textNode "not a number")])
        (NewSchema [⟨"age", "INT"⟩])
        [123, 34, 97, 103, 101, 34, 58, 34, 110, 111, 116, 32, 97, 32, 110, 117, 109, 98,
         101, 114, 34, 125]
      = ([Value.int64 0], Error.nil) := by
  have hcell : (MapJSONToRow lib schema jsonBytes).1[i]?
      = some (columnValue lib jsonBytes col) := by
    rw [MapJSONToRow_eq_map]
    simp [List.getElem?_map, hcol]
  refine ⟨?_, ?_, ?_, by decide, by decide⟩
  · intro habs
    rw [hcell]
    rcases habs with ⟨err, herr⟩ | ⟨node, hnode, hex⟩
    · simp [columnValue, herr]
    · simp [columnValue, hnode, hex]
  · intro node hnode hex herr
    rw [hcell]
    simp only [columnValue, hnode, hex]
    simp [herr]
  · intro node v hnode hex hval
    rw [hcell]
    simp only [columnValue, hnode, hex, hval]
    simp

/-- Witness for C9: the column `flag` of `[id:BIGINT, flag:BOOLEAN]` on the
document `{"id":42}`. -/
theorem MapJSONToRow_cells_witness :
    (NewSchema [⟨"id", "BIGINT"⟩, ⟨"flag", "BOOLEAN"⟩]).Columns[1]?
      = some ⟨"flag", "BOOLEAN"⟩ ∧
    (MapJSONToRow (documentLib [("id", numberNode "42" 42)])
        (NewSchema [⟨"id", "BIGINT"⟩, ⟨"flag", "BOOLEAN"⟩])
        [123, 34, 105, 100, 34, 58, 52, 50, 125]).1[1]?
      = some (GetZeroValue "BOOLEAN") :=
  ⟨rfl,
    (MapJSONToRow_cells (documentLib [("id", numberNode "42" 42)])
      (NewSchema [⟨"id", "BIGINT"⟩, ⟨"flag", "BOOLEAN"⟩])
      [123, 34, 105, 100, 34, 58, 52, 50, 125] 1 ⟨"flag", "BOOLEAN"⟩ rfl).1
      (Or.inl ⟨Error.foreign "value not exists", rfl⟩)⟩

/-! ## Type mapping -/

theorem splitChars_head (sep : Char) (cs : List Char) :
    (splitChars sep cs).head? = some (cs.takeWhile (fun c => c ≠ sep)) := by
  induction cs with
  | nil => rfl
  | cons c rest ih =>
    by_cases hc : c = sep
    · simp [splitChars, hc]
    · cases hsp : splitChars sep rest with
      | nil => rw [hsp] at ih; simp at ih
      | cons piece pieces =>
        rw [hsp] at ih
        simp only [List.head?_cons, Option.some.injEq] at ih
        simp [splitChars, hc, hsp, ih]

/-- The element 0 of `strings.Split(s, "(")` is the part of `s` before its
first `(`, all of `s` when there is none. -/
theorem Split_head (s : String) :
    (Split s '(').headD "" = String.mk (s.data.takeWhile (fun c => c ≠ '(')) := by
  have h := splitChars_head '(' s.data
  unfold Split
  cases hsp : splitChars '(' s.data with
  | nil => rw [hsp] at h; simp at h
  | cons piece pieces =>
    rw [hsp] at h
    simp only [List.head?_cons, Option.some.injEq] at h
    simp [h]

/-- The switch of `MapDorisType` on an already normalised base type. -/
theorem MapDorisType_eq (upperTable : Char → Char) (s : String) :
    MapDorisType upperTable s =
      (fun b : String =>
        if b ∈ ["TINYINT", "SMALLINT", "INT", "INTEGER"] then "INT"
        else if b ∈ ["BIGINT"] then "BIGINT"
        else if b ∈ ["BOOLEAN", "BOOL"] then "BOOLEAN"
        else if b ∈ ["FLOAT", "DOUBLE", "DECIMAL"] then "FLOAT"
        else if b ∈ ["CHAR", "VARCHAR"] then "VARCHAR"
        else if b ∈ ["STRING", "TEXT", "MEDIUMTEXT", "LONGTEXT"] then "STRING"
        else if b ∈ ["DATE"] then "DATE"
        else if b ∈ ["DATETIME", "TIMESTAMP"] then "DATETIME"
        else "STRING")
      (TrimSpace (ToUpper upperTable (String.mk (s.data.takeWhile (fun c => c ≠ '('))))) := by
  unfold MapDorisType
  rw [Split_head]

/-- C10. Let `b` be the part of `s` before its first `(`, upper-cased and
trimmed of surrounding white space. `MapDorisType(s)` is INT for `b` in
TINYINT, SMALLINT, INT, INTEGER; BIGINT for BIGINT; BOOLEAN for BOOLEAN, BOOL;
FLOAT for FLOAT, DOUBLE, DECIMAL; VARCHAR for CHAR, VARCHAR; STRING for
STRING, TEXT, MEDIUMTEXT, LONGTEXT; DATE for DATE; DATETIME for DATETIME,
TIMESTAMP; and STRING for every other `b`. The result is always one of the
eight internal tags; `varchar(255)` gives VARCHAR and `decimal(10,2)` gives
FLOAT. -/
theorem MapDorisType_table (upperTable : Char → Char) (s : String) :
    (TrimSpace (ToUpper upperTable (String.mk (s.data.takeWhile (fun c => c ≠ '('))))
        ∈ ["TINYINT", "SMALLINT", "INT", "INTEGER"] → MapDorisType upperTable s = "INT") ∧
    (TrimSpace (ToUpper upperTable (String.mk (s.data.takeWhile (fun c => c ≠ '('))))
        ∈ ["BIGINT"] → MapDorisType upperTable s = "BIGINT") ∧
    (TrimSpace (ToUpper upperTable (String.mk (s.data.takeWhile (fun c => c ≠ '('))))
        ∈ ["BOOLEAN", "BOOL"] → MapDorisType upperTable s = "BOOLEAN") ∧
    (TrimSpace (ToUpper upperTable (String.mk (s.data.takeWhile (fun c => c ≠ '('))))
        ∈ ["FLOAT", "DOUBLE", "DECIMAL"] → MapDorisType upperTable s = "FLOAT") ∧
    (TrimSpace (ToUpper upperTable (String.mk (s.data.takeWhile (fun c => c ≠ '('))))
        ∈ ["CHAR", "VARCHAR"] → MapDorisType upperTable s = "VARCHAR") ∧
    (TrimSpace (ToUpper upperTable (String.mk (s.data.takeWhile (fun c => c ≠ '('))))
        ∈ ["STRING", "TEXT", "MEDIUMTEXT", "LONGTEXT"] → MapDorisType upperTable s = "STRING") ∧
    (TrimSpace (ToUpper upperTable (String.mk (s.data.takeWhile (fun c => c ≠ '('))))
        ∈ ["DATE"] → MapDorisType upperTable s = "DATE") ∧
    (TrimSpace (ToUpper upperTable (String.mk (s.data.takeWhile (fun c => c ≠ '('))))
        ∈ ["DATETIME", "TIMESTAMP"] → MapDorisType upperTable s = "DATETIME") ∧
    (TrimSpace (ToUpper upperTable (String.mk (s.data.takeWhile (fun c => c ≠ '('))))
        ∉ ["TINYINT", "SMALLINT", "INT", "INTEGER", "BIGINT", "BOOLEAN", "BOOL", "FLOAT",
           "DOUBLE", "DECIMAL", "CHAR", "VARCHAR", "STRING", "TEXT", "MEDIUMTEXT",
           "LONGTEXT", "DATE", "DATETIME", "TIMESTAMP"] →
        MapDorisType upperTable s = "STRING") ∧
    MapDorisType upperTable s ∈ typeTags ∧
    MapDorisType upperTable "varchar(255)" = "VARCHAR" ∧
    MapDorisType upperTable "decimal(10,2)" = "FLOAT" := by
  rw [MapDorisType_eq]
  generalize TrimSpace (ToUpper upperTable (String.mk (s.data.takeWhile (fun c => c ≠ '('))))
    = b
  refine ⟨?_, ?_, ?_, ?_, ?_, ?_, ?_, ?_, ?_, ?_, by rfl, by rfl⟩
  · intro h
    simp only [h, if_true]
  · intro h
    simp only [List.mem_singleton] at h
    subst h
    decide
  · intro h
    simp only [List.mem_cons, List.mem_singleton, List.not_mem_nil, or_false] at h
    rcases h with h | h <;> subst h <;> decide
  · intro h
    simp only [List.mem_cons, List.mem_singleton, List.not_mem_nil, or_false] at h
    rcases h with h | h | h <;> subst h <;> decide
  · intro h
    simp only [List.mem_cons, List.mem_singleton, List.not_mem_nil, or_false] at h
    rcases h with h | h <;> subst h <;> decide
  · intro h
    simp only [List.mem_cons, List.mem_singleton, List.not_mem_nil, or_false] at h
    rcases h with h | h | h | h <;> subst h <;> decide
  · intro h
    simp only [List.mem_singleton] at h
    subst h
    decide
  · intro h
    simp only [List.mem_cons, List.mem_singleton, List.not_mem_nil, or_false] at h
    rcases h with h | h <;> subst h <;> decide
  · intro h
    simp only [List.mem_cons, List.mem_singleton, List.not_mem_nil, or_false, not_or] at h
    obtain ⟨h1, h2, h3, h4, h5, h6, h7, h8, h9, h10, h11, h12, h13, h14, h15, h16, h17, h18,
      h19⟩ := h
    simp [h1, h2, h3, h4, h5, h6, h7, h8, h9, h10, h11, h12, h13, h14, h15, h16, h17, h18, h19]
  · dsimp only
    unfold typeTags
    split
    · decide
    · split
      · decide
      · split
        · decide
        · split
          · decide
          · split
            · decide
            · split
              · decide
              · split
                · decide
                · split
                  · decide
                  · decide

/-- Instance of C10: `bigint(20)` and ` Decimal (10,2)`. -/
theorem MapDorisType_table_witness :
    MapDorisType id "bigint(20)" = "BIGINT" ∧ MapDorisType id " Decimal (10,2)" = "FLOAT" :=
  ⟨(MapDorisType_table id "bigint(20)").2.1 (by decide),
   (MapDorisType_table id " Decimal (10,2)").2.2.2.1 (by decide)⟩

theorem GetZeroValue_type (tag : String) (htag : tag ∈ typeTags) :
    some (GetZeroValue tag).typeOf = specType tag := by
  simp only [typeTags, List.mem_cons, List.mem_singleton, List.not_mem_nil, or_false] at htag
  rcases htag with h | h | h | h | h | h | h | h <;> subst h <;> decide

/-- Runtime types of the cells for the eight tags: the type the specification
names, except that a `FLOAT` cell may also hold a `json.Number`. -/
theorem columnValue_type (lib : Sonic) (jsonBytes : List UInt8) (col : Column)
    (htag : col.Type_ ∈ typeTags) :
    some (columnValue lib jsonBytes col).typeOf = specType col.Type_ ∨
      (col.Type_ = "FLOAT" ∧ (columnValue lib jsonBytes col).typeOf = GoType.jsonNumber) := by
  have hzero := GetZeroValue_type col.Type_ htag
  simp only [typeTags, List.mem_cons, List.mem_singleton, List.not_mem_nil, or_false] at htag
  unfold columnValue
  cases hget : lib.Get jsonBytes col.Name with
  | error err => exact Or.inl hzero
  | ok node =>
    dsimp only
    cases hex : node.exist with
    | false => exact Or.inl hzero
    | true =>
      simp only [Bool.not_true, Bool.false_eq_true, if_false]
      rcases htag with h | h | h | h | h | h | h | h <;> rw [h] at hzero ⊢
      · cases hv : node.int64 <;> simp [extractValue, hv, GetZeroValue, specType, Value.typeOf, Wrap]
      · cases hv : node.int64 <;> simp [extractValue, hv, GetZeroValue, specType, Value.typeOf, Wrap]
      · cases hv : node.bool <;> simp [extractValue, hv, GetZeroValue, specType, Value.typeOf, Wrap]
      · cases hv : node.number <;> simp [extractValue, hv, GetZeroValue, specType, Value.typeOf, Wrap]
      · cases hv : node.string <;> simp [extractValue, hv, GetZeroValue, specType, Value.typeOf, Wrap]
      · cases hv : node.string <;> simp [extractValue, hv, GetZeroValue, specType, Value.typeOf, Wrap]
      · cases hv : node.string <;> simp [extractValue, hv, GetZeroValue, specType, Value.typeOf, Wrap]
      · cases hv : node.string <;> simp [extractValue, hv, GetZeroValue, specType, Value.typeOf, Wrap]

/-- The result of `MapDorisType` is one of the eight internal tags. -/
theorem MapDorisType_mem_typeTags (upperTable : Char → Char) (s : String) :
    MapDorisType upperTable s ∈ typeTags := by
  rw [MapDorisType_eq]
  generalize TrimSpace (ToUpper upperTable (String.mk (s.data.takeWhile (fun c => c ≠ '('))))
    = b
  dsimp only
  unfold typeTags
  split
  · decide
  · split
    · decide
    · split
      · decide
      · split
        · decide
        · split
          · decide
          · split
            · decide
            · split
              · decide
              · split
                · decide
                · decide

/-- Each internal tag is mapped to itself, whatever the case tables. -/
theorem MapDorisType_tag (upperTable : Char → Char) (tag : String) (h : tag ∈ typeTags) :
    MapDorisType upperTable tag = tag := by
  simp only [typeTags, List.mem_cons, List.mem_singleton, List.not_mem_nil, or_false] at h
  rcases h with h | h | h | h | h | h | h | h <;> subst h <;> rfl

/-- C11. `MapDorisType` is idempotent: for every string `s`,
`MapDorisType(MapDorisType(s)) = MapDorisType(s)`, and each of the eight
internal tags is a fixed point of `MapDorisType`. -/
theorem MapDorisType_idempotent (upperTable : Char → Char) (s : String) :
    MapDorisType upperTable (MapDorisType upperTable s) = MapDorisType upperTable s ∧
    MapDorisType upperTable "INT" = "INT" ∧
    MapDorisType upperTable "BIGINT" = "BIGINT" ∧
    MapDorisType upperTable "BOOLEAN" = "BOOLEAN" ∧
    MapDorisType upperTable "FLOAT" = "FLOAT" ∧
    MapDorisType upperTable "VARCHAR" = "VARCHAR" ∧
    MapDorisType upperTable "STRING" = "STRING" ∧
    MapDorisType upperTable "DATE" = "DATE" ∧
    MapDorisType upperTable "DATETIME" = "DATETIME" :=
  ⟨MapDorisType_tag upperTable _ (MapDorisType_mem_typeTags upperTable s),
    rfl, rfl, rfl, rfl, rfl, rfl, rfl, rfl⟩

/-- C12. `GetZeroValue` returns the 64-bit integer 0 for BIGINT and INT, false
for BOOLEAN, the float 0.0 for FLOAT and the empty string for VARCHAR, STRING,
DATE and DATETIME; so for every tag that `MapDorisType` can return the zero
value is not nil and has the runtime type of the column. -/
theorem GetZeroValue_table (upperTable : Char → Char) (s : String) :
    GetZeroValue "BIGINT" = Value.int64 0 ∧ GetZeroValue "INT" = Value.int64 0 ∧
    GetZeroValue "BOOLEAN" = Value.bool false ∧
    GetZeroValue "FLOAT" = Value.float64 0 ∧
    GetZeroValue "VARCHAR" = Value.str "" ∧ GetZeroValue "STRING" = Value.str "" ∧
    GetZeroValue "DATE" = Value.str "" ∧ GetZeroValue "DATETIME" = Value.str "" ∧
    GetZeroValue (MapDorisType upperTable s) ≠ Value.nil ∧
    some (GetZeroValue (MapDorisType upperTable s)).typeOf
      = specType (MapDorisType upperTable s) := by
  refine ⟨rfl, rfl, rfl, rfl, rfl, rfl, rfl, rfl, ?_, ?_⟩
  · have h := MapDorisType_mem_typeTags upperTable s
    generalize MapDorisType upperTable s = tag at h
    simp only [typeTags, List.mem_cons, List.mem_singleton, List.not_mem_nil, or_false] at h
    rcases h with h | h | h | h | h | h | h | h <;> subst h <;> decide
  · exact GetZeroValue_type _ (MapDorisType_mem_typeTags upperTable s)

/-- C19. `IsRetryable(e)` is true exactly when `e` is a `SinkerError` whose
code is KafkaConnect (1001), DorisConnect (4001) or DorisStreamLoad (4002); it
is false for each of the other eleven declared codes, for nil and for every
error that is not a `SinkerError`. -/
theorem IsRetryable_iff (e : Error) :
    (IsRetryable e = true ↔
      ∃ code message cause, e = Error.sinker code message cause ∧
        (code = 1001 ∨ code = 4001 ∨ code = 4002)) ∧
    (∀ code message cause, code ∈ errorCodes → code ≠ 1001 → code ≠ 4001 → code ≠ 4002 →
      IsRetryable (Error.sinker code message cause) = false) ∧
    (errorCodes.filter (fun code => code ≠ 1001 ∧ code ≠ 4001 ∧ code ≠ 4002)).length = 11 ∧
    IsRetryable Error.nil = false ∧
    (∀ msg, IsRetryable (Error.foreign msg) = false) := by
  refine ⟨?_, ?_, by decide, rfl, fun _ => rfl⟩
  · cases e with
    | nil => simp [IsRetryable]
    | foreign msg => simp [IsRetryable]
    | sinker code message cause =>
      simp [IsRetryable, ErrCodeKafkaConnect, ErrCodeDorisConnect, ErrCodeDorisStreamLoad]
  · intro code message cause _ h1 h2 h3
    simp [IsRetryable, ErrCodeKafkaConnect, ErrCodeDorisConnect, ErrCodeDorisStreamLoad, h1,
      h2, h3]

/-! ## JSON Lines builder -/

theorem writeValue_eq (enc : Encoder) (buf : String) (v : Value) :
    writeValue enc buf v = buf ++ valueText enc v := by
  cases v with
  | nil => rfl
  | str s => simp [writeValue, valueText, String.append_assoc]
  | int n => rfl
  | int64 n => rfl
  | float64 bits => rfl
  | bool b => cases b <;> simp [writeValue, valueText]
  | jsonNumber s =>
    simp only [writeValue, valueText]
    cases enc.Marshal (Value.jsonNumber s) <;> rfl
  | other t =>
    simp only [writeValue, valueText]
    cases enc.Marshal (Value.other t) <;> rfl

/-- Pairs each preceded by a comma. -/
theorem joinWith_cons (sep x : String) (xs : List String) :
    joinWith sep (x :: xs) = x ++ (xs.map (fun y => sep ++ y)).foldr (fun a b => a ++ b) "" := by
  induction xs generalizing x with
  | nil => simp [joinWith]
  | cons y ys ih => simp [joinWith, ih y, String.append_assoc]

/-- The column loop from index `j` on writes the pairs of the columns that
the row still has a value for, a comma before each pair but the one at
index 0. -/
theorem writeColumns_eq (enc : Encoder) (row : Row) (cols : List String) :
    ∀ (j : Nat) (buf : String),
      writeColumns enc row cols j buf
        = buf ++ (if j = 0 then joinWith "," (List.zipWith (pairText enc) cols (row.drop j))
            else ((List.zipWith (pairText enc) cols (row.drop j)).map
              (fun y => "," ++ y)).foldr (fun a b => a ++ b) "") := by
  induction cols with
  | nil =>
    intro j buf
    by_cases hj : j = 0 <;> simp [writeColumns, joinWith, hj]
  | cons col rest ih =>
    intro j buf
    by_cases hlt : j < row.length
    · have hdrop : row.drop j = row.getD j Value.nil :: row.drop (j + 1) := by
        rw [List.getD_eq_getElem _ _ hlt]
        exact List.drop_eq_getElem_cons hlt
      rw [writeColumns, if_pos hlt, ih (j + 1), hdrop]
      simp only [Nat.add_one_ne_zero, if_false, List.zipWith_cons_cons, writeValue_eq]
      by_cases hj : j = 0
      · subst hj
        simp [joinWith_cons, pairText, String.append_assoc]
      · have hpos : j > 0 := Nat.pos_of_ne_zero hj
        have hq : (",\"" : String) = "," ++ "\"" := by decide
        simp [hj, hpos, pairText, String.append_assoc]
        rw [hq, String.append_assoc]
    · have hdrop : row.drop j = [] := List.drop_eq_nil_of_le (Nat.le_of_not_lt hlt)
      have hdrop1 : row.drop (j + 1) = [] := List.drop_eq_nil_of_le (by omega)
      rw [writeColumns, if_neg hlt, ih (j + 1), hdrop, hdrop1]
      by_cases hj : j = 0 <;> simp [joinWith, hj]

theorem writeColumns_row (enc : Encoder) (row : Row) (cols : List String) (buf : String) :
    writeColumns enc row cols 0 buf
      = buf ++ joinWith "," (List.zipWith (pairText enc) cols row) := by
  rw [writeColumns_eq]
  simp

theorem writeRows_eq (enc : Encoder) (cols : List String) (n : Nat) (rows : List Row) :
    ∀ (i : Nat) (buf : String), i + rows.length = n →
      writeRows enc cols n rows i buf = buf ++ joinWith "\n" (rows.map (rowObject enc cols)) := by
  induction rows with
  | nil => intro i buf _; simp [writeRows, joinWith]
  | cons row rest ih =>
    intro i buf hlen
    simp only [List.length_cons] at hlen
    rw [writeRows]
    simp only [writeColumns_row]
    cases rest with
    | nil =>
      have hlast : ¬ ((i : Int) < (n : Int) - 1) := by
        simp only [List.length_nil] at hlen
        omega
      rw [if_neg hlast]
      simp [writeRows, joinWith, rowObject, String.append_assoc]
    | cons row2 rest2 =>
      have hmore : (i : Int) < (n : Int) - 1 := by
        simp only [List.length_cons] at hlen
        omega
      rw [if_pos hmore, ih (i + 1) _ (by simp only [List.length_cons] at hlen ⊢; omega)]
      simp [joinWith, rowObject, String.append_assoc]

/-- Output of `BuildJSONLines` for any batch: the row objects joined by
newlines; an object holds the pairs of the columns for which the row has a
value. -/
theorem BuildJSONLines_eq (enc : Encoder) (batch : List Row) (columns : List String) :
    BuildJSONLines enc batch columns = joinWith "\n" (batch.map (rowObject enc columns)) := by
  unfold BuildJSONLines
  by_cases h : batch.length = 0
  · rw [if_pos h, List.length_eq_zero.mp h]
    rfl
  · rw [if_neg h, writeRows_eq enc columns batch.length batch 0 "" (by omega)]
    simp

/-- C13. For every batch and column list in which each row is at least as long
as the column list, `BuildJSONLines` returns the row objects joined by a single
newline, with none at the end; a row object is an opening brace, the
comma-separated `"name":value` pairs of all the columns in column order, and a
closing brace; a value is its decimal digits for an integer, `true` or `false`
for a boolean, `null` for nil and the bytes of a string between double quotes.
The batch `[[7, "alpha"]]` with the columns `[id, name]` gives
`{"id":7,"name":"alpha"}`. -/
theorem BuildJSONLines_layout (enc : Encoder) (batch : List Row) (columns : List String)
    (h : ∀ row ∈ batch, columns.length ≤ row.length) :
    BuildJSONLines enc batch columns = joinWith "\n" (batch.map (rowObject enc columns)) ∧
    (∀ row ∈ batch,
      (List.zipWith (pairText enc) columns row).length = columns.length) ∧
    (∀ n : Int, valueText enc (Value.int64 n) = FormatInt n ∧
      valueText enc (Value.int n) = FormatInt n) ∧
    valueText enc (Value.bool true) = "true" ∧ valueText enc (Value.bool false) = "false" ∧
    valueText enc Value.nil = "null" ∧
    (∀ s : String, valueText enc (Value.str s) = "\"" ++ s ++ "\"") ∧
    BuildJSONLines enc [[Value.int64 7, Value.str "alpha"]] ["id", "name"]
      = "\x7b\"id\":7,\"name\":\"alpha\"\x7d" := by
  refine ⟨BuildJSONLines_eq enc batch columns, ?_, fun n => ⟨rfl, rfl⟩, rfl, rfl, rfl,
    fun s => rfl, by rfl⟩
  intro row hrow
  rw [List.length_zipWith]
  exact Nat.min_eq_left (h row hrow)

/-- Witness for C13: two rows, the second longer than the column list. -/
theorem BuildJSONLines_layout_witness :
    BuildJSONLines exampleEncoder
        [[Value.int64 (-7), Value.str "alpha"], [Value.nil, Value.bool true, Value.int 3]]
        ["id", "name"]
      = "\x7b\"id\":-7,\"name\":\"alpha\"\x7d\n\x7b\"id\":null,\"name\":true\x7d" ∧
    BuildJSONLines exampleEncoder
        [[Value.int64 (-7), Value.str "alpha"], [Value.nil, Value.bool true, Value.int 3]]
        ["id", "name"]
      = joinWith "\n"
          ([[Value.int64 (-7), Value.str "alpha"], [Value.nil, Value.bool true, Value.int 3]].map
            (rowObject exampleEncoder ["id", "name"])) :=
  ⟨by decide,
    (BuildJSONLines_layout exampleEncoder
      [[Value.int64 (-7), Value.str "alpha"], [Value.nil, Value.bool true, Value.int 3]]
      ["id", "name"] (by decide)).1⟩

/-! ## Stream Load writer -/

/-- With a front-end host configured `doStreamLoad` returns; its error is
`attemptError`. -/
theorem doStreamLoad_attemptError (env : WriteEnv) (enc : Encoder) (w : StreamLoadWriter)
    (batch : List Row) (i : Nat) (hhost : w.cfg.FEHosts ≠ []) :
    doStreamLoad (env.world i) w (BuildJSONLines enc batch w.columns) batch.length
      = some (attemptError env enc w batch i) := by
  have hsome : ∃ e, doStreamLoad (env.world i) w (BuildJSONLines enc batch w.columns)
      batch.length = some e := by
    unfold doStreamLoad
    cases hh : w.cfg.FEHosts with
    | nil => exact absurd hh hhost
    | cons feHost rest =>
      dsimp only
      split
      · exact ⟨_, rfl⟩
      · split
        · exact ⟨_, rfl⟩
        · split
          · exact ⟨_, rfl⟩
          · split
            · exact ⟨_, rfl⟩
            · split
              · exact ⟨_, rfl⟩
              · exact ⟨_, rfl⟩
  obtain ⟨e, he⟩ := hsome
  simp [attemptError, he]

/-- Retry loop when the attempts `i .. i + more - 1` fail and the attempt
`i + more` succeeds within the allowance. -/
theorem retryLoop_success (env : WriteEnv) (enc : Encoder) (w : StreamLoadWriter)
    (batch : List Row) (n : Nat) (hn : w.cfg.MaxRetries = n) (hhost : w.cfg.FEHosts ≠ [])
    (hctx : ∀ i, env.ctxDone i = none) (more : Nat) :
    ∀ (i fuel : Nat) (lastErr : Error) (events : List WriteEvent),
      more + 1 ≤ fuel → i + more ≤ n →
      (∀ j, i ≤ j → j < i + more → attemptError env enc w batch j ≠ Error.nil) →
      attemptError env enc w batch (i + more) = Error.nil →
      retryLoop env w (BuildJSONLines enc batch w.columns) batch.length fuel i lastErr events
        = some (Error.nil,
            events ++ backoffSchedule (BuildJSONLines enc batch w.columns) i more) := by
  induction more with
  | zero =>
    intro i fuel lastErr events hfuel hle _ hok
    cases fuel with
    | zero => omega
    | succ fuel =>
      have hcond : (i : Int) ≤ w.cfg.MaxRetries := by rw [hn]; omega
      rw [retryLoop, if_pos hcond, doStreamLoad_attemptError env enc w batch i hhost]
      simp only [Nat.add_zero] at hok
      simp [hok, backoffSchedule]
  | succ more ih =>
    intro i fuel lastErr events hfuel hle hfail hok
    cases fuel with
    | zero => omega
    | succ fuel =>
      have hcond : (i : Int) ≤ w.cfg.MaxRetries := by rw [hn]; omega
      have hne : (i : Int) ≠ w.cfg.MaxRetries := by rw [hn]; omega
      have hfi : attemptError env enc w batch i ≠ Error.nil := hfail i (Nat.le_refl i) (by omega)
      rw [retryLoop, if_pos hcond, doStreamLoad_attemptError env enc w batch i hhost]
      simp only [hfi, if_false, hne, hctx i]
      rw [ih (i + 1) fuel _ _ (by omega) (by omega)
        (fun j h1 h2 => hfail j (by omega) (by omega))
        (by rw [show i + 1 + more = i + (more + 1) by omega]; exact hok)]
      simp [backoffSchedule]

/-- Retry loop when every attempt from `i` to `MaxRetries` fails. -/
theorem retryLoop_exhausted (env : WriteEnv) (enc : Encoder) (w : StreamLoadWriter)
    (batch : List Row) (n : Nat) (hn : w.cfg.MaxRetries = n) (hhost : w.cfg.FEHosts ≠ [])
    (hctx : ∀ i, env.ctxDone i = none) (more : Nat) :
    ∀ (i fuel : Nat) (lastErr : Error) (events : List WriteEvent),
      more + 1 ≤ fuel → i + more = n →
      (∀ j, i ≤ j → j ≤ n → attemptError env enc w batch j ≠ Error.nil) →
      retryLoop env w (BuildJSONLines enc batch w.columns) batch.length fuel i lastErr events
        = some (Wrap ErrCodeDorisStreamLoad "stream load failed after retries"
              (attemptError env enc w batch n),
            events ++ backoffSchedule (BuildJSONLines enc batch w.columns) i more) := by
  induction more with
  | zero =>
    intro i fuel lastErr events hfuel hle hfail
    cases fuel with
    | zero => omega
    | succ fuel =>
      have hin : i = n := by omega
      subst hin
      have hcond : (i : Int) ≤ w.cfg.MaxRetries := by rw [hn]
      have heq : (i : Int) = w.cfg.MaxRetries := by rw [hn]
      have hfi : attemptError env enc w batch i ≠ Error.nil :=
        hfail i (Nat.le_refl i) (Nat.le_refl i)
      rw [retryLoop, if_pos hcond, doStreamLoad_attemptError env enc w batch i hhost]
      simp [hfi, heq, backoffSchedule]
  | succ more ih =>
    intro i fuel lastErr events hfuel hle hfail
    cases fuel with
    | zero => omega
    | succ fuel =>
      have hcond : (i : Int) ≤ w.cfg.MaxRetries := by rw [hn]; omega
      have hne : (i : Int) ≠ w.cfg.MaxRetries := by rw [hn]; omega
      have hfi : attemptError env enc w batch i ≠ Error.nil :=
        hfail i (Nat.le_refl i) (by omega)
      rw [retryLoop, if_pos hcond, doStreamLoad_attemptError env enc w batch i hhost]
      simp only [hfi, if_false, hne, hctx i]
      rw [ih (i + 1) fuel _ _ (by omega) (by omega) (fun j h1 h2 => hfail j (by omega) h2)]
      simp [backoffSchedule]

/-- Number of attempts among the events of a `Write`. -/
theorem backoffSchedule_attempts (data : String) (more : Nat) :
    ∀ i, ((backoffSchedule data i more).filter
        (fun e => match e with | WriteEvent.attempt _ _ => true | _ => false)).length
      = more + 1 := by
  induction more with
  | zero => intro i; simp [backoffSchedule]
  | succ more ih => intro i; simp [backoffSchedule, ih (i + 1)]

/-- C15. For a non-empty batch, `MaxRetries = n ≥ 0`, a configured front-end
host and a context that is never cancelled: if the attempts before `k ≤ n`
fail and the attempt `k` succeeds, `Write` returns nil after exactly the
attempts `0 .. k`, each failed one followed by a wait of `i + 1` seconds (the
duration `time.Duration(i+1) * time.Second`); if all the attempts `0 .. n`
fail, `Write` makes exactly these `n + 1` attempts, waits `i + 1` seconds
between them, and returns an error with code DorisStreamLoad that wraps the
error of the last attempt. A schedule that ends with the attempt `k` has
`k + 1` attempts. -/
theorem Write_retries (env : WriteEnv) (enc : Encoder) (w : StreamLoadWriter)
    (batch : List Row) (n : Nat) (hbatch : batch ≠ []) (hn : w.cfg.MaxRetries = n)
    (hhost : w.cfg.FEHosts ≠ []) (hctx : ∀ i, env.ctxDone i = none) :
    (∀ k, k ≤ n →
      (∀ j, j < k → attemptError env enc w batch j ≠ Error.nil) →
      attemptError env enc w batch k = Error.nil →
        Write env enc w batch
          = some (Error.nil, backoffSchedule (BuildJSONLines enc batch w.columns) 0 k)) ∧
    ((∀ j, j ≤ n → attemptError env enc w batch j ≠ Error.nil) →
      Write env enc w batch
        = some (Error.sinker ErrCodeDorisStreamLoad "stream load failed after retries"
              (attemptError env enc w batch n),
            backoffSchedule (BuildJSONLines enc batch w.columns) 0 n)) ∧
    (∀ k, ((backoffSchedule (BuildJSONLines enc batch w.columns) 0 k).filter
        (fun e => match e with | WriteEvent.attempt _ _ => true | _ => false)).length
      = k + 1) ∧
    (∀ i : Nat, i + 1 ≤ 9223372036 → Seconds ((i : Int) + 1) = ((i : Int) + 1) * 1000000000) := by
  have hlen : ¬ batch.length = 0 := fun h => hbatch (List.length_eq_zero.mp h)
  have hfuel : (w.cfg.MaxRetries + 1).toNat + 1 = n + 2 := by rw [hn]; omega
  refine ⟨?_, ?_, fun k => backoffSchedule_attempts _ k 0, ?_⟩
  · intro k hk hfail hok
    unfold Write
    rw [if_neg hlen, hfuel,
      retryLoop_success env enc w batch n hn hhost hctx k 0 (n + 2) Error.nil [] (by omega)
        (by omega) (fun j _ h2 => hfail j (by omega)) (by simpa using hok)]
    simp
  · intro hfail
    unfold Write
    rw [if_neg hlen, hfuel,
      retryLoop_exhausted env enc w batch n hn hhost hctx n 0 (n + 2) Error.nil [] (by omega)
        (by omega) (fun j _ h2 => hfail j h2)]
    simp [Wrap]
  · intro i hi
    exact Seconds_in_range _ (by omega) (by omega)

/-- Witness for C15: `MaxRetries = 3`, the network is down for two attempts
and answers `Success` to the third; three attempts, waits of 1 s and 2 s. -/
theorem Write_retries_witness :
    Write ⟨fun i => if i < 2 then worldDown else worldReply 200 "\x7b\"Status\":\"Success\"\x7d" "Success", fun _ => none⟩
        exampleEncoder ⟨⟨["fe:8030"], 9030, "db", "t", "u", "p", 30, 3⟩, "Basic x", ["id"]⟩
        [[Value.int64 7]]
      = some (Error.nil,
          [WriteEvent.attempt 0 "\x7b\"id\":7\x7d", WriteEvent.wait 1000000000,
           WriteEvent.attempt 1 "\x7b\"id\":7\x7d", WriteEvent.wait 2000000000,
           WriteEvent.attempt 2 "\x7b\"id\":7\x7d"]) ∧
    Write ⟨fun i => if i < 2 then worldDown else worldReply 200 "\x7b\"Status\":\"Success\"\x7d" "Success", fun _ => none⟩
        exampleEncoder ⟨⟨["fe:8030"], 9030, "db", "t", "u", "p", 30, 3⟩, "Basic x", ["id"]⟩
        [[Value.int64 7]]
      = some (Error.nil,
          backoffSchedule
            (BuildJSONLines exampleEncoder [[Value.int64 7]] ["id"]) 0 2) :=
  ⟨by decide,
    (Write_retries
      ⟨fun i => if i < 2 then worldDown else worldReply 200 "\x7b\"Status\":\"Success\"\x7d" "Success", fun _ => none⟩
      exampleEncoder ⟨⟨["fe:8030"], 9030, "db", "t", "u", "p", 30, 3⟩, "Basic x", ["id"]⟩
      [[Value.int64 7]] 3 (by decide) rfl (by decide) (fun _ => rfl)).1 2 (by decide)
      (by
        intro j hj
        have hcases : j = 0 ∨ j = 1 := by omega
        rcases hcases with h | h <;> subst h <;> decide)
      (by decide)⟩

/-- C16 (as stated) fails: a reply with status code 500 whose body decodes to
`Status = "Success"` makes the attempt succeed; `doStreamLoad` never looks at
the status code. -/
theorem doStreamLoad_ignores_status_code :
    doStreamLoad (worldReply 500 "\x7b\"Status\":\"Success\"\x7d" "Success")
        ⟨⟨["fe:8030"], 9030, "db", "t", "u", "p", 30, 3⟩, "Basic x", ["id"]⟩
        "\x7b\"id\":7\x7d" 1 = some Error.nil ∧
    ¬ ((200 : Int) ≤ 500 ∧ (500 : Int) < 300) := by
  decide

/-- C16 (amended). With a front-end host configured, a stream-load attempt
succeeds if and only if the request is built and sent without error, the
response body is read without error, and the body decodes to a result whose
`Status` equals `"Success"`; the HTTP status code plays no part. In every other
case (request or transport error, unreadable or undecodable body, any other
`Status`) the attempt fails with an error of code DorisStreamLoad. -/
theorem doStreamLoad_success_iff (world : HTTPWorld) (w : StreamLoadWriter) (data : String)
    (rowCount : Nat) (feHost : String) (others : List String)
    (hhost : w.cfg.FEHosts = feHost :: others) :
    (doStreamLoad world w data rowCount = some Error.nil ↔
      (world.NewRequest "PUT" (streamLoadRequest w feHost data).URL = Error.nil ∧
        ∃ resp body result,
          world.Do (streamLoadRequest w feHost data) = Except.ok resp ∧
          resp.Body = Except.ok body ∧
          world.Unmarshal body = Except.ok result ∧
          result.Status = "Success")) ∧
    (doStreamLoad world w data rowCount ≠ some Error.nil →
      ∃ message cause,
        doStreamLoad world w data rowCount
          = some (Error.sinker ErrCodeDorisStreamLoad message cause)) := by
  unfold doStreamLoad
  rw [hhost]
  dsimp only
  by_cases hreq : world.NewRequest "PUT" (streamLoadRequest w feHost data).URL = Error.nil
  · have hreq2 : world.NewRequest (streamLoadRequest w feHost data).Method
        (streamLoadRequest w feHost data).URL = Error.nil := hreq
    rw [if_neg (by simp [hreq2])]
    cases hdo : world.Do (streamLoadRequest w feHost data) with
    | error err => simp [hreq, Wrap]
    | ok resp =>
      cases hbody : resp.Body with
      | error err => simp [hreq, hbody, Wrap]
      | ok body =>
        cases hun : world.Unmarshal body with
        | error err => simp [hreq, hbody, hun, Wrap]
        | ok result =>
          by_cases hst : result.Status = "Success"
          · simp [hreq, hbody, hun, hst]
          · simp [hreq, hbody, hun, hst, New]
  · have hreq2 : world.NewRequest (streamLoadRequest w feHost data).Method
        (streamLoadRequest w feHost data).URL ≠ Error.nil := hreq
    rw [if_pos hreq2]
    simp [hreq, Wrap]

/-- Witness for C16 (amended): a reply `Success` with status code 200. -/
theorem doStreamLoad_success_iff_witness :
    doStreamLoad (worldReply 200 "\x7b\"Status\":\"Success\"\x7d" "Success")
        ⟨⟨["fe:8030"], 9030, "db", "t", "u", "p", 30, 3⟩, "Basic x", ["id"]⟩
        "\x7b\"id\":7\x7d" 1 = some Error.nil :=
  (doStreamLoad_success_iff (worldReply 200 "\x7b\"Status\":\"Success\"\x7d" "Success")
    ⟨⟨["fe:8030"], 9030, "db", "t", "u", "p", 30, 3⟩, "Basic x", ["id"]⟩
    "\x7b\"id\":7\x7d" 1 "fe:8030" [] rfl).1.mpr
    ⟨rfl, _, _, _, rfl, rfl, rfl, rfl⟩

/-- C17. For every writer configuration and every context and network,
`Write` called with an empty (or nil) batch returns nil and makes no
stream-load attempt and no wait. -/
theorem Write_empty (env : WriteEnv) (enc : Encoder) (w : StreamLoadWriter) :
    Write env enc w [] = some (Error.nil, []) := by
  rfl

/-! ## Offsets and shutdown -/

/-- `processMessage` never touches the consumer: it neither calls `Commit`
nor changes the cursor of the commit loop. -/
theorem processMessage_keeps_consumer (lib : Sonic) (schema : Schema) (p p1 : Pipeline)
    (msg : Message) (now : Int) (e : Error)
    (h : processMessage lib schema p msg now = some (p1, e)) : p1.consumer = p.consumer := by
  unfold processMessage at h
  dsimp only at h
  split at h
  · injection h with h
    injection h with h _
    subst h
    rfl
  · split at h
    · exact absurd h (by simp)
    · split at h
      · injection h with h
        injection h with h _
        subst h
        rfl
      · injection h with h
        injection h with h _
        subst h
        rfl

/-- C18 at the message with offset 5 and value `{"id":7}`, processed by a
fresh pipeline with schema `[id:BIGINT]`. The row is mapped and added, and
`processMessage` returns nil, but no offset reaches the consumer: `commitChan`
is empty, the cursor `lastOffset` of the commit loop is still -1 and not 5,
the loop has nothing to receive, and its next tick and its shutdown branch
commit nothing. -/
theorem processMessage_leaves_cursor :
    processMessage (documentLib [("id", numberNode "7" 7)]) (NewSchema [⟨"id", "BIGINT"⟩])
        ⟨startedConsumer, NewMemoryBatcher ⟨100, 1000, 5, 1⟩ 0, [], none⟩
        ⟨"events", 0, 5, [], [123, 34, 105, 100, 34, 58, 55, 125], 0⟩ 1
      = some (⟨startedConsumer,
            ⟨⟨100, 1000, 5, 1⟩, [[Value.int64 7]], 8, ⟨0, 1, false⟩, 0, false⟩,
            [MetricUpdate.set "batch_current_rows" 1], none⟩, Error.nil) ∧
    startedConsumer.commitChan = [] ∧
    startedConsumer.lastOffset = -1 ∧ startedConsumer.lastOffset ≠ 5 ∧
    commitLoopStep startedConsumer CommitEvent.receive = none ∧
    commitLoopStep startedConsumer CommitEvent.tick = some startedConsumer ∧
    commitLoopStep startedConsumer CommitEvent.done = some startedConsumer ∧
    startedConsumer.committed = [] := by
  decide

/-- C20 at a batcher with `MaxBatchInterval = 1` that holds one row when it
is closed. `Add` after `Close` sends nothing, but the next timer tick of
`Start`, one second later, finds `ShouldFlush() = true` and runs its send on
the closed channel, which panics. -/
theorem tick_after_Close_sends :
    runEvents (initSystem ⟨100, 1000, 1, 1⟩ 0)
        [Event.add [Value.int64 1] 0, Event.close, Event.add [Value.int64 2] 500000000,
         Event.tick 1000000000]
      = some ⟨⟨⟨100, 1000, 1, 1⟩, [[Value.int64 1]], 8, ⟨0, 1, true⟩, 0, true⟩, true⟩ ∧
    step ⟨⟨⟨100, 1000, 1, 1⟩, [[Value.int64 1]], 8, ⟨0, 1, true⟩, 0, true⟩, true⟩
        Event.tickSend = StepResult.panic := by
  decide

/-! ## Lines of the builder as JSON documents -/

theorem digitChar_isDigit (k : Nat) (hk : k < 10) :
    isDigit (Nat.digitChar k) = true ∧ (0 < k → isDigit19 (Nat.digitChar k) = true) ∧
      (k = 0 → Nat.digitChar k = '0') := by
  interval_cases k <;> decide

/-- Digits produced by `Nat.toDigitsCore`: a leading digit, which is not `0`
unless the number is 0, and digits after it. -/
theorem toDigitsCore_digits (fuel : Nat) :
    ∀ (n : Nat) (ds : List Char), n < fuel → (∀ c ∈ ds, isDigit c = true) →
      ∃ d tl, Nat.toDigitsCore 10 fuel n ds = d :: tl ∧ (∀ c ∈ tl, isDigit c = true) ∧
        ((d = '0' ∧ tl = ds ∧ n = 0) ∨ isDigit19 d = true) := by
  induction fuel with
  | zero => intro n ds h; omega
  | succ fuel ih =>
    intro n ds hn hds
    rw [Nat.toDigitsCore]
    by_cases hq : n / 10 = 0
    · rw [if_pos hq]
      have hlt : n < 10 := by omega
      have hmod : n % 10 = n := Nat.mod_eq_of_lt hlt
      rw [hmod]
      obtain ⟨_, h19, h0⟩ := digitChar_isDigit n hlt
      refine ⟨_, _, rfl, hds, ?_⟩
      by_cases hz : n = 0
      · exact Or.inl ⟨h0 hz, rfl, hz⟩
      · exact Or.inr (h19 (Nat.pos_of_ne_zero hz))
    · rw [if_neg hq]
      have hdig := (digitChar_isDigit (n % 10) (Nat.mod_lt n (by decide))).1
      obtain ⟨d, tl, heq, htl, hd⟩ := ih (n / 10) (Nat.digitChar (n % 10) :: ds) (by omega)
        (by
          intro c hc
          rcases List.mem_cons.mp hc with h | h
          · rw [h]; exact hdig
          · exact hds c h)
      refine ⟨d, tl, heq, htl, ?_⟩
      rcases hd with ⟨_, _, h0⟩ | h19
      · exact absurd h0 hq
      · exact Or.inr h19

/-- Text of `Nat.repr`: `0`, or a digit from 1 to 9 followed by digits. -/
theorem repr_digits (n : Nat) :
    ∃ d tl, (Nat.repr n).data = d :: tl ∧ (∀ c ∈ tl, isDigit c = true) ∧
      ((d = '0' ∧ tl = []) ∨ isDigit19 d = true) := by
  obtain ⟨d, tl, heq, htl, hd⟩ := toDigitsCore_digits (n + 1) n [] (by omega) (by simp)
  refine ⟨d, tl, ?_, htl, ?_⟩
  · simpa [Nat.repr, Nat.toDigits, List.asString] using heq
  · rcases hd with ⟨h0, h1, _⟩ | h19
    · exact Or.inl ⟨h0, h1⟩
    · exact Or.inr h19

theorem jsonRun_append (a : List Char) :
    ∀ (s : JState) (b : List Char),
      jsonRun s (a ++ b) = (jsonRun s a).bind (fun s1 => jsonRun s1 b) := by
  induction a with
  | nil => intro s b; rfl
  | cons c cs ih =>
    intro s b
    simp only [List.cons_append, jsonRun]
    cases jsonStep s c with
    | none => rfl
    | some s1 => exact ih s1 b

/-- Plain characters inside a string are appended to the string read. -/
theorem jsonRun_plain (t : List Char) :
    ∀ (isKey : Bool) (stack : List JFrame) (keys : List String) (cur : List Char)
      (isObject : Bool),
      (t.all (fun c => c ≠ '"' && c ≠ '\\' && decide (32 ≤ c.toNat))) = true →
      jsonRun ⟨JMode.str isKey, stack, keys, cur, isObject⟩ t
        = some ⟨JMode.str isKey, stack, keys, cur ++ t, isObject⟩ := by
  induction t with
  | nil => intro isKey stack keys cur isObject _; simp [jsonRun]
  | cons c cs ih =>
    intro isKey stack keys cur isObject h
    simp only [List.all_cons, Bool.and_eq_true, decide_eq_true_eq, bne_iff_ne, ne_eq] at h
    obtain ⟨⟨⟨h1, h2⟩, h3⟩, hrest⟩ := h
    have hstep : jsonStep ⟨JMode.str isKey, stack, keys, cur, isObject⟩ c
        = some ⟨JMode.str isKey, stack, keys, cur ++ [c], isObject⟩ := by
      simp only [jsonStep]
      rw [if_neg h1, if_neg h2, if_neg (by omega)]
    rw [jsonRun, hstep]
    dsimp only
    rw [ih isKey stack keys (cur ++ [c]) isObject (by simpa using hrest)]
    simp

/-- Digits after the first digit of an integer. -/
theorem jsonRun_digits (t : List Char) :
    ∀ (stack : List JFrame) (keys : List String) (cur : List Char) (isObject : Bool),
      (∀ c ∈ t, isDigit c = true) →
      jsonRun ⟨JMode.numInt, stack, keys, cur, isObject⟩ t
        = some ⟨JMode.numInt, stack, keys, cur, isObject⟩ := by
  induction t with
  | nil => intro stack keys cur isObject _; rfl
  | cons c cs ih =>
    intro stack keys cur isObject h
    have hc : isDigit c = true := h c (List.mem_cons_self c cs)
    have hstep : jsonStep ⟨JMode.numInt, stack, keys, cur, isObject⟩ c
        = some ⟨JMode.numInt, stack, keys, cur, isObject⟩ := by
      simp only [jsonStep]
      rw [if_pos hc]
    rw [jsonRun, hstep]
    exact ih stack keys cur isObject (fun c1 h1 => h c1 (List.mem_cons_of_mem c h1))

theorem isDigit19_ne_zero (d : Char) (h : isDigit19 d = true) : d ≠ '0' := by
  intro h0
  subst h0
  exact absurd h (by decide)

/-- An integer in value position is read up to a position where the number
may end. -/
theorem jsonRun_int (v : Int) (stack : List JFrame) (keys : List String) (cur : List Char)
    (isObject : Bool) :
    ∃ m, jsonRun ⟨JMode.value, stack, keys, cur, isObject⟩ (FormatInt v).data
        = some ⟨m, stack, keys, cur, isObject⟩ ∧
      (m = JMode.after ∨ m = JMode.numZero ∨ m = JMode.numInt) := by
  unfold FormatInt
  by_cases hneg : v < 0
  · rw [if_pos hneg]
    obtain ⟨d, tl, hrepr, htl, hd⟩ := repr_digits v.natAbs
    have hdata : ("-" ++ Nat.repr v.natAbs).data = '-' :: d :: tl := by
      rw [String.data_append, hrepr]
      rfl
    rw [hdata]
    have hminus : jsonStep ⟨JMode.value, stack, keys, cur, isObject⟩ '-'
        = some ⟨JMode.numMinus, stack, keys, cur, isObject⟩ := by
      rfl
    rw [jsonRun, hminus]
    dsimp only
    rcases hd with ⟨h0, htl0⟩ | h19
    · subst h0
      subst htl0
      exact ⟨JMode.numZero, rfl, Or.inr (Or.inl rfl)⟩
    · have hstep : jsonStep ⟨JMode.numMinus, stack, keys, cur, isObject⟩ d
          = some ⟨JMode.numInt, stack, keys, cur, isObject⟩ := by
        simp only [jsonStep]
        rw [if_neg (isDigit19_ne_zero d h19), if_pos h19]
      rw [jsonRun, hstep]
      dsimp only
      exact ⟨JMode.numInt, jsonRun_digits tl stack keys cur isObject htl, Or.inr (Or.inr rfl)⟩
  · rw [if_neg hneg]
    obtain ⟨d, tl, hrepr, htl, hd⟩ := repr_digits v.toNat
    rw [hrepr]
    rcases hd with ⟨h0, htl0⟩ | h19
    · subst h0
      subst htl0
      exact ⟨JMode.numZero, rfl, Or.inr (Or.inl rfl)⟩
    · have hstep : jsonStep ⟨JMode.value, stack, keys, cur, isObject⟩ d
          = some ⟨JMode.numInt, stack, keys, cur, isObject⟩ := by
        simp only [jsonStep, jsonStepValue]
        rw [if_neg (isDigit19_ne_zero d h19), if_pos h19]
      rw [jsonRun, hstep]
      dsimp only
      exact ⟨JMode.numInt, jsonRun_digits tl stack keys cur isObject htl, Or.inr (Or.inr rfl)⟩

/-- A plain string between double quotes, read from just after the opening
quote. -/
theorem jsonRun_quoted (t : List Char) (isKey : Bool) (stack : List JFrame)
    (keys : List String) (cur : List Char) (isObject : Bool)
    (h : (t.all (fun c => c ≠ '"' && c ≠ '\\' && decide (32 ≤ c.toNat))) = true) :
    jsonRun ⟨JMode.str isKey, stack, keys, cur, isObject⟩ (t ++ ['"'])
      = some (jsonEndString ⟨JMode.str isKey, stack, keys, cur ++ t, isObject⟩ isKey) := by
  rw [jsonRun_append, jsonRun_plain t isKey stack keys cur isObject h]
  rfl

/-- A plain cell in value position is read up to a position where the value
is complete. -/
theorem jsonRun_value (enc : Encoder) (v : Value) (hv : plainCell v = true)
    (stack : List JFrame) (keys : List String) (cur : List Char) (isObject : Bool) :
    ∃ m cur1, jsonRun ⟨JMode.value, stack, keys, cur, isObject⟩ (valueText enc v).data
        = some ⟨m, stack, keys, cur1, isObject⟩ ∧
      (m = JMode.after ∨ m = JMode.numZero ∨ m = JMode.numInt) := by
  cases v with
  | nil => exact ⟨JMode.after, cur, rfl, Or.inl rfl⟩
  | bool b =>
    cases b
    · exact ⟨JMode.after, cur, rfl, Or.inl rfl⟩
    · exact ⟨JMode.after, cur, rfl, Or.inl rfl⟩
  | int n =>
    obtain ⟨m, hrun, hm⟩ := jsonRun_int n stack keys cur isObject
    exact ⟨m, cur, hrun, hm⟩
  | int64 n =>
    obtain ⟨m, hrun, hm⟩ := jsonRun_int n stack keys cur isObject
    exact ⟨m, cur, hrun, hm⟩
  | str s =>
    have hplain : (s.data.all (fun c => c ≠ '"' && c ≠ '\\' && decide (32 ≤ c.toNat))) = true :=
      hv
    have hdata : (valueText enc (Value.str s)).data = '"' :: (s.data ++ ['"']) := by
      simp only [valueText, String.data_append]
      rfl
    have hopen : jsonStep ⟨JMode.value, stack, keys, cur, isObject⟩ '"'
        = some ⟨JMode.str false, stack, keys, [], isObject⟩ := by
      rfl
    rw [hdata, jsonRun, hopen]
    dsimp only
    rw [jsonRun_quoted s.data false stack keys [] isObject hplain]
    exact ⟨JMode.after, _, rfl, Or.inl rfl⟩
  | float64 bits => exact absurd hv (by simp [plainCell])
  | jsonNumber s => exact absurd hv (by simp [plainCell])
  | other t => exact absurd hv (by simp [plainCell])

/-- A `"name":value` pair of the outermost object, read from the position
after the opening brace or after a comma. -/
theorem jsonRun_pair (enc : Encoder) (name : String) (v : Value)
    (hname : plainText name = true) (hv : plainCell v = true) (m : JMode)
    (hm : m = JMode.objFirst ∨ m = JMode.key) (keys : List String) (cur : List Char)
    (isObject : Bool) :
    ∃ m1 cur1, jsonRun ⟨m, [JFrame.obj], keys, cur, isObject⟩ (pairText enc name v).data
        = some ⟨m1, [JFrame.obj], keys ++ [name], cur1, isObject⟩ ∧
      (m1 = JMode.after ∨ m1 = JMode.numZero ∨ m1 = JMode.numInt) := by
  have hdata : (pairText enc name v).data
      = '"' :: ((name.data ++ ['"']) ++ (':' :: (valueText enc v).data)) := by
    simp only [pairText, String.data_append]
    simp
  have hopen : jsonStep ⟨m, [JFrame.obj], keys, cur, isObject⟩ '"'
      = some ⟨JMode.str true, [JFrame.obj], keys, [], isObject⟩ := by
    rcases hm with h | h <;> subst h <;> rfl
  have hcolon : jsonStep ⟨JMode.colon, [JFrame.obj], keys ++ [name], [] ++ name.data, isObject⟩
      ':' = some ⟨JMode.value, [JFrame.obj], keys ++ [name], [] ++ name.data, isObject⟩ := by
    rfl
  obtain ⟨m1, cur1, hval, hm1⟩ := jsonRun_value enc v hv [JFrame.obj] (keys ++ [name])
    ([] ++ name.data) isObject
  refine ⟨m1, cur1, ?_, hm1⟩
  rw [hdata, jsonRun, hopen]
  dsimp only
  rw [jsonRun_append, jsonRun_quoted name.data true [JFrame.obj] keys [] isObject hname]
  have hend : jsonEndString ⟨JMode.str true, [JFrame.obj], keys, [] ++ name.data, isObject⟩ true
      = ⟨JMode.colon, [JFrame.obj], keys ++ [name], [] ++ name.data, isObject⟩ := by
    simp [jsonEndString]
  rw [hend]
  simp only [Option.bind, jsonRun, hcolon]
  exact hval

theorem jsonStep_comma (m : JMode)
    (hm : m = JMode.after ∨ m = JMode.numZero ∨ m = JMode.numInt) (keys : List String)
    (cur : List Char) (isObject : Bool) :
    jsonStep ⟨m, [JFrame.obj], keys, cur, isObject⟩ ','
      = some ⟨JMode.key, [JFrame.obj], keys, cur, isObject⟩ := by
  rcases hm with h | h | h <;> subst h <;> rfl

theorem jsonStep_close (m : JMode)
    (hm : m = JMode.after ∨ m = JMode.numZero ∨ m = JMode.numInt) (keys : List String)
    (cur : List Char) (isObject : Bool) :
    jsonStep ⟨m, [JFrame.obj], keys, cur, isObject⟩ '}'
      = some ⟨JMode.after, [], keys, cur, isObject⟩ := by
  rcases hm with h | h | h <;> subst h <;> rfl

/-- Further pairs of the outermost object, each after a comma. -/
theorem jsonRun_more_pairs (enc : Encoder) (ps : List (String × Value)) :
    ∀ (m : JMode) (keys : List String) (cur : List Char) (isObject : Bool),
      (m = JMode.after ∨ m = JMode.numZero ∨ m = JMode.numInt) →
      (∀ p ∈ ps, plainText p.1 = true ∧ plainCell p.2 = true) →
      ∃ m1 cur1,
        jsonRun ⟨m, [JFrame.obj], keys, cur, isObject⟩
            (((ps.map (fun p => pairText enc p.1 p.2)).map (fun y => "," ++ y)).foldr
              (fun a b => a ++ b) "").data
          = some ⟨m1, [JFrame.obj], keys ++ ps.map Prod.fst, cur1, isObject⟩ ∧
        (m1 = JMode.after ∨ m1 = JMode.numZero ∨ m1 = JMode.numInt) := by
  induction ps with
  | nil =>
    intro m keys cur isObject hm _
    exact ⟨m, cur, by simp [jsonRun], hm⟩
  | cons p rest ih =>
    intro m keys cur isObject hm hplain
    obtain ⟨hname, hv⟩ := hplain p (List.mem_cons_self p rest)
    obtain ⟨m1, cur1, hpair, hm1⟩ := jsonRun_pair enc p.1 p.2 hname hv JMode.key
      (Or.inr rfl) keys cur isObject
    obtain ⟨m2, cur2, hrest, hm2⟩ := ih m1 (keys ++ [p.1]) cur1 isObject hm1
      (fun q hq => hplain q (List.mem_cons_of_mem p hq))
    refine ⟨m2, cur2, ?_, hm2⟩
    have hdata : (((((p :: rest).map (fun p => pairText enc p.1 p.2)).map
        (fun y => "," ++ y)).foldr (fun a b => a ++ b) "")).data
        = ',' :: ((pairText enc p.1 p.2).data ++
            ((((rest.map (fun p => pairText enc p.1 p.2)).map (fun y => "," ++ y)).foldr
              (fun a b => a ++ b) "")).data) := by
      simp only [List.map_cons, List.foldr_cons, String.data_append]
      rfl
    rw [hdata, jsonRun, jsonStep_comma m hm keys cur isObject]
    dsimp only
    rw [jsonRun_append, hpair]
    simp only [Option.bind]
    rw [hrest]
    simp

/-- A row object with plain names and plain cells is a JSON document whose
value is an object with these names as its member names, in order. -/
theorem parseObjectKeys_pairs (enc : Encoder) (ps : List (String × Value))
    (hplain : ∀ p ∈ ps, plainText p.1 = true ∧ plainCell p.2 = true) :
    parseObjectKeys ("\x7b" ++ joinWith "," (ps.map (fun p => pairText enc p.1 p.2)) ++ "\x7d")
      = some (ps.map Prod.fst) := by
  have hopen : jsonStep jsonStart '{' = some ⟨JMode.objFirst, [JFrame.obj], [], [], true⟩ := by
    rfl
  cases ps with
  | nil => rfl
  | cons p rest =>
    obtain ⟨hname, hv⟩ := hplain p (List.mem_cons_self p rest)
    obtain ⟨m1, cur1, hpair, hm1⟩ := jsonRun_pair enc p.1 p.2 hname hv JMode.objFirst
      (Or.inl rfl) [] [] true
    obtain ⟨m2, cur2, hrest, hm2⟩ := jsonRun_more_pairs enc rest m1 ([] ++ [p.1]) cur1 true hm1
      (fun q hq => hplain q (List.mem_cons_of_mem p hq))
    have hdata : ("\x7b" ++ joinWith "," ((p :: rest).map (fun p => pairText enc p.1 p.2))
        ++ "\x7d").data
        = '{' :: ((pairText enc p.1 p.2).data ++
            (((((rest.map (fun p => pairText enc p.1 p.2)).map (fun y => "," ++ y)).foldr
              (fun a b => a ++ b) "")).data ++ ['}'])) := by
      rw [List.map_cons, joinWith_cons]
      simp only [String.data_append, List.append_assoc]
      rfl
    have hrun : jsonRun jsonStart
        ("\x7b" ++ joinWith "," ((p :: rest).map (fun p => pairText enc p.1 p.2)) ++ "\x7d").data
        = some ⟨JMode.after, [], [] ++ [p.1] ++ rest.map Prod.fst, cur2, true⟩ := by
      rw [hdata, jsonRun, hopen]
      dsimp only
      rw [jsonRun_append, hpair]
      simp only [Option.bind]
      rw [jsonRun_append, hrest]
      simp only [Option.bind, jsonRun, jsonStep_close m2 hm2]
    unfold parseObjectKeys
    rw [hrun]
    simp [jsonAccepts]

theorem zipWith_pairText (enc : Encoder) (columns : List String) :
    ∀ row : Row, List.zipWith (pairText enc) columns row
      = (columns.zip row).map (fun p => pairText enc p.1 p.2) := by
  induction columns with
  | nil => intro row; simp
  | cons c rest ih =>
    intro row
    cases row with
    | nil => simp
    | cons v vs => simp [ih vs]

theorem zip_names (columns : List String) :
    ∀ row : Row, (columns.zip row).map Prod.fst = columns.take row.length := by
  induction columns with
  | nil => intro row; simp
  | cons c rest ih =>
    intro row
    cases row with
    | nil => simp
    | cons v vs => simp [ih vs]

/-- Object of one row with plain names and plain cells: a JSON document whose
member names are the columns for which the row has a value. -/
theorem parseObjectKeys_rowObject (enc : Encoder) (columns : List String) (row : Row)
    (hcols : ∀ name ∈ columns, plainText name = true)
    (hcells : ∀ v ∈ row, plainCell v = true) :
    parseObjectKeys (rowObject enc columns row) = some (columns.take row.length) := by
  unfold rowObject
  rw [zipWith_pairText, parseObjectKeys_pairs enc (columns.zip row), zip_names]
  intro p hp
  have hmem := List.of_mem_zip hp
  exact ⟨hcols p.1 hmem.1, hcells p.2 hmem.2⟩

theorem validJSON_of_keys (text : String) (keys : List String)
    (h : parseObjectKeys text = some keys) : validJSON text = true := by
  unfold parseObjectKeys at h
  unfold validJSON
  cases hrun : jsonRun jsonStart text.data with
  | none => rw [hrun] at h; simp at h
  | some s =>
    rw [hrun] at h
    dsimp only at h ⊢
    by_cases hacc : jsonAccepts s = true
    · exact hacc
    · simp [hacc] at h

theorem splitChars_no_sep (sep : Char) (a : List Char) (h : sep ∉ a) :
    splitChars sep a = [a] := by
  induction a with
  | nil => rfl
  | cons c cs ih =>
    have hc : c ≠ sep := fun hc => h (by rw [hc]; exact List.mem_cons_self sep cs)
    have hcs : sep ∉ cs := fun hm => h (List.mem_cons_of_mem c hm)
    simp [splitChars, hc, ih hcs]

theorem splitChars_append_sep (sep : Char) (a b : List Char) (h : sep ∉ a) :
    splitChars sep (a ++ sep :: b) = a :: splitChars sep b := by
  induction a with
  | nil => simp [splitChars]
  | cons c cs ih =>
    have hc : c ≠ sep := fun hc => h (by rw [hc]; exact List.mem_cons_self sep cs)
    have hcs : sep ∉ cs := fun hm => h (List.mem_cons_of_mem c hm)
    simp [splitChars, hc, ih hcs]

/-- Splitting at newlines undoes joining with newlines when no piece holds
one. -/
theorem Split_joinWith (xs : List String) :
    ∀ x : String, (∀ y ∈ x :: xs, '\n' ∉ y.data) →
      Split (joinWith "\n" (x :: xs)) '\n' = x :: xs := by
  induction xs with
  | nil =>
    intro x h
    simp [Split, joinWith, splitChars_no_sep '\n' x.data (h x (List.mem_cons_self x []))]
  | cons y ys ih =>
    intro x h
    have hx : '\n' ∉ x.data := h x (List.mem_cons_self x (y :: ys))
    have hrest := ih y (fun z hz => h z (List.mem_cons_of_mem x hz))
    have hdata : (joinWith "\n" (x :: y :: ys)).data
        = x.data ++ '\n' :: (joinWith "\n" (y :: ys)).data := by
      simp only [joinWith, String.data_append, List.append_assoc]
      rfl
    unfold Split at hrest ⊢
    rw [hdata, splitChars_append_sep '\n' _ _ hx, List.map_cons, hrest]

theorem isDigit_ne_newline (c : Char) (h : isDigit c = true) : c ≠ '\n' := by
  intro h0
  subst h0
  exact absurd h (by decide)

theorem plain_no_newline (s : String) (h : plainText s = true) : '\n' ∉ s.data := by
  intro hmem
  have hall := List.all_eq_true.mp h '\n' hmem
  exact absurd hall (by decide)

theorem repr_no_newline (n : Nat) : '\n' ∉ (Nat.repr n).data := by
  obtain ⟨d, tl, hrepr, htl, hd⟩ := repr_digits n
  rw [hrepr]
  intro hmem
  rcases List.mem_cons.mp hmem with h | h
  · rcases hd with ⟨h0, _⟩ | h19
    · rw [h0] at h
      exact absurd h (by decide)
    · rw [← h] at h19
      exact absurd h19 (by decide)
  · exact isDigit_ne_newline _ (htl _ h) rfl

theorem valueText_no_newline (enc : Encoder) (v : Value) (hv : plainCell v = true) :
    '\n' ∉ (valueText enc v).data := by
  have hint : ∀ n : Int, '\n' ∉ (FormatInt n).data := by
    intro n
    unfold FormatInt
    split
    · rw [String.data_append]
      intro hmem
      rcases List.mem_append.mp hmem with h | h
      · exact absurd h (by decide)
      · exact repr_no_newline _ h
    · exact repr_no_newline _
  cases v with
  | nil =>
    show '\n' ∉ ("null" : String).data
    decide
  | bool b =>
    cases b
    · show '\n' ∉ ("false" : String).data
      decide
    · show '\n' ∉ ("true" : String).data
      decide
  | int n => exact hint n
  | int64 n => exact hint n
  | str s =>
    simp only [valueText, String.data_append]
    intro hmem
    rcases List.mem_append.mp hmem with h | h
    · rcases List.mem_append.mp h with h1 | h1
      · exact absurd h1 (by decide)
      · exact plain_no_newline s hv h1
    · exact absurd h (by decide)
  | float64 bits => exact absurd hv (by simp [plainCell])
  | jsonNumber s => exact absurd hv (by simp [plainCell])
  | other t => exact absurd hv (by simp [plainCell])

theorem joinWith_no_newline (xs : List String) :
    ∀ x : String, (∀ y ∈ x :: xs, '\n' ∉ y.data) → '\n' ∉ (joinWith "," (x :: xs)).data := by
  induction xs with
  | nil =>
    intro x h
    exact h x (List.mem_cons_self x [])
  | cons y ys ih =>
    intro x h
    simp only [joinWith, String.data_append]
    intro hmem
    rcases List.mem_append.mp hmem with h1 | h1
    · rcases List.mem_append.mp h1 with h2 | h2
      · exact h x (List.mem_cons_self x (y :: ys)) h2
      · exact absurd h2 (by decide)
    · exact ih y (fun z hz => h z (List.mem_cons_of_mem x hz)) h1

theorem rowObject_no_newline (enc : Encoder) (columns : List String) (row : Row)
    (hcols : ∀ name ∈ columns, plainText name = true)
    (hcells : ∀ v ∈ row, plainCell v = true) :
    '\n' ∉ (rowObject enc columns row).data := by
  have hpairs : ∀ y ∈ List.zipWith (pairText enc) columns row, '\n' ∉ y.data := by
    intro y hy
    rw [zipWith_pairText] at hy
    obtain ⟨p, hp, hpy⟩ := List.mem_map.mp hy
    have hmem := List.of_mem_zip hp
    rw [← hpy]
    simp only [pairText, String.data_append]
    intro hin
    rcases List.mem_append.mp hin with h1 | h1
    · rcases List.mem_append.mp h1 with h2 | h2
      · rcases List.mem_append.mp h2 with h3 | h3
        · rcases List.mem_append.mp h3 with h4 | h4
          · exact absurd h4 (by decide)
          · exact plain_no_newline p.1 (hcols p.1 hmem.1) h4
        · exact absurd h3 (by decide)
      · exact absurd h2 (by decide)
    · exact valueText_no_newline enc p.2 (hcells p.2 hmem.2) h1
  unfold rowObject
  simp only [String.data_append]
  intro hin
  rcases List.mem_append.mp hin with h1 | h1
  · rcases List.mem_append.mp h1 with h2 | h2
    · exact absurd h2 (by decide)
    · cases hz : List.zipWith (pairText enc) columns row with
      | nil =>
        rw [hz] at h2
        exact absurd h2 (by decide)
      | cons y ys =>
        rw [hz] at h2 hpairs
        exact joinWith_no_newline ys y hpairs h2
  · exact absurd h1 (by decide)

/-- With plain names and plain cells the lines of the output are the row
objects. -/
theorem outputLines_rows (enc : Encoder) (batch : List Row) (columns : List String)
    (hcols : ∀ name ∈ columns, plainText name = true)
    (hcells : ∀ row ∈ batch, ∀ v ∈ row, plainCell v = true) :
    outputLines (BuildJSONLines enc batch columns) = batch.map (rowObject enc columns) := by
  rw [BuildJSONLines_eq]
  cases batch with
  | nil => rfl
  | cons row rest =>
    have hne : joinWith "\n" ((row :: rest).map (rowObject enc columns)) ≠ "" := by
      intro h
      have hd := congrArg String.data h
      cases rest with
      | nil => simp [joinWith, rowObject, String.data_append] at hd
      | cons r2 rest2 => simp [joinWith, rowObject, String.data_append] at hd
    unfold outputLines
    rw [if_neg hne, List.map_cons]
    apply Split_joinWith
    intro y hy
    rw [← List.map_cons] at hy
    obtain ⟨r, hr, hry⟩ := List.mem_map.mp hy
    rw [← hry]
    exact rowObject_no_newline enc columns r hcols (hcells r hr)

/-- C14 at a string with a double quote. The message value
`{"id":7,"name":"a\"b"}` is mapped to the row `[7, a"b]`, as long as the column
list; `BuildJSONLines` writes the bytes of the string as they are between
quotes, so the single line of the output is `{"id":7,"name":"a"b"}`, which is
not a JSON document and parses to no object, whereas the row `[7, alpha]`
gives a valid line with the keys `id` and `name`. -/
theorem BuildJSONLines_line_not_json :
    MapJSONToRow (documentLib [("id", numberNode "7" 7), ("name", textNode "a\"b")])
        (NewSchema [⟨"id", "BIGINT"⟩, ⟨"name", "VARCHAR(32)"⟩])
        [123, 34, 105, 100, 34, 58, 55, 44, 34, 110, 97, 109, 101, 34, 58, 34, 97, 92, 34, 98,
         34, 125]
      = ([Value.int64 7, Value.str "a\"b"], Error.nil) ∧
    BuildJSONLines exampleEncoder [[Value.int64 7, Value.str "a\"b"]] ["id", "name"]
      = "\x7b\"id\":7,\"name\":\"a\"b\"\x7d" ∧
    (outputLines
        (BuildJSONLines exampleEncoder [[Value.int64 7, Value.str "a\"b"]] ["id", "name"])).map
        validJSON = [false] ∧
    (outputLines
        (BuildJSONLines exampleEncoder [[Value.int64 7, Value.str "a\"b"]] ["id", "name"])).map
        parseObjectKeys = [none] ∧
    (outputLines
        (BuildJSONLines exampleEncoder [[Value.int64 7, Value.str "alpha"]] ["id", "name"])).map
        parseObjectKeys = [some ["id", "name"]] := by
  decide

/-- Where no escaping is needed the lines are valid. For every batch whose
cells are nil, booleans, integers or strings free of double quotes,
backslashes and control characters, and every column list whose names are
free of them too: the lines of the output of `BuildJSONLines` are the objects
of the rows, each line is a valid JSON document, and parsing the line of a
row yields an object whose keys are the configured column names for which the
row has a value, that is, exactly the configured column names when the row is
at least as long as the column list. -/
theorem BuildJSONLines_lines_valid (enc : Encoder) (batch : List Row) (columns : List String)
    (hcols : ∀ name ∈ columns, plainText name = true)
    (hcells : ∀ row ∈ batch, ∀ v ∈ row, plainCell v = true) :
    outputLines (BuildJSONLines enc batch columns) = batch.map (rowObject enc columns) ∧
    (∀ row ∈ batch,
      validJSON (rowObject enc columns row) = true ∧
      parseObjectKeys (rowObject enc columns row) = some (columns.take row.length)) ∧
    (∀ row ∈ batch, columns.length ≤ row.length →
      parseObjectKeys (rowObject enc columns row) = some columns) := by
  refine ⟨outputLines_rows enc batch columns hcols hcells, ?_, ?_⟩
  · intro row hrow
    have hkeys := parseObjectKeys_rowObject enc columns row hcols (hcells row hrow)
    exact ⟨validJSON_of_keys _ _ hkeys, hkeys⟩
  · intro row hrow hlen
    rw [parseObjectKeys_rowObject enc columns row hcols (hcells row hrow),
      List.take_of_length_le hlen]

/-- Two rows under the columns `id` and `name`, with cells that need no escaping. -/
theorem BuildJSONLines_lines_valid_witness :
    (outputLines (BuildJSONLines exampleEncoder
        [[Value.int64 (-7), Value.str "alpha"], [Value.nil, Value.bool true]]
        ["id", "name"])).map parseObjectKeys
      = [some ["id", "name"], some ["id", "name"]] ∧
    outputLines (BuildJSONLines exampleEncoder
        [[Value.int64 (-7), Value.str "alpha"], [Value.nil, Value.bool true]] ["id", "name"])
      = [[Value.int64 (-7), Value.str "alpha"], [Value.nil, Value.bool true]].map
          (rowObject exampleEncoder ["id", "name"]) :=
  ⟨by decide,
    (BuildJSONLines_lines_valid exampleEncoder
      [[Value.int64 (-7), Value.str "alpha"], [Value.nil, Value.bool true]] ["id", "name"]
      (by decide) (by decide)).1⟩

/-! ## Size estimate and the empty accumulator -/

theorem valueSize_eq_cellSize (v : Value) : valueSize v = cellSize v := by
  cases v <;> rfl

theorem foldl_valueSize (row : Row) :
    ∀ acc : Int, row.foldl (fun size v => size + valueSize v) acc
      = acc + (row.map cellSize).sum := by
  induction row with
  | nil => intro acc; simp
  | cons v vs ih =>
    intro acc
    rw [List.foldl_cons, ih, List.map_cons, List.sum_cons, valueSize_eq_cellSize]
    omega

/-- `estimateRowSize` is the sum of the value sizes of the row. -/
theorem estimateRowSize_eq (row : Row) : estimateRowSize row = (row.map cellSize).sum := by
  unfold estimateRowSize
  rw [foldl_valueSize]
  omega

theorem rowsSize_append (rows : List Row) (row : Row) :
    rowsSize (rows ++ [row]) = rowsSize rows + (row.map cellSize).sum := by
  simp [rowsSize, List.sum_append]

/-- `Add` keeps the configuration and the agreement of `currentSize` with the
rows held. -/
theorem Add_keeps_size (b b1 : MemoryBatcher) (row : Row) (now : Int) (e : Error)
    (h : Add b row now = some (b1, e)) :
    b1.cfg = b.cfg ∧ (b.currentSize = rowsSize b.rows → b1.currentSize = rowsSize b1.rows) := by
  unfold Add at h
  split at h
  · injection h with h
    injection h with h _
    subst h
    exact ⟨rfl, fun hs => hs⟩
  · dsimp only at h
    split at h
    · split at h
      · exact absurd h (by simp)
      · injection h with h
        injection h with h _
        subst h
        refine ⟨rfl, fun hs => ?_⟩
        show b.currentSize + estimateRowSize row = rowsSize (b.rows ++ [row])
        rw [rowsSize_append, estimateRowSize_eq, hs]
    · injection h with h
      injection h with h _
      subst h
      refine ⟨rfl, fun hs => ?_⟩
      show b.currentSize + estimateRowSize row = rowsSize (b.rows ++ [row])
      rw [rowsSize_append, estimateRowSize_eq, hs]

theorem Flush_keeps_size (b : MemoryBatcher) (now : Int) :
    (Flush b now).1.cfg = b.cfg ∧
      (b.currentSize = rowsSize b.rows →
        (Flush b now).1.currentSize = rowsSize (Flush b now).1.rows) := by
  unfold Flush
  split
  · exact ⟨rfl, fun hs => hs⟩
  · exact ⟨rfl, fun _ => rfl⟩

/-- Every step keeps the configuration and the agreement of `currentSize` with
the rows held. -/
theorem step_keeps_size (s s1 : System) (e : Event) (h : step s e = StepResult.next s1) :
    s1.batcher.cfg = s.batcher.cfg ∧
      (s.batcher.currentSize = rowsSize s.batcher.rows →
        s1.batcher.currentSize = rowsSize s1.batcher.rows) := by
  cases e with
  | add row now =>
    simp only [step] at h
    split at h
    · exact absurd h (by simp)
    · next b1 e1 hadd =>
      injection h with h
      subst h
      exact Add_keeps_size _ _ _ _ _ hadd
  | flush now =>
    simp only [step] at h
    injection h with h
    subst h
    exact Flush_keeps_size _ _
  | tick now =>
    simp only [step] at h
    split at h
    · exact absurd h (by simp)
    · injection h with h
      subst h
      exact ⟨rfl, fun hs => hs⟩
  | tickSend =>
    simp only [step] at h
    split at h
    · split at h
      · exact absurd h (by simp)
      · injection h with h
        subst h
        exact ⟨rfl, fun hs => hs⟩
    · exact absurd h (by simp)
  | receive =>
    simp only [step] at h
    split at h
    · exact absurd h (by simp)
    · injection h with h
      subst h
      exact ⟨rfl, fun hs => hs⟩
  | close =>
    simp only [step, Close] at h
    split at h
    · exact absurd h (by simp)
    · next b1 e1 hclose =>
      injection h with h
      subst h
      split at hclose
      · exact absurd hclose (by simp)
      · injection hclose with hclose
        injection hclose with hclose _
        subst hclose
        exact ⟨rfl, fun hs => hs⟩

theorem runEvents_keeps_size (evs : List Event) :
    ∀ s s1 : System, runEvents s evs = some s1 →
      s1.batcher.cfg = s.batcher.cfg ∧
        (s.batcher.currentSize = rowsSize s.batcher.rows →
          s1.batcher.currentSize = rowsSize s1.batcher.rows) := by
  induction evs with
  | nil =>
    intro s s1 h
    simp only [runEvents] at h
    injection h with h
    subst h
    exact ⟨rfl, fun hs => hs⟩
  | cons e rest ih =>
    intro s s1 h
    simp only [runEvents] at h
    split at h
    · next s2 hstep =>
      obtain ⟨hc1, hs1⟩ := step_keeps_size s s2 e hstep
      obtain ⟨hc2, hs2⟩ := ih s2 s1 h
      exact ⟨hc2.trans hc1, fun hs => hs2 (hs1 hs)⟩
    · exact absurd h (by simp)

/-- C21. In every state reachable from `NewMemoryBatcher` by `Add`, `Flush`,
timer, dispatcher and `Close` steps, `currentSize` equals the sum, over all
values of all accumulated rows, of the length of a string and 8 for any other
value; so `currentSize = 0` whenever `rows` is empty, after construction and
after every `Flush`. -/
theorem currentSize_is_sum (cfg : BatchConfig) (t0 : Int) (evs : List Event) (s : System)
    (h : runEvents (initSystem cfg t0) evs = some s) :
    s.batcher.currentSize = rowsSize s.batcher.rows ∧
    (s.batcher.rows = [] → s.batcher.currentSize = 0) ∧
    (NewMemoryBatcher cfg t0).rows = [] ∧ (NewMemoryBatcher cfg t0).currentSize = 0 ∧
    (∀ now, (Flush s.batcher now).1.rows = [] ∧ (Flush s.batcher now).1.currentSize = 0) := by
  have hsum : s.batcher.currentSize = rowsSize s.batcher.rows :=
    (runEvents_keeps_size evs _ s h).2 rfl
  have hzero : s.batcher.rows = [] → s.batcher.currentSize = 0 := by
    intro hr
    rw [hsum, hr]
    rfl
  refine ⟨hsum, hzero, rfl, rfl, ?_⟩
  intro now
  refine ⟨Flush_rows _ _, ?_⟩
  have hf := (Flush_keeps_size s.batcher now).2 hsum
  rw [hf, Flush_rows]
  rfl

/-- Witness for C21: two rows added, with a string of three bytes, a
`json.Number` and an integer. -/
theorem currentSize_is_sum_witness :
    runEvents (initSystem ⟨100, 1000, 5, 1⟩ 0)
        [Event.add [Value.str "abc", Value.int64 1] 1, Event.add [Value.jsonNumber "1.25"] 2]
      = some ⟨⟨⟨100, 1000, 5, 1⟩,
          [[Value.str "abc", Value.int64 1], [Value.jsonNumber "1.25"]], 19,
          ⟨0, 1, false⟩, 0, false⟩, false⟩ ∧
    (19 : Int) = rowsSize [[Value.str "abc", Value.int64 1], [Value.jsonNumber "1.25"]] :=
  ⟨by decide,
    (currentSize_is_sum ⟨100, 1000, 5, 1⟩ 0
      [Event.add [Value.str "abc", Value.int64 1] 1, Event.add [Value.jsonNumber "1.25"] 2]
      ⟨⟨⟨100, 1000, 5, 1⟩,
        [[Value.str "abc", Value.int64 1], [Value.jsonNumber "1.25"]], 19,
        ⟨0, 1, false⟩, 0, false⟩, false⟩ (by decide)).1⟩

/-- C28 (as stated) fails when a `Flush` runs between the check of a tick and
its send. With `MaxBatchRows = 1`: a row is added (and signalled), the tick of
`Start` finds `ShouldFlush` true, the dispatcher receives the signal and
flushes; the accumulator is now empty and `ShouldFlush` is false, yet the tick
goes on to its send, outside the lock, and deposits a flush signal. -/
theorem tick_deposits_after_Flush :
    runEvents (initSystem ⟨1, 1000, 5, 1⟩ 0)
        [Event.add [Value.int64 1] 1, Event.tick 2, Event.receive, Event.flush 3]
      = some ⟨⟨⟨1, 1000, 5, 1⟩, [], 0, ⟨0, 1, false⟩, 3, false⟩, true⟩ ∧
    ShouldFlush ⟨⟨1, 1000, 5, 1⟩, [], 0, ⟨0, 1, false⟩, 3, false⟩ 4 = false ∧
    step ⟨⟨⟨1, 1000, 5, 1⟩, [], 0, ⟨0, 1, false⟩, 3, false⟩, true⟩ Event.tickSend
      = StepResult.next ⟨⟨⟨1, 1000, 5, 1⟩, [], 0, ⟨1, 1, false⟩, 3, false⟩, false⟩ := by
  decide

/-- C28 (amended). With `MaxBatchRows > 0` and `MaxBatchSize > 0`, in every
reachable state with no accumulated rows `ShouldFlush` is false at every
time; so every tick of `Start` whose check runs on the empty accumulator,
however long after the last flush, leaves the state as it is, with no send
pending, and is not followed by a send. -/
theorem ShouldFlush_false_when_empty (cfg : BatchConfig) (t0 : Int) (evs : List Event)
    (s : System) (hrows : 0 < cfg.MaxBatchRows) (hsize : 0 < cfg.MaxBatchSize)
    (h : runEvents (initSystem cfg t0) evs = some s) (hempty : s.batcher.rows = []) :
    ∀ now : Int,
      ShouldFlush s.batcher now = false ∧
      (∀ s1, step s (Event.tick now) = StepResult.next s1 →
        s1 = s ∧ s1.timerSend = false ∧ step s1 Event.tickSend = StepResult.disabled) ∧
      (s.timerSend = false →
        step s (Event.tick now) = StepResult.next s ∧
        step s Event.tickSend = StepResult.disabled) := by
  obtain ⟨hcfg, hsum⟩ := runEvents_keeps_size evs _ s h
  have hcfg1 : s.batcher.cfg = cfg := hcfg
  have hzero : s.batcher.currentSize = 0 := by
    rw [hsum rfl, hempty]
    rfl
  intro now
  have hfalse : ShouldFlush s.batcher now = false := by
    unfold ShouldFlush shouldFlushLocked
    rw [hempty, hzero, hcfg1]
    have h1 : ¬ ((([] : List Row).length : Int) ≥ cfg.MaxBatchRows) := by
      simp only [List.length_nil]
      omega
    have h2 : ¬ ((0 : Int) ≥ cfg.MaxBatchSize) := by omega
    rw [if_neg h1, if_neg h2]
    split
    · simp
    · rfl
  have htick : s.timerSend = false →
      step s (Event.tick now) = StepResult.next s ∧
      step s Event.tickSend = StepResult.disabled := by
    intro ht
    constructor
    · simp only [step, ht, hfalse]
      cases s with
      | mk b t =>
        simp only at ht
        subst ht
        rfl
    · simp [step, ht]
  refine ⟨hfalse, ?_, htick⟩
  intro s1 hstep
  cases ht : s.timerSend with
  | true =>
    simp [step, ht] at hstep
  | false =>
    obtain ⟨hnext, hsend⟩ := htick ht
    rw [hnext] at hstep
    injection hstep with hstep
    subst hstep
    exact ⟨rfl, ht, hsend⟩

/-- Witness for C28 (amended): a row is added and flushed; ten minutes later
the accumulator is still empty and a tick changes nothing. -/
theorem ShouldFlush_false_when_empty_witness :
    runEvents (initSystem ⟨100, 1000, 5, 1⟩ 0) [Event.add [Value.int64 1] 1, Event.flush 2]
      = some ⟨⟨⟨100, 1000, 5, 1⟩, [], 0, ⟨0, 1, false⟩, 2, false⟩, false⟩ ∧
    ShouldFlush ⟨⟨100, 1000, 5, 1⟩, [], 0, ⟨0, 1, false⟩, 2, false⟩ 600000000000 = false :=
  ⟨by decide,
    (ShouldFlush_false_when_empty ⟨100, 1000, 5, 1⟩ 0
      [Event.add [Value.int64 1] 1, Event.flush 2]
      ⟨⟨⟨100, 1000, 5, 1⟩, [], 0, ⟨0, 1, false⟩, 2, false⟩, false⟩
      (by decide) (by decide) (by decide) rfl 600000000000).1⟩

/-! ## Counters of the mapper -/

/-- The only side effect of `MapJSONToRow` is the warning of a failed
conversion: it updates no metric. -/
theorem MapJSONToRowEffects_only_warn (lib : Sonic) (schema : Schema) (jsonBytes : List UInt8)
    (e : Effect) (he : e ∈ MapJSONToRowEffects lib schema jsonBytes) :
    e = Effect.log "warn" "field type conversion failed, using zero value" := by
  unfold MapJSONToRowEffects at he
  generalize schema.Columns = cols at he
  induction cols with
  | nil => simp at he
  | cons col rest ih =>
    simp only [List.map_cons, List.foldr_cons, List.mem_append] at he
    rcases he with h | h
    · unfold columnEffects at h
      split at h
      · simp at h
      · split at h
        · simp at h
        · split at h
          simp at h
          exact h.2
    · exact ih h

/-- C22 at the two examples of the specification. With the schema
`[id:BIGINT, flag:BOOLEAN]` and the document `{"id":42}` the column `flag` is
degraded to `false` and `MapJSONToRow` has no side effect at all; with the
schema `[age:INT]` and the document `{"age":"not a number"}` the column is
degraded to 0 and the only side effect is a warning in the log. In neither
case is `field_missing_total` or `field_type_conversion_errors_total`
incremented. -/
theorem MapJSONToRow_counts_nothing :
    MapJSONToRow (documentLib [("id", numberNode "42" 42)])
        (NewSchema [⟨"id", "BIGINT"⟩, ⟨"flag", "BOOLEAN"⟩])
        [123, 34, 105, 100, 34, 58, 52, 50, 125]
      = ([Value.int64 42, Value.bool false], Error.nil) ∧
    MapJSONToRowEffects (documentLib [("id", numberNode "42" 42)])
        (NewSchema [⟨"id", "BIGINT"⟩, ⟨"flag", "BOOLEAN"⟩])
        [123, 34, 105, 100, 34, 58, 52, 50, 125] = [] ∧
    MapJSONToRow (documentLib [("age", textNode "not a number")])
        (NewSchema [⟨"age", "INT"⟩])
        [123, 34, 97, 103, 101, 34, 58, 34, 110, 111, 116, 32, 97, 32, 110, 117, 109, 98,
         101, 114, 34, 125]
      = ([Value.int64 0], Error.nil) ∧
    MapJSONToRowEffects (documentLib [("age", textNode "not a number")])
        (NewSchema [⟨"age", "INT"⟩])
        [123, 34, 97, 103, 101, 34, 58, 34, 110, 111, 116, 32, 97, 32, 110, 117, 109, 98,
         101, 114, 34, 125]
      = [Effect.log "warn" "field type conversion failed, using zero value"] := by
  decide

/-! ## The two dispatch paths -/

/-- C23 at the default pool of four workers: one row, a network that answers
200 with the body `{"Status":"Success"}`. The inline path (worker count 1)
writes the batch and records the nine success updates; the worker-pool path
(worker count 4) records `batch_flush_total` with the label `submitted`, and
the worker that then writes the batch records nothing, so the flush and
stream-load updates of the two paths differ. -/
theorem doFlush_paths_differ :
    doFlush ⟨fun _ => worldReply 200 "\x7b\"Status\":\"Success\"\x7d" "Success", fun _ => none⟩ exampleEncoder
        ⟨⟨["fe:8030"], 9030, "db", "t", "u", "p", 30, 3⟩, "Basic x", ["id"]⟩
        ⟨startedConsumer, ⟨⟨100, 1000, 5, 1⟩, [[Value.int64 7]], 8, ⟨1, 1, false⟩, 0, false⟩,
          [], none⟩
        10 11 12
      = some (⟨startedConsumer, ⟨⟨100, 1000, 5, 1⟩, [], 0, ⟨1, 1, false⟩, 11, false⟩,
            successMetrics [[Value.int64 7]] 2, none⟩,
          [[[Value.int64 7]]]) ∧
    doFlush ⟨fun _ => worldReply 200 "\x7b\"Status\":\"Success\"\x7d" "Success", fun _ => none⟩ exampleEncoder
        ⟨⟨["fe:8030"], 9030, "db", "t", "u", "p", 30, 3⟩, "Basic x", ["id"]⟩
        ⟨startedConsumer, ⟨⟨100, 1000, 5, 4⟩, [[Value.int64 7]], 8, ⟨1, 1, false⟩, 0, false⟩,
          [], some ⟨4, [], false⟩⟩
        10 11 12
      = some (⟨startedConsumer, ⟨⟨100, 1000, 5, 4⟩, [], 0, ⟨1, 1, false⟩, 11, false⟩,
            [MetricUpdate.inc "batch_flush_total" ["submitted"]],
            some ⟨4, [[[Value.int64 7]]], false⟩⟩,
          []) ∧
    workerStep ⟨fun _ => worldReply 200 "\x7b\"Status\":\"Success\"\x7d" "Success", fun _ => none⟩ exampleEncoder
        ⟨⟨["fe:8030"], 9030, "db", "t", "u", "p", 30, 3⟩, "Basic x", ["id"]⟩ false
        ⟨startedConsumer, ⟨⟨100, 1000, 5, 4⟩, [], 0, ⟨1, 1, false⟩, 11, false⟩,
          [MetricUpdate.inc "batch_flush_total" ["submitted"]],
          some ⟨4, [[[Value.int64 7]]], false⟩⟩
        WorkerEvent.receive
      = some (⟨startedConsumer, ⟨⟨100, 1000, 5, 4⟩, [], 0, ⟨1, 1, false⟩, 11, false⟩,
            [MetricUpdate.inc "batch_flush_total" ["submitted"]], some ⟨4, [], false⟩⟩,
          true, [[[Value.int64 7]]]) ∧
    successMetrics [[Value.int64 7]] 2 ≠ [MetricUpdate.inc "batch_flush_total" ["submitted"]] := by
  decide

/-- What each dispatch path does, for every writer and network. `NewPipeline`
creates a worker pool exactly when `flushWorkerCount > 1`. For a non-empty
batch taken by the dispatcher: the
inline path hands the batch to `Writer.Write` once and records the flush and
stream-load updates of the outcome (the success updates, or the three failure
updates); the worker-pool path queues the batch and records only
`batch_flush_total` with the label `submitted`; and a worker that receives a
non-empty batch hands it to `Writer.Write` once and records no update. -/
theorem doFlush_paths (env : WriteEnv) (enc : Encoder) (w : StreamLoadWriter) (p : Pipeline)
    (start flushAt finish : Int) (hrows : p.batcher.rows ≠ []) :
    (∀ (c : FranzConsumer) (b : MemoryBatcher) (n : Int),
      (NewPipeline c b n).flushWorker.isSome = true ↔ 1 < n) ∧
    (∀ writeErr events, p.flushWorker = none →
      Write env enc w p.batcher.rows = some (writeErr, events) →
      doFlush env enc w p start flushAt finish
        = some ({ p with
              batcher := (Flush p.batcher flushAt).1,
              metrics := p.metrics ++
                (if writeErr = Error.nil then successMetrics p.batcher.rows (Since finish start)
                 else failureMetrics) },
            [p.batcher.rows])) ∧
    (∀ fw, p.flushWorker = some fw → fw.chanClosed = false →
      (fw.flushChan.length : Int) < fw.workerCount * 2 →
      doFlush env enc w p start flushAt finish
        = some ({ p with
              batcher := (Flush p.batcher flushAt).1,
              flushWorker := some { fw with flushChan := fw.flushChan ++ [p.batcher.rows] },
              metrics := p.metrics ++ [MetricUpdate.inc "batch_flush_total" ["submitted"]] },
            [])) ∧
    (∀ (q : Pipeline) (fw : FlushWorker) (task : List Row) (rest : List (List Row))
        (ctxCancelled : Bool) (result : Error × List WriteEvent),
      q.flushWorker = some fw → fw.flushChan = task :: rest → task ≠ [] →
      Write env enc w task = some result →
      workerStep env enc w ctxCancelled q WorkerEvent.receive
        = some ({ q with flushWorker := some { fw with flushChan := rest } }, true, [task])) := by
  have hlen : ¬ p.batcher.rows.length = 0 := fun h => hrows (List.length_eq_zero.mp h)
  have hflush : Flush p.batcher flushAt
      = ((Flush p.batcher flushAt).1, p.batcher.rows, Error.nil) := by
    unfold Flush
    rw [if_neg hlen]
  refine ⟨?_, ?_, ?_, ?_⟩
  · intro c b n
    unfold NewPipeline
    by_cases hn : n > 1
    · simp [hn]
    · simp [hn]
  · intro writeErr events hnone hwrite
    unfold doFlush
    rw [hflush]
    simp only [ne_eq, not_true_eq_false, if_false, hlen, hnone, hwrite]
    by_cases herr : writeErr = Error.nil
    · simp [herr]
    · simp [herr]
  · intro fw hsome hopen hroom
    unfold doFlush
    rw [hflush]
    simp only [ne_eq, not_true_eq_false, if_false, hlen, hsome, Submit, hopen, hroom,
      Bool.false_eq_true, if_true]
  · intro q fw task rest ctxCancelled result hsome hchan htask hwrite
    have htl : ¬ task.length = 0 := fun h => htask (List.length_eq_zero.mp h)
    simp only [workerStep, hsome, hchan, workerDoFlush, htl, if_false, hwrite]

/-- The inline path on one row with a network that refuses the connection,
`MaxRetries = 0`: the three failure updates. -/
theorem doFlush_paths_witness :
    doFlush ⟨fun _ => worldDown, fun _ => none⟩ exampleEncoder
        ⟨⟨["fe:8030"], 9030, "db", "t", "u", "p", 30, 0⟩, "Basic x", ["id"]⟩
        ⟨startedConsumer, ⟨⟨100, 1000, 5, 1⟩, [[Value.int64 7]], 8, ⟨1, 1, false⟩, 0, false⟩,
          [], none⟩
        10 11 12
      = some (⟨startedConsumer, ⟨⟨100, 1000, 5, 1⟩, [], 0, ⟨1, 1, false⟩, 11, false⟩,
            failureMetrics, none⟩,
          [[[Value.int64 7]]]) :=
  (doFlush_paths ⟨fun _ => worldDown, fun _ => none⟩ exampleEncoder
    ⟨⟨["fe:8030"], 9030, "db", "t", "u", "p", 30, 0⟩, "Basic x", ["id"]⟩
    ⟨startedConsumer, ⟨⟨100, 1000, 5, 1⟩, [[Value.int64 7]], 8, ⟨1, 1, false⟩, 0, false⟩,
      [], none⟩
    10 11 12 (by decide)).2.1
    (Error.sinker ErrCodeDorisStreamLoad "stream load failed after retries"
      (Error.sinker ErrCodeDorisStreamLoad "failed to send request"
        (Error.foreign "connection refused")))
    [WriteEvent.attempt 0 "\x7b\"id\":7\x7d"] rfl (by decide)

/-- C24 at a pool of two workers whose queue `Stop` has closed, empty, with a
context that is not cancelled. A worker's receive from the closed queue
yields the zero task at once, `doFlush` returns for its nil batch, and the
loop goes round again: after any number of passes the worker is still
running and has written nothing, and its `ctx.Done()` branch is not ready, so
`wg.Wait()` in `Stop` does not return. -/
theorem worker_spins_on_closed_queue (env : WriteEnv) (enc : Encoder) (w : StreamLoadWriter)
    (n : Nat) :
    StopFlushWorker (NewFlushWorker 2) = some ⟨2, [], true⟩ ∧
    runWorker env enc w false
        ⟨startedConsumer, NewMemoryBatcher ⟨100, 1000, 5, 2⟩ 0, [], some ⟨2, [], true⟩⟩
        (List.replicate n WorkerEvent.receive)
      = some (⟨startedConsumer, NewMemoryBatcher ⟨100, 1000, 5, 2⟩ 0, [],
            some ⟨2, [], true⟩⟩, true, []) ∧
    workerStep env enc w false
        ⟨startedConsumer, NewMemoryBatcher ⟨100, 1000, 5, 2⟩ 0, [], some ⟨2, [], true⟩⟩
        WorkerEvent.ctxDone = none := by
  refine ⟨rfl, ?_, rfl⟩
  induction n with
  | zero => rfl
  | succ n ih =>
    rw [List.replicate_succ, runWorker]
    have hstep : workerStep env enc w false
        ⟨startedConsumer, NewMemoryBatcher ⟨100, 1000, 5, 2⟩ 0, [], some ⟨2, [], true⟩⟩
        WorkerEvent.receive
        = some (⟨startedConsumer, NewMemoryBatcher ⟨100, 1000, 5, 2⟩ 0, [],
            some ⟨2, [], true⟩⟩, true, []) := by
      rfl
    rw [hstep]
    dsimp only
    rw [ih]
    rfl

/-! ## Errors of message processing, retries below zero, validation -/

/-- Whenever `Add` returns, it returns nil. -/
theorem Add_returns_nil (b b1 : MemoryBatcher) (row : Row) (now : Int) (e : Error)
    (h : Add b row now = some (b1, e)) : e = Error.nil := by
  unfold Add at h
  split at h
  · injection h with h
    injection h with _ h
    exact h.symm
  · dsimp only at h
    split at h
    · split at h
      · exact absurd h (by simp)
      · injection h with h
        injection h with _ h
        exact h.symm
    · injection h with h
      injection h with _ h
      exact h.symm

/-- `Add` returns on every batcher whose channel is closed only if the
batcher is. -/
theorem Add_total (b : MemoryBatcher) (row : Row) (now : Int)
    (hinv : b.flushChan.closed = true → b.closed = true) :
    ∃ b1, Add b row now = some (b1, Error.nil) := by
  unfold Add
  by_cases hc : b.closed = true
  · rw [if_pos hc]
    exact ⟨b, rfl⟩
  · rw [if_neg hc]
    dsimp only
    have hch : b.flushChan.closed = false := by
      cases hcl : b.flushChan.closed with
      | false => rfl
      | true => exact absurd (hinv hcl) hc
    have htry : ∃ c, b.flushChan.trySend = some c := by
      unfold Chan.trySend
      rw [hch]
      simp only [Bool.false_eq_true, if_false]
      split
      · exact ⟨_, rfl⟩
      · exact ⟨_, rfl⟩
    obtain ⟨c, hc1⟩ := htry
    split
    · rw [hc1]
      exact ⟨_, rfl⟩
    · exact ⟨_, rfl⟩

/-- C25. For every message value and every pipeline whose batcher is in a
state that its methods can produce (the signal channel is closed only if the
batcher is), `MapJSONToRow` returns a nil error, `Add` returns a nil error
whenever it returns, and `processMessage` returns nil; so `processMessages`
takes its success branch, counting the message and its bytes, and never the
`process_error` branch. -/
theorem processMessage_returns_nil (lib : Sonic) (schema : Schema) (p : Pipeline)
    (msg : Message) (now : Int)
    (hinv : p.batcher.flushChan.closed = true → p.batcher.closed = true) :
    (MapJSONToRow lib schema msg.Value).2 = Error.nil ∧
    (∀ (b b1 : MemoryBatcher) (row : Row) (t : Int) (e : Error),
      Add b row t = some (b1, e) → e = Error.nil) ∧
    (∃ p1, processMessage lib schema p msg now = some (p1, Error.nil) ∧
      handleMessage lib schema p msg now
        = some { p1 with
            metrics := p1.metrics ++
              [MetricUpdate.inc "kafka_messages_consumed_total" [msg.Topic],
               MetricUpdate.add "kafka_bytes_consumed_total" [msg.Topic] msg.Value.length] }) ∧
    (∀ p1 e, processMessage lib schema p msg now = some (p1, e) → e = Error.nil) := by
  have hmap : MapJSONToRow lib schema msg.Value
      = (schema.Columns.map (columnValue lib msg.Value), Error.nil) :=
    MapJSONToRow_eq_map lib schema msg.Value
  obtain ⟨b1, hadd⟩ := Add_total p.batcher (schema.Columns.map (columnValue lib msg.Value)) now
    hinv
  have hproc : processMessage lib schema p msg now
      = some ({ p with batcher := b1,
                       metrics := p.metrics ++ [MetricUpdate.set "batch_current_rows" (Size b1)] },
          Error.nil) := by
    unfold processMessage
    rw [hmap]
    simp [hadd]
  refine ⟨by rw [hmap], fun b b1 row t e h => Add_returns_nil b b1 row t e h, ?_, ?_⟩
  · refine ⟨_, hproc, ?_⟩
    unfold handleMessage
    rw [hproc]
    simp
  · intro p1 e h
    rw [hproc] at h
    injection h with h
    injection h with _ h
    exact h.symm

/-- Witness for C25: a message whose value is not JSON, on a fresh pipeline. -/
theorem processMessage_returns_nil_witness :
    processMessage (documentLib []) (NewSchema [⟨"id", "BIGINT"⟩])
        ⟨startedConsumer, NewMemoryBatcher ⟨100, 1000, 5, 1⟩ 0, [], none⟩
        ⟨"events", 0, 5, [], [110, 111, 116, 32, 106, 115, 111, 110], 0⟩ 1
      = some (⟨startedConsumer,
            ⟨⟨100, 1000, 5, 1⟩, [[Value.int64 0]], 8, ⟨0, 1, false⟩, 0, false⟩,
            [MetricUpdate.set "batch_current_rows" 1], none⟩, Error.nil) ∧
    (MapJSONToRow (documentLib []) (NewSchema [⟨"id", "BIGINT"⟩])
        [110, 111, 116, 32, 106, 115, 111, 110]).2 = Error.nil :=
  ⟨by decide,
    (processMessage_returns_nil (documentLib []) (NewSchema [⟨"id", "BIGINT"⟩])
      ⟨startedConsumer, NewMemoryBatcher ⟨100, 1000, 5, 1⟩ 0, [], none⟩
      ⟨"events", 0, 5, [], [110, 111, 116, 32, 106, 115, 111, 110], 0⟩ 1
      (by decide)).1⟩

/-- `Validate` does not look at `MaxRetries`. -/
theorem Validate_ignores_MaxRetries (cfg : Config) (m : Int) :
    (Validate { cfg with Doris := { cfg.Doris with MaxRetries := m } }).2 = (Validate cfg).2 := by
  unfold Validate
  dsimp only
  by_cases h0 : cfg.Kafka.Brokers.length = 0
  · rw [if_pos h0, if_pos h0]
  rw [if_neg h0, if_neg h0]
  by_cases h1 : cfg.Kafka.Topic = ""
  · rw [if_pos h1, if_pos h1]
  rw [if_neg h1, if_neg h1]
  by_cases h2 : cfg.Kafka.GroupID = ""
  · rw [if_pos h2, if_pos h2]
  rw [if_neg h2, if_neg h2]
  by_cases h3 : cfg.Kafka.MaxFetchRecords ≤ 0
  · rw [if_pos h3, if_pos h3]
  rw [if_neg h3, if_neg h3]
  by_cases h4 : cfg.Kafka.MaxFetchBytes ≤ 0
  · rw [if_pos h4, if_pos h4]
  rw [if_neg h4, if_neg h4]
  by_cases h5 : cfg.Doris.FEHosts.length = 0
  · rw [if_pos h5, if_pos h5]
  rw [if_neg h5, if_neg h5]
  by_cases h6 : cfg.Doris.Database = ""
  · rw [if_pos h6, if_pos h6]
  rw [if_neg h6, if_neg h6]
  by_cases h7 : cfg.Doris.Table = ""
  · rw [if_pos h7, if_pos h7]
  rw [if_neg h7, if_neg h7]
  by_cases h8 : cfg.Doris.User = ""
  · rw [if_pos h8, if_pos h8]
  rw [if_neg h8, if_neg h8]
  by_cases h9 : cfg.Doris.QueryPort ≤ 0
  · rw [if_pos h9, if_pos h9]
    rfl
  rw [if_neg h9, if_neg h9]
  rfl

/-- C26. For a non-empty batch and `MaxRetries < 0`, `Write` makes no
stream-load attempt and no wait and returns an error with code
DorisStreamLoad whose wrapped cause is nil; `Validate` accepts such a value:
the default configuration with `MaxRetries = -1` passes, and changing
`MaxRetries` never changes the verdict of `Validate`. -/
theorem Write_negative_retries (env : WriteEnv) (enc : Encoder) (w : StreamLoadWriter)
    (batch : List Row) (hbatch : batch ≠ []) (hneg : w.cfg.MaxRetries < 0) :
    Write env enc w batch
      = some (Error.sinker ErrCodeDorisStreamLoad "stream load failed after retries" Error.nil,
          []) ∧
    (Validate { DefaultConfig with Doris := { DefaultConfig.Doris with MaxRetries := -1 } }).2
      = Error.nil ∧
    (∀ (cfg : Config) (m : Int),
      (Validate { cfg with Doris := { cfg.Doris with MaxRetries := m } }).2
        = (Validate cfg).2) := by
  refine ⟨?_, by decide, Validate_ignores_MaxRetries⟩
  have hlen : ¬ batch.length = 0 := fun h => hbatch (List.length_eq_zero.mp h)
  have hfuel : (w.cfg.MaxRetries + 1).toNat + 1 = 0 + 1 := by omega
  have hcond : ¬ (((0 : Nat) : Int) ≤ w.cfg.MaxRetries) := by omega
  unfold Write
  rw [if_neg hlen, hfuel, retryLoop, if_neg hcond]
  rfl

/-- Witness for C26: `MaxRetries = -1` and one row. -/
theorem Write_negative_retries_witness :
    Write ⟨fun _ => worldReply 200 "\x7b\"Status\":\"Success\"\x7d" "Success", fun _ => none⟩ exampleEncoder
        ⟨⟨["fe:8030"], 9030, "db", "t", "u", "p", 30, -1⟩, "Basic x", ["id"]⟩
        [[Value.int64 7]]
      = some (Error.sinker ErrCodeDorisStreamLoad "stream load failed after retries" Error.nil,
          []) :=
  (Write_negative_retries ⟨fun _ => worldReply 200 "\x7b\"Status\":\"Success\"\x7d" "Success", fun _ => none⟩ exampleEncoder
    ⟨⟨["fe:8030"], 9030, "db", "t", "u", "p", 30, -1⟩, "Basic x", ["id"]⟩
    [[Value.int64 7]] (by decide) (by decide)).1

theorem validateBatchAndRest_nil (cfg : Config) (h : validateBatchAndRest cfg = Error.nil) :
    0 < cfg.Batch.MaxBatchRows ∧ 0 < cfg.Batch.MaxBatchSize ∧
      0 < cfg.Batch.MaxBatchInterval := by
  unfold validateBatchAndRest at h
  split at h
  · exact absurd h (by simp [New])
  · split at h
    · exact absurd h (by simp [New])
    · split at h
      · exact absurd h (by simp [New])
      · refine ⟨?_, ?_, ?_⟩ <;> omega

/-- C27. If `Validate(cfg)` returns nil then `cfg.Doris.FEHosts` and
`cfg.Kafka.Brokers` are non-empty, before and after the call, so that
`doStreamLoad` returns instead of failing on `FEHosts[0]`, and `MaxBatchRows`,
`MaxBatchSize` and `MaxBatchInterval` are positive; and `DefaultConfig()` is
accepted by `Validate`. -/
theorem Validate_guarantees (cfg : Config) (h : (Validate cfg).2 = Error.nil) :
    cfg.Doris.FEHosts ≠ [] ∧ cfg.Kafka.Brokers ≠ [] ∧
    (Validate cfg).1.Doris.FEHosts = cfg.Doris.FEHosts ∧
    (Validate cfg).1.Kafka.Brokers = cfg.Kafka.Brokers ∧
    (Validate cfg).1.Batch = cfg.Batch ∧
    0 < cfg.Batch.MaxBatchRows ∧ 0 < cfg.Batch.MaxBatchSize ∧
    0 < cfg.Batch.MaxBatchInterval ∧
    (∀ (world : HTTPWorld) (columns : List String) (authHeader data : String) (rowCount : Nat),
      ∃ e, doStreamLoad world ⟨(Validate cfg).1.Doris, authHeader, columns⟩ data rowCount
        = some e) ∧
    (Validate DefaultConfig).2 = Error.nil := by
  have hstream : ∀ (d : DorisConfig), d.FEHosts ≠ [] →
      ∀ (world : HTTPWorld) (columns : List String) (authHeader data : String)
        (rowCount : Nat),
        ∃ e, doStreamLoad world ⟨d, authHeader, columns⟩ data rowCount = some e := by
    intro d hd world columns authHeader data rowCount
    unfold doStreamLoad
    cases hh : d.FEHosts with
    | nil => exact absurd hh hd
    | cons feHost rest =>
      simp only [hh]
      split
      · exact ⟨_, rfl⟩
      · split
        · exact ⟨_, rfl⟩
        · split
          · exact ⟨_, rfl⟩
          · split
            · exact ⟨_, rfl⟩
            · split
              · exact ⟨_, rfl⟩
              · exact ⟨_, rfl⟩
  have hall : (Validate cfg).1.Doris.FEHosts = cfg.Doris.FEHosts ∧
      (Validate cfg).1.Kafka.Brokers = cfg.Kafka.Brokers ∧
      (Validate cfg).1.Batch = cfg.Batch ∧
      ((Validate cfg).2 = Error.nil →
        cfg.Doris.FEHosts ≠ [] ∧ cfg.Kafka.Brokers ≠ [] ∧
        0 < cfg.Batch.MaxBatchRows ∧ 0 < cfg.Batch.MaxBatchSize ∧
        0 < cfg.Batch.MaxBatchInterval) := by
    unfold Validate
    by_cases h0 : cfg.Kafka.Brokers.length = 0
    · rw [if_pos h0]
      exact ⟨rfl, rfl, rfl, fun h => absurd h (by simp [New])⟩
    rw [if_neg h0]
    by_cases h1 : cfg.Kafka.Topic = ""
    · rw [if_pos h1]
      exact ⟨rfl, rfl, rfl, fun h => absurd h (by simp [New])⟩
    rw [if_neg h1]
    by_cases h2 : cfg.Kafka.GroupID = ""
    · rw [if_pos h2]
      exact ⟨rfl, rfl, rfl, fun h => absurd h (by simp [New])⟩
    rw [if_neg h2]
    by_cases h3 : cfg.Kafka.MaxFetchRecords ≤ 0
    · rw [if_pos h3]
      exact ⟨rfl, rfl, rfl, fun h => absurd h (by simp [New])⟩
    rw [if_neg h3]
    by_cases h4 : cfg.Kafka.MaxFetchBytes ≤ 0
    · rw [if_pos h4]
      exact ⟨rfl, rfl, rfl, fun h => absurd h (by simp [New])⟩
    rw [if_neg h4]
    by_cases h5 : cfg.Doris.FEHosts.length = 0
    · rw [if_pos h5]
      exact ⟨rfl, rfl, rfl, fun h => absurd h (by simp [New])⟩
    rw [if_neg h5]
    by_cases h6 : cfg.Doris.Database = ""
    · rw [if_pos h6]
      exact ⟨rfl, rfl, rfl, fun h => absurd h (by simp [New])⟩
    rw [if_neg h6]
    by_cases h7 : cfg.Doris.Table = ""
    · rw [if_pos h7]
      exact ⟨rfl, rfl, rfl, fun h => absurd h (by simp [New])⟩
    rw [if_neg h7]
    by_cases h8 : cfg.Doris.User = ""
    · rw [if_pos h8]
      exact ⟨rfl, rfl, rfl, fun h => absurd h (by simp [New])⟩
    rw [if_neg h8]
    have hfe : cfg.Doris.FEHosts ≠ [] := fun h => h5 (by rw [h]; rfl)
    have hbr : cfg.Kafka.Brokers ≠ [] := fun h => h0 (by rw [h]; rfl)
    by_cases h9 : cfg.Doris.QueryPort ≤ 0
    · rw [if_pos h9]
      exact ⟨rfl, rfl, rfl, fun h => ⟨hfe, hbr, validateBatchAndRest_nil _ h⟩⟩
    rw [if_neg h9]
    exact ⟨rfl, rfl, rfl, fun h => ⟨hfe, hbr, validateBatchAndRest_nil _ h⟩⟩
  have hfst := And.intro hall.1 (And.intro hall.2.1 hall.2.2.1)
  have hnil := hall.2.2.2 h
  obtain ⟨hfe, hbr, h1, h2, h3⟩ := hnil
  exact ⟨hfe, hbr, hfst.1, hfst.2.1, hfst.2.2, h1, h2, h3,
    hstream _ (by rw [hfst.1]; exact hfe), by decide⟩

/-- Witness for C27: the default configuration. -/
theorem Validate_guarantees_witness :
    (Validate DefaultConfig).2 = Error.nil ∧ DefaultConfig.Doris.FEHosts ≠ [] :=
  ⟨by decide, (Validate_guarantees DefaultConfig (by decide)).1⟩

end DorisSinker
